import Mathlib

/-!
# CausalTrail: labelled matrix and network model

A shallow embedding of `src/core/Matrix.h` (class template `Matrix<T>`), of
`src/Network.cpp` (class `Network`) and of the learner of `src/core/EM.cpp`
(class `EM`).

Conventions of the embedding.

* A read-only member function that can throw returns `Except Error _`.  A
  mutating member function returns `Except (Failure S) S`: the new object, or
  the exception together with the object as it is when the exception leaves
  the call.
* `std::vector<T>` is a `List T`.  Subscripting a vector past its end is
  undefined behaviour in C++; the embedding reports it as the distinct outcomes
  `Error.vectorOutOfRange` / `Failure.undefinedBehaviour`, so that it is never
  confused with a thrown `std::invalid_argument`.
* `size_t`, `int` and `unsigned int` sizes and indices are natural numbers.  The
  index arithmetic of the embedded functions is carried out in `size_t`; the
  theorems are about matrices whose value store has `colCount_ * rowCount_`
  elements, for which no computed index wraps.  The `int` loop counters of
  `resize` are taken to hold the dimensions they are initialised from
  (dimensions below 2^31), and the `int` results of `findRow` / `findCol` to
  hold the stored index.  Node ids are `unsigned int` values read from text;
  their saturation at `UINT_MAX` is part of the embedding.
* `std::unordered_map` / `std::map` are association lists with at most one
  entry per key (`mapAssign` overwrites like `operator[]` followed by `=`).
* The control flow of the learner is embedded over an abstract `float` with its
  comparison as a parameter; the arithmetic of the M-phase is carried out in the
  rationals, and the loop of an EM run takes a bound on the number of passes,
  which the theorems show to be met by the iteration cap.
-/

namespace CausalTrail

/-- Ways in which an embedded call can fail to return normally. -/
inductive Error where
  /-- A thrown `std::invalid_argument` carrying its message. -/
  | invalidArgument (msg : String)
  /-- A subscript of `data_` past the end of the vector. -/
  | vectorOutOfRange
deriving DecidableEq, Repr

deriving instance DecidableEq for Except

/-- Abnormal end of a call on an object of type `S` that the call may have
modified. -/
inductive Failure (S : Type) where
  /-- A `std::invalid_argument` left the call; `state` is the object at that
  moment (nothing is rolled back when an exception propagates). -/
  | threw (msg : String) (state : S)
  /-- The call subscripted a vector past its end. -/
  | undefinedBehaviour
deriving DecidableEq, Repr

/-- Propagate the failure of a read-only sub-call out of a call on `s`. -/
def raiseIn {S A : Type} (s : S) : Except Error A → Except (Failure S) A
  | .ok a => .ok a
  | .error (.invalidArgument msg) => .error (.threw msg s)
  | .error .vectorOutOfRange => .error .undefinedBehaviour

/-! ## Containers -/

/-- Read `v[i]` of a `std::vector`. -/
def vecRead {T : Type} (v : List T) (i : Nat) : Except Error T :=
  match v[i]? with
  | some x => .ok x
  | none => .error .vectorOutOfRange

/-- Assignment `v[i] = x` on a `std::vector`. -/
def vecWrite {T : Type} (v : List T) (i : Nat) (x : T) : Except Error (List T) :=
  if i < v.length then .ok (v.set i x) else .error .vectorOutOfRange

/-- Call `v.resize(n)` on a `std::vector`: truncates, or pads with
value-initialised elements. -/
def vecResize {T : Type} [Inhabited T] (v : List T) (n : Nat) : List T :=
  v.take n ++ List.replicate (n - v.length) default

/-- Call `m.find(k)` on a map; `none` stands for `m.end()`. -/
def mapFind {K : Type} [DecidableEq K] : List (K × Nat) → K → Option Nat
  | [], _ => none
  | p :: m, k => if p.1 = k then some p.2 else mapFind m k

/-- Statement `m[k] = v` on a map: overwrites the value of the key, or inserts
the key when it is absent. -/
def mapAssign {K : Type} [DecidableEq K] : List (K × Nat) → K → Nat → List (K × Nat)
  | [], k, v => [(k, v)]
  | p :: m, k, v => if p.1 = k then (k, v) :: m else p :: mapAssign m k v

/-- Loop `for (int i = n - 1; i >= 0; i--) body(i)`. -/
def forDown {S : Type} (body : Nat → S → Except Error S) : Nat → S → Except Error S
  | 0, s => .ok s
  | n + 1, s => body n s >>= forDown body n

/-- Loop `for (size_t i = lo; i < lo + count; i++) body(i)`. -/
def forUpFrom {S : Type} (body : Nat → S → Except Error S) : Nat → Nat → S → Except Error S
  | _, 0, s => .ok s
  | lo, count + 1, s => body lo s >>= forUpFrom body (lo + 1) count

/-- Loop `for (size_t i = lo; i < hi; i++) body(i)`. -/
def forUp {S : Type} (body : Nat → S → Except Error S) (lo hi : Nat) (s : S) :
    Except Error S :=
  forUpFrom body lo (hi - lo) s

/-! ## `Matrix<T>` (src/core/Matrix.h) -/

/-- The private data members of `Matrix<T>`. -/
structure Matrix (T : Type) where
  rowCount_ : Nat
  colCount_ : Nat
  rowNames_ : List String
  colNames_ : List String
  rowNamesToIndex_ : List (String × Nat)
  colNamesToIndex_ : List (String × Nat)
  data_ : List T
deriving DecidableEq, Repr

namespace Matrix

variable {T : Type}

/-- Class invariant established by every constructor and kept by `resize` and
`clear`: the value store holds one element per cell. -/
def Sized (m : Matrix T) : Prop :=
  m.data_.length = m.colCount_ * m.rowCount_

instance (m : Matrix T) : Decidable m.Sized := by
  unfold Sized; infer_instance

/-- Member `T& operator()(unsigned int col, unsigned int row)`. -/
def operatorCall (m : Matrix T) (col row : Nat) : Except Error T :=
  if col > m.colCount_ ∨ row > m.rowCount_ then
    .error (.invalidArgument "In Matrix(), Invalid matrix position")
  else
    vecRead m.data_ (col + row * m.colCount_)

/-- Member `void setData(T value, unsigned int col, unsigned int row)`. -/
def setData (m : Matrix T) (value : T) (col row : Nat) :
    Except (Failure (Matrix T)) (Matrix T) :=
  if col > m.colCount_ ∨ row > m.rowCount_ then
    .error (.threw "In setData, Invalid matrix position" m)
  else do
    let d ← raiseIn m (vecWrite m.data_ (col + row * m.colCount_) value)
    pure { m with data_ := d }

/-- Member `const T& getData(unsigned int col, unsigned int row) const`. -/
def getData (m : Matrix T) (col row : Nat) : Except Error T :=
  if col > m.colCount_ ∨ row > m.rowCount_ then
    .error (.invalidArgument "In setData, Invalid matrix position")
  else
    vecRead m.data_ (col + row * m.colCount_)

/-- Member `void setRowNames(const std::vector<std::string>& names)`. -/
def setRowNames (m : Matrix T) (names : List String) : Matrix T :=
  let step := fun (acc : List (String × Nat) × Nat) (n : String) =>
    (mapAssign acc.1 n acc.2, acc.2 + 1)
  { m with rowNames_ := names
           rowNamesToIndex_ := (names.foldl step (m.rowNamesToIndex_, 0)).1 }

/-- Member `void setColNames(const std::vector<std::string>& names)`. -/
def setColNames (m : Matrix T) (names : List String) : Matrix T :=
  let step := fun (acc : List (String × Nat) × Nat) (n : String) =>
    (mapAssign acc.1 n acc.2, acc.2 + 1)
  { m with colNames_ := names
           colNamesToIndex_ := (names.foldl step (m.colNamesToIndex_, 0)).1 }

/-- Member `size_t getRowCount() const`. -/
def getRowCount (m : Matrix T) : Nat := m.rowCount_

/-- Member `size_t getColCount() const`. -/
def getColCount (m : Matrix T) : Nat := m.colCount_

/-- Member `std::vector<std::string>& getRowNames()`. -/
def getRowNames (m : Matrix T) : List String := m.rowNames_

/-- Member `std::vector<std::string>& getColNames()`. -/
def getColNames (m : Matrix T) : List String := m.colNames_

/-- Constructor `Matrix(int colCount, int rowCount, T initialValue, colNames, rowNames)`;
both name arguments default to `{"NA"}` in the declaration. -/
def create (colCount rowCount : Nat) (initialValue : T)
    (colNames rowNames : List String) : Matrix T :=
  let m : Matrix T :=
    { rowCount_ := rowCount, colCount_ := colCount, rowNames_ := [], colNames_ := [],
      rowNamesToIndex_ := [], colNamesToIndex_ := [],
      data_ := List.replicate (rowCount * colCount) initialValue }
  (m.setColNames colNames).setRowNames rowNames

/-- Member `void clear()`. -/
def clear (m : Matrix T) : Matrix T :=
  { m with colCount_ := 0, rowCount_ := 0, data_ := [] }

/-- Member `void resize(size_t colCount, size_t rowCount, T initialValue)`. -/
def resize [Inhabited T] (m : Matrix T) (colCount rowCount : Nat) (initialValue : T) :
    Except (Failure (Matrix T)) (Matrix T) :=
  if m.colCount_ > colCount ∨ m.rowCount_ > rowCount then
    .error (.threw "Matrices can not be shrinked" m)
  else if m.colCount_ < colCount then raiseIn m do
    let d0 := vecResize m.data_ (colCount * rowCount)
    let d1 ← forDown (fun row d =>
      forDown (fun col d => do
        let x ← vecRead d (col + row * m.colCount_)
        vecWrite d (col + row * m.colCount_ + (colCount - m.colCount_) * row) x)
        m.colCount_ d) m.rowCount_ d0
    let d2 ← forUp (fun row d =>
      forUp (fun col d => vecWrite d (col + row * colCount) initialValue)
        m.colCount_ colCount d) 0 m.rowCount_ d1
    let d3 ← forUp (fun row d =>
      forUp (fun col d => vecWrite d (col + row * colCount) initialValue)
        0 colCount d) m.rowCount_ rowCount d2
    pure { m with data_ := d3, colCount_ := colCount, rowCount_ := rowCount }
  else if m.rowCount_ < rowCount then raiseIn m do
    let d0 := vecResize m.data_ (m.colCount_ * rowCount)
    let d1 ← forUp (fun row d =>
      forUp (fun col d => vecWrite d (col + row * m.colCount_) initialValue)
        0 m.colCount_ d) m.rowCount_ rowCount d0
    pure { m with data_ := d1, colCount_ := colCount, rowCount_ := rowCount }
  else
    pure { m with colCount_ := colCount, rowCount_ := rowCount }

end Matrix

/-! ## Formatted stream input and output (`std::stringstream`)

`Network.cpp` converts between node ids and matrix names with string streams.
The embedding follows the "C"-locale behaviour of the C++11 library. -/

/-- Largest value of `unsigned int`. -/
def UINT_MAX : Nat := 4294967295

/-- Whitespace skipped before a formatted extraction (`std::isspace`). -/
def isSpace (c : Char) : Bool :=
  decide (c.toNat = 32) || (decide (9 ≤ c.toNat) && decide (c.toNat ≤ 13))

/-- Decimal digits (`'0'` to `'9'`). -/
def isDigit (c : Char) : Bool :=
  decide (48 ≤ c.toNat) && decide (c.toNat ≤ 57)

/-- Value of a run of decimal digits, most significant digit first. -/
def digitsValue (cs : List Char) : Nat :=
  cs.foldl (fun v c => v * 10 + (c.toNat - 48)) 0

/-- Input side of a string stream: the unread characters and whether the
stream is still `good()`. -/
structure IStream where
  rest : List Char
  good : Bool
deriving DecidableEq, Repr

/-- Statement `buffer << line` on a fresh string stream. -/
def IStream.ofString (line : String) : IStream :=
  { rest := line.data, good := true }

/-- Statement `nbuffer << id` on a fresh string stream, for `unsigned int id`:
the stream holds the decimal numeral of `id`. -/
def IStream.ofUnsigned (id : Nat) : IStream :=
  { rest := Nat.toDigits 10 id, good := true }

/-- Extraction `stream >> x` for `unsigned int x`; returns the stream and the
new value of `x`.  Nothing is stored when the stream is not good or holds only
whitespace; a field without digits stores 0, a numeral above `UINT_MAX` stores
`UINT_MAX`, and a numeral with a minus sign stores its negation modulo 2^32. -/
def extractUnsigned (s : IStream) (x : Nat) : IStream × Nat :=
  if s.good = false then (s, x)
  else
    match s.rest.dropWhile isSpace with
    | [] => ({ rest := [], good := false }, x)
    | c :: cs =>
      let negative := decide (c.toNat = 45)
      let body := if c.toNat = 45 ∨ c.toNat = 43 then cs else c :: cs
      let ds := body.takeWhile isDigit
      let rest := body.dropWhile isDigit
      if ds.isEmpty then ({ rest := rest, good := false }, 0)
      else if digitsValue ds > UINT_MAX then ({ rest := rest, good := false }, UINT_MAX)
      else if negative then
        ({ rest := rest, good := !rest.isEmpty }, (UINT_MAX + 1 - digitsValue ds) % (UINT_MAX + 1))
      else ({ rest := rest, good := !rest.isEmpty }, digitsValue ds)

/-- Extraction `stream >> x` for `std::string x`; returns the stream and the new
value of `x`.  Nothing is stored when the stream is not good or holds only
whitespace; otherwise `x` becomes the next whitespace-delimited field. -/
def extractString (s : IStream) (x : String) : IStream × String :=
  if s.good = false then (s, x)
  else
    match s.rest.dropWhile isSpace with
    | [] => ({ rest := [], good := false }, x)
    | c :: cs =>
      let rest := (c :: cs).dropWhile (fun ch => !isSpace ch)
      ({ rest := rest, good := !rest.isEmpty },
        String.mk ((c :: cs).takeWhile (fun ch => !isSpace ch)))

/-! ## `Network` (src/Network.cpp) -/

/-- Modelled from the spec: class `Node` (its header is not among the sources).
Only what `Network.cpp` uses is kept: the three arguments of the constructor call
`Node(0, id, name)` and the accessor `getID`. -/
structure Node where
  first : Nat
  id : Nat
  name : String
deriving DecidableEq, Repr

/-- Accessor `Node::getID`. -/
def Node.getID (n : Node) : Nat := n.id

/-- The data members of `Network` used by `Network.cpp`. -/
structure Network where
  NodeList_ : List Node
  IDToIndex_ : List (Nat × Nat)
  NameToIndex_ : List (String × Nat)
  AdjacencyMatrix_ : Matrix Nat
  ExtensionToIndex_ : List (String × Nat)
deriving DecidableEq, Repr

namespace Network

/-- Constructor `Network::Network()`. -/
def create : Network :=
  { NodeList_ := [], IDToIndex_ := [], NameToIndex_ := [],
    AdjacencyMatrix_ := Matrix.create 0 0 0 ["NA"] ["NA"],
    ExtensionToIndex_ := mapAssign (mapAssign (mapAssign [] ".tgf" 0) ".na" 1) ".sif" 2 }

/-- Member `unsigned int getIndex(unsigned int id)`. -/
def getIndex (n : Network) (id : Nat) : Except Error Nat :=
  match mapFind n.IDToIndex_ id with
  | none => .error (.invalidArgument "Identifier not found")
  | some index => .ok index

/-- Member `unsigned int getIndex(std::string name)`. -/
def getIndexByName (n : Network) (name : String) : Except Error Nat :=
  match mapFind n.NameToIndex_ name with
  | none => .error (.invalidArgument "Identifier not found")
  | some index => .ok index

/-- Member `std::vector<unsigned int> getParents(unsigned int id)`.  The local
`temp` is uninitialised in the source; it starts at 0 here. -/
def getParents (n : Network) (id : Nat) : Except Error (List Nat) := do
  let index ← n.getIndex id
  forUp (fun row parentIDs => do
    let cell ← n.AdjacencyMatrix_.operatorCall index row
    if cell = 1 then
      let name ← vecRead n.AdjacencyMatrix_.getRowNames row
      let temp := (extractUnsigned (IStream.ofString name) 0).2
      pure (parentIDs ++ [temp])
    else
      pure parentIDs) 0 n.AdjacencyMatrix_.getRowCount []

/-- Store the outcome of a mutating call on `AdjacencyMatrix_` back into the
network that owns the matrix. -/
def withAdjacency (n : Network) :
    Except (Failure (Matrix Nat)) (Matrix Nat) → Except (Failure Network) Network
  | .ok adj => .ok { n with AdjacencyMatrix_ := adj }
  | .error (.threw msg adj) => .error (.threw msg { n with AdjacencyMatrix_ := adj })
  | .error .undefinedBehaviour => .error .undefinedBehaviour

/-- Member `void cutParents(unsigned int id)`. -/
def cutParents (n : Network) (id : Nat) : Except (Failure Network) Network := do
  let parentIDs ← raiseIn n (n.getParents id)
  let index ← raiseIn n (n.getIndex id)
  parentIDs.foldlM (fun net p => do
    let col ← raiseIn net (net.getIndex p)
    net.withAdjacency (net.AdjacencyMatrix_.setData 0 col index)) n

/-- Member `void addEdge(unsigned int id1, unsigned int id2)`. -/
def addEdge (n : Network) (id1 id2 : Nat) : Except (Failure Network) Network := do
  let col ← raiseIn n (n.getIndex id1)
  let row ← raiseIn n (n.getIndex id2)
  n.withAdjacency (n.AdjacencyMatrix_.setData 1 col row)

/-- Member `void removeEdge(unsigned int id1, unsigned int id2)`. -/
def removeEdge (n : Network) (id1 id2 : Nat) : Except (Failure Network) Network := do
  let col ← raiseIn n (n.getIndex id1)
  let row ← raiseIn n (n.getIndex id2)
  n.withAdjacency (n.AdjacencyMatrix_.setData 0 col row)

/-- Local variables of the node-reading loops of `readTGF` and `readNA`. -/
structure NodeLoop where
  net : Network
  id1 : Nat
  name : String
  waste : String
  ids : String
  index : Nat
  names : List String
deriving DecidableEq, Repr

/-- Body shared by the node-reading loops, after the line has been tokenised
into `id1` and `name`: append the node, record its index under its id and its
name, and collect the stringified id (`nbuffer << id1; nbuffer >> ids`).  The
variable `ids` is local to the loop body in `readTGF` and declared before the
loop in `readNA`. -/
def NodeLoop.push (st : NodeLoop) (id1 : Nat) (name waste : String) : NodeLoop :=
  let ids := (extractString (IStream.ofUnsigned id1) st.ids).2
  { net := { st.net with
      NodeList_ := st.net.NodeList_ ++ [{ first := 0, id := id1, name := name }]
      IDToIndex_ := mapAssign st.net.IDToIndex_ id1 st.index
      NameToIndex_ := mapAssign st.net.NameToIndex_ name st.index }
    id1 := id1, name := name, waste := waste, ids := ids
    index := st.index + 1
    names := st.names ++ [ids] }

/-- One iteration of the first loop of `readTGF`: `buffer >> id1 >> name`. -/
def tgfNodeLine (st : NodeLoop) (line : String) : NodeLoop :=
  let r1 := extractUnsigned (IStream.ofString line) st.id1
  let r2 := extractString r1.1 st.name
  NodeLoop.push { st with ids := "" } r1.2 r2.2 st.waste

/-- One iteration of the loop of `readNA`: `buffer >> id1 >> waste >> name`. -/
def naNodeLine (st : NodeLoop) (line : String) : NodeLoop :=
  let r1 := extractUnsigned (IStream.ofString line) st.id1
  let r2 := extractString r1.1 st.waste
  let r3 := extractString r2.1 st.name
  st.push r1.2 r3.2 r2.2

/-- Statements after the node loop, common to `readTGF` and `readNA`: size the
adjacency matrix and name its rows and columns. -/
def finishNodes (st : NodeLoop) : Except (Failure Network) Network := do
  let net ← st.net.withAdjacency
    (st.net.AdjacencyMatrix_.resize st.net.NodeList_.length st.net.NodeList_.length 0)
  pure { net with
    AdjacencyMatrix_ := (net.AdjacencyMatrix_.setRowNames st.names).setColNames st.names }

/-- Local variables of the edge-reading loop of `readTGF`. -/
structure EdgeLoop where
  net : Network
  id1 : Nat
  id2 : Nat
deriving DecidableEq, Repr

/-- One iteration of the second loop of `readTGF`:
`buffer >> id1 >> id2; addEdge(id2, id1);`. -/
def tgfEdgeLine (st : EdgeLoop) (line : String) : Except (Failure Network) EdgeLoop := do
  let r1 := extractUnsigned (IStream.ofString line) st.id1
  let r2 := extractUnsigned r1.1 st.id2
  let net ← st.net.addEdge r2.2 r1.2
  pure { net := net, id1 := r1.2, id2 := r2.2 }

/-- Member `void readTGF(std::string filename)`; `lines` are the lines that
`std::getline` delivers for the file (none when the file cannot be opened).
Variables the source leaves uninitialised start at 0 or the empty string. -/
def readTGF (n : Network) (lines : List String) : Except (Failure Network) Network := do
  let cleared : Network :=
    { n with NodeList_ := [], AdjacencyMatrix_ := n.AdjacencyMatrix_.clear }
  let nodeLines := lines.takeWhile (fun line => decide (line ≠ "#"))
  let edgeLines := (lines.dropWhile (fun line => decide (line ≠ "#"))).drop 1
  let st := nodeLines.foldl tgfNodeLine
    { net := cleared, id1 := 0, name := "", waste := "", ids := "", index := 0, names := [] }
  let net ← finishNodes st
  let done ← edgeLines.foldlM tgfEdgeLine { net := net, id1 := st.id1, id2 := 0 }
  pure done.net

/-- Member `void readNA(std::string filename)`; the first line is skipped. -/
def readNA (n : Network) (lines : List String) : Except (Failure Network) Network :=
  let cleared : Network :=
    { n with NodeList_ := [], AdjacencyMatrix_ := n.AdjacencyMatrix_.clear }
  let st := (lines.drop 1).foldl naNodeLine
    { net := cleared, id1 := 0, name := "", waste := "", ids := "", index := 0, names := [] }
  finishNodes st

end Network

/-- Data-model invariant of a network: the adjacency matrix is square with one
row and one column per node, its rows are named by the stringified node ids in
node order, ids fit `unsigned int`, and every entry of the id index points at a
node carrying that id. -/
def Network.Coherent (n : Network) : Prop :=
  n.AdjacencyMatrix_.Sized ∧
  n.AdjacencyMatrix_.colCount_ = n.NodeList_.length ∧
  n.AdjacencyMatrix_.rowCount_ = n.NodeList_.length ∧
  n.AdjacencyMatrix_.rowNames_ =
    n.NodeList_.map (fun nd => String.mk (Nat.toDigits 10 nd.id)) ∧
  (∀ nd ∈ n.NodeList_, nd.id ≤ UINT_MAX) ∧
  (∀ p ∈ n.IDToIndex_, (n.NodeList_[p.2]?).map Node.id = some p.1)

instance (n : Network) : Decidable n.Coherent := by
  unfold Network.Coherent; infer_instance

/-- Data-model invariant "the id index is bijective with node position": every
node is found under its id at its own position. -/
def Network.Indexed (n : Network) : Prop :=
  ∀ i, i < n.NodeList_.length →
    (n.NodeList_[i]?).bind (fun nd => mapFind n.IDToIndex_ nd.id) = some i

instance (n : Network) : Decidable n.Indexed := by
  unfold Network.Indexed; infer_instance

/-- Id of the node at a position of the node list (0 past the end). -/
def Network.idAt (n : Network) (i : Nat) : Nat :=
  ((n.NodeList_[i]?).map Node.id).getD 0

/-- Rows of the adjacency matrix that hold a 1 in column `col`, ascending. -/
def Network.rowsWithOne (n : Network) (col : Nat) : List Nat :=
  (List.range n.NodeList_.length).filter (fun row =>
    decide (n.AdjacencyMatrix_.data_[col + row * n.NodeList_.length]? = some 1))

/-- The network with one adjacency cell overwritten. -/
def Network.withCell (n : Network) (col row value : Nat) : Network :=
  { n with AdjacencyMatrix_ :=
      { n.AdjacencyMatrix_ with
        data_ := n.AdjacencyMatrix_.data_.set (col + row * n.AdjacencyMatrix_.colCount_) value } }

/-- Invariant of the node-reading loops of `readTGF` and `readNA`. -/
def Network.NodeLoop.Inv (st : Network.NodeLoop) : Prop :=
  st.index = st.net.NodeList_.length ∧
  st.names = st.net.NodeList_.map (fun nd => String.mk (Nat.toDigits 10 nd.id)) ∧
  (∀ nd ∈ st.net.NodeList_, nd.id ≤ UINT_MAX) ∧
  (∀ p ∈ st.net.IDToIndex_, (st.net.NodeList_[p.2]?).map Node.id = some p.1) ∧
  st.id1 ≤ UINT_MAX ∧
  st.net.AdjacencyMatrix_.colCount_ = 0 ∧ st.net.AdjacencyMatrix_.rowCount_ = 0 ∧
  st.net.AdjacencyMatrix_.data_ = []

/-! ## Concrete inputs used to exercise the model -/

/-- Trivial-graph file with two nodes and the single edge line `1 2`. -/
def tgfChain : List String := ["1 A", "2 B", "#", "1 2"]

/-- Trivial-graph file with two nodes joined by edges in both directions. -/
def tgfCycle : List String := ["1 A", "2 B", "#", "1 2", "2 1"]

/-- Node-attribute file with a header line and two nodes. -/
def naPair : List String := ["ID class name", "1 x A", "2 x B"]

/-- A 2 x 2 matrix without names holding four distinct values. -/
def squareTwo : Matrix Nat :=
  { rowCount_ := 2, colCount_ := 2, rowNames_ := [], colNames_ := [],
    rowNamesToIndex_ := [], colNamesToIndex_ := [], data_ := [10, 20, 30, 40] }

/-- The network that `readTGF` builds from `tgfChain`. -/
def chainNet : Network :=
  { NodeList_ := [{ first := 0, id := 1, name := "A" }, { first := 0, id := 2, name := "B" }],
    IDToIndex_ := [(1, 0), (2, 1)],
    NameToIndex_ := [("A", 0), ("B", 1)],
    AdjacencyMatrix_ :=
      { rowCount_ := 2, colCount_ := 2, rowNames_ := ["1", "2"], colNames_ := ["1", "2"],
        rowNamesToIndex_ := [("NA", 0), ("1", 0), ("2", 1)],
        colNamesToIndex_ := [("NA", 0), ("1", 0), ("2", 1)],
        data_ := [0, 1, 0, 0] },
    ExtensionToIndex_ := [(".tgf", 0), (".na", 1), (".sif", 2)] }

/-- The network that `readTGF` builds from `tgfCycle`. -/
def cycleNet : Network :=
  { chainNet with
    AdjacencyMatrix_ := { chainNet.AdjacencyMatrix_ with data_ := [0, 1, 1, 0] } }

/-- The matrix `squareTwo` after `resize(3, 3, 7)`. -/
def squareThree : Matrix Nat :=
  { squareTwo with rowCount_ := 3, colCount_ := 3, data_ := [10, 20, 7, 30, 40, 7, 7, 7, 7] }

/-- Everything of a network except the values of the adjacency cells is the
same in `n2` as in `n`: node list, index maps, and the dimensions, names and
name maps of the adjacency matrix. -/
def Network.SameExceptCells (n2 n : Network) : Prop :=
  n2.NodeList_ = n.NodeList_ ∧ n2.IDToIndex_ = n.IDToIndex_ ∧
  n2.NameToIndex_ = n.NameToIndex_ ∧ n2.ExtensionToIndex_ = n.ExtensionToIndex_ ∧
  n2.AdjacencyMatrix_.rowCount_ = n.AdjacencyMatrix_.rowCount_ ∧
  n2.AdjacencyMatrix_.colCount_ = n.AdjacencyMatrix_.colCount_ ∧
  n2.AdjacencyMatrix_.rowNames_ = n.AdjacencyMatrix_.rowNames_ ∧
  n2.AdjacencyMatrix_.colNames_ = n.AdjacencyMatrix_.colNames_ ∧
  n2.AdjacencyMatrix_.rowNamesToIndex_ = n.AdjacencyMatrix_.rowNamesToIndex_ ∧
  n2.AdjacencyMatrix_.colNamesToIndex_ = n.AdjacencyMatrix_.colNamesToIndex_ ∧
  n2.AdjacencyMatrix_.data_.length = n.AdjacencyMatrix_.data_.length

/-! ## `Matrix<T>`: name lookup (src/core/Matrix.h) -/

/-- Members `int findRow(const std::string& element)` (const and non-const):
the index stored under the name in `rowNamesToIndex_`, or -1. -/
def Matrix.findRow {T : Type} (m : Matrix T) (element : String) : Int :=
  match mapFind m.rowNamesToIndex_ element with
  | none => -1
  | some index => (index : Int)

/-- Members `int findCol(const std::string& element)` (const and non-const):
the index stored under the name in `colNamesToIndex_`, or -1. -/
def Matrix.findCol {T : Type} (m : Matrix T) (element : String) : Int :=
  match mapFind m.colNamesToIndex_ element with
  | none => -1
  | some index => (index : Int)

/-- Members `getValueByNames(colName, rowName)` (const and non-const); the cell
is subscripted without a range test. -/
def Matrix.getValueByNames {T : Type} (m : Matrix T) (colName rowName : String) :
    Except Error T :=
  let col := m.findCol colName
  let row := m.findRow rowName
  if row = -1 ∨ col = -1 then
    .error (.invalidArgument "Specified elements not found")
  else
    vecRead m.data_ (col.toNat + row.toNat * m.colCount_)

/-- Members `bool hasNACol()` (const and non-const). -/
def Matrix.hasNACol {T : Type} (m : Matrix T) : Bool :=
  if m.findCol "NA" = -1 then false else true

/-- Members `bool hasNARow()` (const and non-const). -/
def Matrix.hasNARow {T : Type} (m : Matrix T) : Bool :=
  if m.findRow "NA" = -1 then false else true

/-- Constructor `Matrix(colNames, rowNames, initialValue)`: the dimensions are
the sizes of the two name vectors. -/
def Matrix.createNamed {T : Type} (colNames rowNames : List String) (initialValue : T) :
    Matrix T :=
  let m : Matrix T :=
    { rowCount_ := rowNames.length, colCount_ := colNames.length, rowNames_ := [],
      colNames_ := [], rowNamesToIndex_ := [], colNamesToIndex_ := [],
      data_ := List.replicate (rowNames.length * colNames.length) initialValue }
  (m.setColNames colNames).setRowNames rowNames

/-- Loop `counter = k; for (n : names) { map[n] = counter; counter++; }` of
`setRowNames` and `setColNames`, and the index bookkeeping of the node loops. -/
def assignIndices {K : Type} [DecidableEq K] (m : List (K × Nat)) (k : Nat) :
    List K → List (K × Nat)
  | [] => m
  | n :: names => assignIndices (mapAssign m n k) (k + 1) names

/-- The name vectors have as many entries as the matrix has rows and columns. -/
def Matrix.NamesFit {T : Type} (m : Matrix T) : Prop :=
  m.getRowNames.length = m.getRowCount ∧ m.getColNames.length = m.getColCount

instance {T : Type} (m : Matrix T) : Decidable m.NamesFit := by
  unfold Matrix.NamesFit; infer_instance

/-- A 1 x 1 matrix from the dimension constructor with its default names. -/
def unitNA : Matrix Nat := Matrix.create 1 1 0 ["NA"] ["NA"]

/-- A 2 x 2 matrix from the dimension constructor with its default names. -/
def squareNA : Matrix Nat := Matrix.create 2 2 0 ["NA"] ["NA"]

/-- A 1-row, 4-column matrix from the name-vector constructor. -/
def wideNamed : Matrix Nat := Matrix.createNamed ["w", "x", "y", "z"] ["a"] 5

/-- A 2 x 2 matrix from the name-vector constructor. -/
def squareNamed : Matrix Nat := Matrix.createNamed ["x", "y"] ["a", "b"] 0

/-- The matrix `wideNamed` after `clear()`, `resize(2, 2, 0)`,
`setColNames({"w", "x"})`, `setRowNames({"a", "b"})` and `setData(7, 1, 1)`. -/
def renamedSquare : Matrix Nat :=
  { rowCount_ := 2, colCount_ := 2, rowNames_ := ["a", "b"], colNames_ := ["w", "x"],
    rowNamesToIndex_ := [("a", 0), ("b", 1)],
    colNamesToIndex_ := [("w", 0), ("x", 1), ("y", 2), ("z", 3)],
    data_ := [0, 0, 0, 7] }

/-! ## Well-formed trivial-graph files -/

/-- A field that `>>` reads as one `std::string`: not empty, no whitespace. -/
def IsToken (name : String) : Prop :=
  name.data ≠ [] ∧ ∀ c ∈ name.data, isSpace c = false

/-- The well-formed node line `id name`: decimal numeral, one blank, name. -/
def nodeLine (id : Nat) (name : String) : String :=
  String.mk (Nat.toDigits 10 id ++ Char.ofNat 32 :: name.data)

/-- The well-formed edge line `id1 id2`: two decimal numerals and one blank. -/
def edgeLine (id1 id2 : Nat) : String :=
  String.mk (Nat.toDigits 10 id1 ++ Char.ofNat 32 :: Nat.toDigits 10 id2)

/-- The lines of a trivial-graph file: one node line per entry of `nodes`, the
separator line `#`, one edge line per entry of `edges`. -/
def tgfFile (nodes : List (Nat × String)) (edges : List (Nat × Nat)) : List String :=
  nodes.map (fun p => nodeLine p.1 p.2) ++ "#" :: edges.map (fun e => edgeLine e.1 e.2)

/-- Every node line carries an id that fits `unsigned int` and a name token. -/
def NodesWellFormed (nodes : List (Nat × String)) : Prop :=
  ∀ p ∈ nodes, p.1 ≤ UINT_MAX ∧ IsToken p.2

/-- Every edge line names two ids declared by the node lines. -/
def EdgesDeclared (nodes : List (Nat × String)) (edges : List (Nat × Nat)) : Prop :=
  ∀ e ∈ edges, e.1 ∈ nodes.map Prod.fst ∧ e.2 ∈ nodes.map Prod.fst

/-- State in which a newly constructed `Network` enters the node loop of
`readTGF` or `readNA`: node list and adjacency matrix cleared, counters at 0. -/
def Network.freshLoop : Network.NodeLoop :=
  { net := { Network.create with
      NodeList_ := [], AdjacencyMatrix_ := Network.create.AdjacencyMatrix_.clear },
    id1 := 0, name := "", waste := "", ids := "", index := 0, names := [] }

/-- State of the node loop of `readTGF` after the node lines of `nodes`. -/
def Network.NodeLoop.pushAll (st : Network.NodeLoop) : List (Nat × String) → Network.NodeLoop
  | [] => st
  | p :: rest => pushAll (Network.NodeLoop.push { st with ids := "" } p.1 p.2 st.waste) rest

/-- Index stored for an id in `IDToIndex_` (0 when the id is unknown). -/
def Network.indexOf (n : Network) (id : Nat) : Nat :=
  (mapFind n.IDToIndex_ id).getD 0

/-- The network after `addEdge(id2, id1)` for every pair `(id1, id2)` of `edges`,
in order: the cell (column `index(id2)`, row `index(id1)`) is set to 1. -/
def Network.paint (n : Network) (edges : List (Nat × Nat)) : Network :=
  { n with AdjacencyMatrix_ :=
      { n.AdjacencyMatrix_ with
        data_ := edges.foldl (fun d e =>
          d.set (n.indexOf e.2 + n.indexOf e.1 * n.AdjacencyMatrix_.colCount_) 1)
          n.AdjacencyMatrix_.data_ } }

/-- The network that a newly constructed `Network` holds after the node block
`nodes` of a trivial-graph file: nodes in file order, both index maps, and an
all-zero square adjacency matrix named by the stringified ids. -/
def Network.ofNodes (nodes : List (Nat × String)) : Network :=
  { NodeList_ := nodes.map (fun p => { first := 0, id := p.1, name := p.2 }),
    IDToIndex_ := assignIndices [] 0 (nodes.map Prod.fst),
    NameToIndex_ := assignIndices [] 0 (nodes.map Prod.snd),
    AdjacencyMatrix_ :=
      { rowCount_ := nodes.length, colCount_ := nodes.length,
        rowNames_ := nodes.map (fun p => String.mk (Nat.toDigits 10 p.1)),
        colNames_ := nodes.map (fun p => String.mk (Nat.toDigits 10 p.1)),
        rowNamesToIndex_ := assignIndices [("NA", 0)] 0
          (nodes.map (fun p => String.mk (Nat.toDigits 10 p.1))),
        colNamesToIndex_ := assignIndices [("NA", 0)] 0
          (nodes.map (fun p => String.mk (Nat.toDigits 10 p.1))),
        data_ := List.replicate (nodes.length * nodes.length) 0 },
    ExtensionToIndex_ := Network.create.ExtensionToIndex_ }

instance (name : String) : Decidable (IsToken name) := by
  unfold IsToken; infer_instance

instance (nodes : List (Nat × String)) : Decidable (NodesWellFormed nodes) := by
  unfold NodesWellFormed; infer_instance

instance (nodes : List (Nat × String)) (edges : List (Nat × Nat)) :
    Decidable (EdgesDeclared nodes edges) := by
  unfold EdgesDeclared; infer_instance

/-- Flat position that `addEdge(id2, id1)` writes for the edge line `id1 id2`. -/
def Network.edgeCell (n : Network) (e : Nat × Nat) : Nat :=
  n.indexOf e.2 + n.indexOf e.1 * n.AdjacencyMatrix_.colCount_

/-! ## `Network`: simple-interaction files and dispatch by extension -/

/-- Local variables of the loop of `readSIF`. -/
structure Network.SifLoop where
  net : Network
  id1 : Nat
  id2 : Nat
  relation : String
deriving DecidableEq, Repr

/-- One iteration of the loop of `readSIF`:
`buffer >> id1 >> relation >> id2; addEdge(id2, id1);`. -/
def Network.sifLine (st : Network.SifLoop) (line : String) :
    Except (Failure Network) Network.SifLoop := do
  let r1 := extractUnsigned (IStream.ofString line) st.id1
  let r2 := extractString r1.1 st.relation
  let r3 := extractUnsigned r2.1 st.id2
  let net ← st.net.addEdge r3.2 r1.2
  pure { net := net, id1 := r1.2, id2 := r3.2, relation := r2.2 }

/-- Member `void readSIF(std::string filename)`; `lines` are the lines of the
file.  The test for existing nodes comes before the first line is read. -/
def Network.readSIF (n : Network) (lines : List String) : Except (Failure Network) Network :=
  if n.NodeList_.isEmpty then
    .error (.threw "You have to read in a .na file beforehand." n)
  else do
    let done ← lines.foldlM Network.sifLine { net := n, id1 := 0, id2 := 0, relation := "" }
    pure done.net

/-- Expression `m[k]` on a map, used as a value: the stored value, or 0 after
inserting the missing key with a value-initialised entry.  Returns the map and
the value. -/
def mapSubscript {K : Type} [DecidableEq K] (m : List (K × Nat)) (k : K) :
    List (K × Nat) × Nat :=
  match mapFind m k with
  | some v => (m, v)
  | none => (m ++ [(k, 0)], 0)

/-- Characters of the last component of a path (after the last `/`). -/
def lastComponent (path : List Char) : List Char :=
  (path.reverse.takeWhile (fun c => decide (c.toNat ≠ 47))).reverse

/-- Library function `boost::filesystem::extension(filename)`: the part of the
last path component from its last dot on, the dot included; empty when the
component has no dot or is `.` or `..`. -/
def fileExtension (filename : String) : String :=
  let name := lastComponent filename.data
  if name = [Char.ofNat 46] ∨ name = [Char.ofNat 46, Char.ofNat 46] then ""
  else if name.all (fun c => decide (c.toNat ≠ 46)) then ""
  else
    String.mk (Char.ofNat 46 ::
      (name.reverse.takeWhile (fun c => decide (c.toNat ≠ 46))).reverse)

/-- Member `void readNetwork(std::string filename)`; `lines` are the lines of
the named file.  The `switch` subscripts `ExtensionToIndex_` with the extension. -/
def Network.readNetwork (n : Network) (filename : String) (lines : List String) :
    Except (Failure Network) Network :=
  let extension := fileExtension filename
  let looked := mapSubscript n.ExtensionToIndex_ extension
  let n1 : Network := { n with ExtensionToIndex_ := looked.1 }
  match looked.2 with
  | 0 => n1.readTGF lines
  | 1 => n1.readNA lines
  | 2 => n1.readSIF lines
  | _ => .error (.threw "Unsupported file type" n1)

/-- The calls that the reachability claim ranges over. -/
inductive Network.Call where
  | addEdge (id1 id2 : Nat)
  | removeEdge (id1 id2 : Nat)
  | cutParents (id : Nat)
  | readSIF (lines : List String)
deriving DecidableEq, Repr

/-- Outcome of one of the calls on a network. -/
def Network.Call.run : Network.Call → Network → Except (Failure Network) Network
  | .addEdge id1 id2, n => n.addEdge id1 id2
  | .removeEdge id1 id2, n => n.removeEdge id1 id2
  | .cutParents id, n => n.cutParents id
  | .readSIF lines, n => n.readSIF lines

/-- Network states reachable from a `readTGF` or `readNA` that returned normally
(on any prior network) by a sequence of `addEdge`, `removeEdge`, `cutParents`
and `readSIF` calls; a call may return normally or throw, in which case the
state is the network as the exception leaves it. -/
inductive Network.Reachable : Network → Prop where
  | readTGF (n0 net : Network) (lines : List String) :
      n0.readTGF lines = .ok net → Network.Reachable net
  | readNA (n0 net : Network) (lines : List String) :
      n0.readNA lines = .ok net → Network.Reachable net
  | returned (n net : Network) (call : Network.Call) :
      Network.Reachable n → call.run n = .ok net → Network.Reachable net
  | threw (n net : Network) (call : Network.Call) (msg : String) :
      Network.Reachable n → call.run n = .error (.threw msg net) → Network.Reachable net

/-- The adjacency matrix is square with one row and column per node, holds one
value per cell, and every value is 0 or 1. -/
def Network.SquareBinary (n : Network) : Prop :=
  n.AdjacencyMatrix_.getColCount = n.NodeList_.length ∧
  n.AdjacencyMatrix_.getRowCount = n.NodeList_.length ∧
  n.AdjacencyMatrix_.data_.length = n.NodeList_.length * n.NodeList_.length ∧
  ∀ v ∈ n.AdjacencyMatrix_.data_, v = 0 ∨ v = 1

/-- The network that `readNA` builds from `naPair`. -/
def pairNet : Network :=
  { chainNet with
    AdjacencyMatrix_ := { chainNet.AdjacencyMatrix_ with data_ := [0, 0, 0, 0] } }

/-- A simple-interaction file with the single line `1 pp 2`. -/
def sifChain : List String := ["1 pp 2"]

/-- A trivial-graph file with the single node `7 C` and no edge. -/
def tgfSingle : List String := ["7 C", "#"]

/-- The well-formed interaction line `id1 relation id2`: decimal numeral, one
blank, relation token, one blank, decimal numeral. -/
def sifRow (id1 : Nat) (relation : String) (id2 : Nat) : String :=
  String.mk (Nat.toDigits 10 id1 ++
    Char.ofNat 32 :: (relation.data ++ Char.ofNat 32 :: Nat.toDigits 10 id2))

/-- The lines of a simple-interaction file with one line per entry. -/
def sifFile (rows : List (Nat × String × Nat)) : List String :=
  rows.map (fun r => sifRow r.1 r.2.1 r.2.2)

/-- The edges `(id1, id2)` named by the lines of a simple-interaction file. -/
def sifEdges (rows : List (Nat × String × Nat)) : List (Nat × Nat) :=
  rows.map (fun r => (r.1, r.2.2))

/-- A node-attribute file with a header line and the single node `7 x C`. -/
def naSingle : List String := ["ID class name", "7 x C"]

/-- Every line of a simple-interaction file carries a relation token and two
ids for which `getIndex` returns normally. -/
def Network.SifKnown (n : Network) (rows : List (Nat × String × Nat)) : Prop :=
  ∀ r ∈ rows, IsToken r.2.1 ∧ (n.getIndex r.1).isOk = true ∧ (n.getIndex r.2.2).isOk = true

instance (n : Network) (rows : List (Nat × String × Nat)) : Decidable (n.SifKnown rows) := by
  unfold Network.SifKnown; infer_instance

/-- The network `chainNet` after `readTGF` on `tgfSingle`: one node, and the
index entries of the two former nodes still present. -/
def staleNet : Network :=
  { NodeList_ := [{ first := 0, id := 7, name := "C" }],
    IDToIndex_ := [(1, 0), (2, 1), (7, 0)],
    NameToIndex_ := [("A", 0), ("B", 1), ("C", 0)],
    AdjacencyMatrix_ :=
      { rowCount_ := 1, colCount_ := 1, rowNames_ := ["7"], colNames_ := ["7"],
        rowNamesToIndex_ := [("NA", 0), ("1", 0), ("2", 1), ("7", 0)],
        colNamesToIndex_ := [("NA", 0), ("1", 0), ("2", 1), ("7", 0)],
        data_ := [0] },
    ExtensionToIndex_ := [(".tgf", 0), (".na", 1), (".sif", 2)] }

/-! ## `EM` (src/core/EM.cpp): control flow of the learner

The member functions `performEM`, `getMaxMethod_`, `runEMIterations_` and
`initalise` are embedded statement by statement.  The calls they make into the
phases work on the classes `Node` and `ProbabilityHandler`, whose sources are
not available; they are parameters of the embedding, as are the `float`
operations of the control flow.  `S` is the state those calls read and write
(the members `network_` and `probHandler_`), `D` stands for `float`.  A phase
that throws ends `performEM` by propagation; the embedding describes the calls
in which every phase returns.  The two time stamps of `performEM` are left out.
-/

/-- Member `bool contains(const T& query) const` of `Matrix<T>`. -/
def Matrix.contains {T : Type} [DecidableEq T] (m : Matrix T) (query : T) : Bool :=
  m.data_.any (fun res => decide (res = query))

/-- The calls of `EM.cpp` taken as parameters, and the `float` operations used
by the control flow: the comparison `a > b`, the constant `0.0f` and
`std::numeric_limits<float>::infinity()`. -/
structure EMPhases (S D : Type) where
  initaliseAssumingUniformDistribution : S → S
  initaliseAccordingToInitialDistribution : S → S
  ePhase : S → S
  mPhase : S → S × D
  calculateLikelihoodOfTheData : S → Matrix Int → S × D
  gt : D → D → Bool
  zero : D
  infinity : D

/-- The data members of `EM` that the control flow uses; `network_` stands for
the members `network_` and `probHandler_`. -/
structure EM (S D : Type) where
  network_ : S
  observations_ : Matrix Int
  differenceThreshold_ : D
  maxRuns_ : Nat
  method_ : Nat
  finalDifference_ : D
  neededRuns_ : Nat
deriving DecidableEq, Repr

/-- Member `void initalise()`: a `switch` on `method_` without default. -/
def EM.initalise {S D : Type} (P : EMPhases S D) (em : EM S D) : EM S D :=
  match em.method_ with
  | 0 => { em with network_ := P.initaliseAssumingUniformDistribution em.network_ }
  | 1 => { em with network_ := P.initaliseAccordingToInitialDistribution em.network_ }
  | _ => em

/-- Loop `while (difference > differenceThreshold_ && runs < maxRuns_)` of
`runEMIterations_` with its body `ePhase(); difference = mPhase(); runs++;`.
`fuel` bounds the number of times the body may run; the result is `none` when
the condition still holds after `fuel` runs of the body. -/
def EM.iterate {S D : Type} (P : EMPhases S D) :
    Nat → EM S D → D → Nat → Option (EM S D × D × Nat)
  | 0, em, difference, runs =>
    if P.gt difference em.differenceThreshold_ = true ∧ runs < em.maxRuns_ then none
    else some (em, difference, runs)
  | fuel + 1, em, difference, runs =>
    if P.gt difference em.differenceThreshold_ = true ∧ runs < em.maxRuns_ then
      let em1 : EM S D := { em with network_ := P.ePhase em.network_ }
      let r := P.mPhase em1.network_
      EM.iterate P fuel { em1 with network_ := r.1 } r.2 (runs + 1)
    else some (em, difference, runs)

/-- Member `std::pair<float, unsigned int> runEMIterations_()`; returns the
object, the difference and the number of runs. -/
def EM.runEMIterations_ {S D : Type} (P : EMPhases S D) (fuel : Nat) (em : EM S D) :
    Option (EM S D × D × Nat) :=
  EM.iterate P fuel (EM.initalise P em) P.infinity 0

/-- Local variables of the loop of `getMaxMethod_`, with the object. -/
structure EM.MaxLoop (S D : Type) where
  em : EM S D
  maxprob : D
  maxmethod : Nat
  prob : D
deriving DecidableEq, Repr

/-- Body of the loop `for (method = 0; method < 2; method++)` of
`getMaxMethod_`. -/
def EM.maxMethodStep {S D : Type} (P : EMPhases S D) (fuel : Nat) (st : EM.MaxLoop S D)
    (method : Nat) : Option (EM.MaxLoop S D) := do
  let ran ← EM.runEMIterations_ P fuel { st.em with method_ := method }
  let r := P.calculateLikelihoodOfTheData ran.1.network_ ran.1.observations_
  let em : EM S D := { ran.1 with network_ := r.1 }
  if P.gt r.2 st.maxprob = true then
    pure { em := em, maxprob := r.2, maxmethod := method, prob := r.2 }
  else
    pure { em := em, maxprob := st.maxprob, maxmethod := st.maxmethod, prob := r.2 }

/-- Member `unsigned int getMaxMethod_()`; returns the object and the method. -/
def EM.getMaxMethod_ {S D : Type} (P : EMPhases S D) (fuel : Nat) (em : EM S D) :
    Option (EM S D × Nat) := do
  let st ← [0, 1].foldlM (EM.maxMethodStep P fuel)
    { em := em, maxprob := P.zero, maxmethod := 0, prob := P.zero }
  pure (st.em, st.maxmethod)

/-- Member `void performEM()`, the body of the constructor. -/
def EM.performEM {S D : Type} (P : EMPhases S D) (fuel : Nat) (em : EM S D) :
    Option (EM S D) :=
  if em.observations_.contains (-1) = true then do
    let sel ← EM.getMaxMethod_ P fuel em
    let ran ← EM.runEMIterations_ P fuel { sel.1 with method_ := sel.2 }
    pure { ran.1 with finalDifference_ := ran.2.1, neededRuns_ := ran.2.2 }
  else
    let r := P.mPhase em.network_
    some { em with network_ := r.1, finalDifference_ := r.2, neededRuns_ := 1 }

/-- Member `int getNumberOfRuns()`. -/
def EM.getNumberOfRuns {S D : Type} (em : EM S D) : Nat := em.neededRuns_

/-- Member `float getDifference()`. -/
def EM.getDifference {S D : Type} (em : EM S D) : D := em.finalDifference_

/-- A call into one of the phases. -/
inductive EMCall where
  | initaliseAssumingUniformDistribution
  | initaliseAccordingToInitialDistribution
  | ePhase
  | mPhase
  | calculateLikelihoodOfTheData
deriving DecidableEq, Repr

/-- The phases `P` with a log: every call does what it does in `P` and appends
its name to the list of calls made so far. -/
def EMPhases.logged {S D : Type} (P : EMPhases S D) : EMPhases (S × List EMCall) D where
  initaliseAssumingUniformDistribution := fun s =>
    (P.initaliseAssumingUniformDistribution s.1,
      s.2 ++ [EMCall.initaliseAssumingUniformDistribution])
  initaliseAccordingToInitialDistribution := fun s =>
    (P.initaliseAccordingToInitialDistribution s.1,
      s.2 ++ [EMCall.initaliseAccordingToInitialDistribution])
  ePhase := fun s => (P.ePhase s.1, s.2 ++ [EMCall.ePhase])
  mPhase := fun s => (((P.mPhase s.1).1, s.2 ++ [EMCall.mPhase]), (P.mPhase s.1).2)
  calculateLikelihoodOfTheData := fun s obs =>
    (((P.calculateLikelihoodOfTheData s.1 obs).1,
      s.2 ++ [EMCall.calculateLikelihoodOfTheData]),
      (P.calculateLikelihoodOfTheData s.1 obs).2)
  gt := P.gt
  zero := P.zero
  infinity := P.infinity

/-- The calls that one run of `runEMIterations_` with `runs` passes of the loop
body makes when `method_` is `method`. -/
def EM.runCalls (method runs : Nat) : List EMCall :=
  (match method with
    | 0 => [EMCall.initaliseAssumingUniformDistribution]
    | 1 => [EMCall.initaliseAccordingToInitialDistribution]
    | _ => []) ++ (List.replicate runs [EMCall.ePhase, EMCall.mPhase]).flatten

/-- The members that no call of the learner assigns are the same in `a` and
`b`: the observation table, the threshold and the iteration cap. -/
def EM.SameSettings {S D : Type} (a b : EM S D) : Prop :=
  a.observations_ = b.observations_ ∧ a.differenceThreshold_ = b.differenceThreshold_ ∧
    a.maxRuns_ = b.maxRuns_

/-- Whether a call is one of the two initialisations. -/
def EMCall.isInitalise : EMCall → Bool
  | .initaliseAssumingUniformDistribution => true
  | .initaliseAccordingToInitialDistribution => true
  | _ => false

/-- Example of a `float` domain for the control flow: an integer or +infinity. -/
inductive Amount where
  | finite (value : Int)
  | infinite
deriving DecidableEq, Repr

/-- Comparison `a > b` on `Amount`. -/
def Amount.gt : Amount → Amount → Bool
  | .finite a, .finite b => decide (b < a)
  | .infinite, .finite _ => true
  | _, .infinite => false

/-- Example phases on a state that counts the M-phases made so far: the two
initialisations and the E-phase leave the count as it is, the k-th M-phase
returns the difference 3 - k, and the likelihood is 2 after exactly three
M-phases and 1 otherwise. -/
def countingPhases : EMPhases Nat Amount where
  initaliseAssumingUniformDistribution := fun s => s
  initaliseAccordingToInitialDistribution := fun s => s
  ePhase := fun s => s
  mPhase := fun s => (s + 1, Amount.finite (3 - ((s : Int) + 1)))
  calculateLikelihoodOfTheData := fun s _ =>
    (s, if s = 3 then Amount.finite 2 else Amount.finite 1)
  gt := Amount.gt
  zero := Amount.finite 0
  infinity := Amount.infinite

/-- A 2 x 2 observation table without a missing value. -/
def obsComplete : Matrix Int :=
  { rowCount_ := 2, colCount_ := 2, rowNames_ := [], colNames_ := [],
    rowNamesToIndex_ := [], colNamesToIndex_ := [], data_ := [0, 1, 1, 0] }

/-- A 2 x 2 observation table with one missing value. -/
def obsMissing : Matrix Int :=
  { obsComplete with data_ := [0, 1, -1, 0] }

/-- A learner before `performEM`: threshold 0, at most 10 runs, no call made. -/
def learnerStart (observations : Matrix Int) : EM (Nat × List EMCall) Amount :=
  { network_ := (0, []), observations_ := observations,
    differenceThreshold_ := Amount.finite 0, maxRuns_ := 10, method_ := 0,
    finalDifference_ := Amount.finite 0, neededRuns_ := 0 }

/-- Member `const T& operator()(unsigned int col, unsigned int row) const`; the
message of its exception ends with the two coordinates. -/
def Matrix.operatorCallConst {T : Type} (m : Matrix T) (col row : Nat) : Except Error T :=
  if col > m.colCount_ ∨ row > m.rowCount_ then
    .error (.invalidArgument ("In Matrix() const, Invalid matrix position" ++
      String.mk (Nat.toDigits 10 col) ++ " " ++ String.mk (Nat.toDigits 10 row)))
  else
    vecRead m.data_ (col + row * m.colCount_)

/-- Member `T calculateRowSum(unsigned int row) const`: the sum starts at `T()`
and the cells are subscripted without a range test. -/
def Matrix.calculateRowSum {T : Type} [Zero T] [Add T] (m : Matrix T) (row : Nat) :
    Except Error T :=
  forUp (fun col sum => do
    let cell ← vecRead m.data_ (col + row * m.colCount_)
    pure (sum + cell)) 0 m.colCount_ 0

/-- Modelled from the spec: the two tables of class `Node` that the M-phase
works on (the class is not among the sources): the conditional-probability
table and the table of observation counts. -/
structure NodeTables where
  probabilityMatrix : Matrix ℚ
  observationMatrix : Matrix Int
deriving DecidableEq, Repr

/-- Modelled from the spec: accessor `Node::getProbability(col, row)`, a read of
the cell of the conditional-probability table. -/
def NodeTables.getProbability (n : NodeTables) (col row : Nat) : Except Error ℚ :=
  n.probabilityMatrix.operatorCall col row

/-- Modelled from the spec: `Node::setProbability(value, col, row)`, a `setData`
on the conditional-probability table. -/
def NodeTables.setProbability (n : NodeTables) (value : ℚ) (col row : Nat) :
    Except (Failure NodeTables) NodeTables :=
  match n.probabilityMatrix.setData value col row with
  | .ok cpt => .ok { n with probabilityMatrix := cpt }
  | .error (.threw msg cpt) => .error (.threw msg { n with probabilityMatrix := cpt })
  | .error .undefinedBehaviour => .error .undefinedBehaviour

/-- The reference parameters `counter`, `difference` and `n` of
`calculateMaximumLikelihood`. -/
structure EM.Likelihood where
  counter : Nat
  difference : ℚ
  n : NodeTables
deriving DecidableEq, Repr

/-- Store the outcome of `n.setProbability(...)` back into the parameters. -/
def EM.Likelihood.withNode (st : EM.Likelihood) :
    Except (Failure NodeTables) NodeTables → Except (Failure EM.Likelihood) EM.Likelihood
  | .ok n => .ok { st with n := n }
  | .error (.threw msg n) => .error (.threw msg { st with n := n })
  | .error .undefinedBehaviour => .error .undefinedBehaviour

/-- Body of the loop of `calculateMaximumLikelihood` for a matrix with an NA
column: the column `col` of the row is divided by the row sum less the count in
column 0 and stored in column `col - 1` of the probability table. -/
def EM.likelihoodCellNA (obMatrix : Matrix Int) (row : Nat) (rowsum : ℚ)
    (st : EM.Likelihood) (col : Nat) : Except (Failure EM.Likelihood) EM.Likelihood := do
  let na ← raiseIn st (obMatrix.operatorCallConst 0 row)
  let st1 ←
    if rowsum - (na : ℚ) > 0 then do
      let count ← raiseIn st (obMatrix.operatorCallConst col row)
      let na2 ← raiseIn st (obMatrix.operatorCallConst 0 row)
      let probability : ℚ := (count : ℚ) / (rowsum - (na2 : ℚ))
      let old ← raiseIn st (st.n.getProbability (col - 1) row)
      pure (probability, { st with difference := st.difference + |old - probability| })
    else
      pure ((0 : ℚ), st)
  let st2 ← st1.2.withNode (st1.2.n.setProbability st1.1 (col - 1) row)
  pure { st2 with counter := st2.counter + 1 }

/-- Body of the loop of `calculateMaximumLikelihood` for a matrix without an NA
column. -/
def EM.likelihoodCell (obMatrix : Matrix Int) (row : Nat) (rowsum : ℚ)
    (st : EM.Likelihood) (col : Nat) : Except (Failure EM.Likelihood) EM.Likelihood := do
  let st1 ←
    if rowsum ≠ 0 then do
      let count ← raiseIn st (obMatrix.operatorCallConst col row)
      let probability : ℚ := (count : ℚ) / rowsum
      let old ← raiseIn st (st.n.getProbability col row)
      pure (probability, { st with difference := st.difference + |old - probability| })
    else
      pure ((0 : ℚ), st)
  let st2 ← st1.2.withNode (st1.2.n.setProbability st1.1 col row)
  pure { st2 with counter := st2.counter + 1 }

/-- Member `void calculateMaximumLikelihood(row, counter, difference, n,
obMatrix)` of `EM`. -/
def EM.calculateMaximumLikelihood (row : Nat) (st : EM.Likelihood) (obMatrix : Matrix Int) :
    Except (Failure EM.Likelihood) EM.Likelihood := do
  let sum ← raiseIn st (obMatrix.calculateRowSum row)
  let rowsum : ℚ := (sum : ℚ)
  if obMatrix.hasNACol = true then
    (List.range' 1 (obMatrix.getColCount - 1)).foldlM
      (EM.likelihoodCellNA obMatrix row rowsum) st
  else
    (List.range' 0 obMatrix.getColCount).foldlM (EM.likelihoodCell obMatrix row rowsum) st

/-- The count stored for a column and a row of an observation table (0 outside
the value store). -/
def Matrix.count (m : Matrix Int) (col row : Nat) : Int :=
  (m.data_[col + row * m.colCount_]?).getD 0

/-- Sum of the counts of a row over all columns. -/
def Matrix.rowTotal (m : Matrix Int) (row : Nat) : Int :=
  ((List.range m.colCount_).map (fun col => m.count col row)).sum

/-- Number of leading NA columns of an observation table: 1 if it has a column
named `NA`, else 0. -/
def Matrix.naColumns (m : Matrix Int) : Nat :=
  if m.hasNACol = true then 1 else 0

/-- An observation table with the columns `NA`, `0`, `1` and two rows. -/
def obsWithNA : Matrix Int :=
  { rowCount_ := 2, colCount_ := 3, rowNames_ := ["r0", "r1"], colNames_ := ["NA", "0", "1"],
    rowNamesToIndex_ := [("r0", 0), ("r1", 1)],
    colNamesToIndex_ := [("NA", 0), ("0", 1), ("1", 2)],
    data_ := [1, 3, 1, 0, 2, 2] }

/-- An observation table with the columns `0`, `1` and two rows. -/
def obsPlain : Matrix Int :=
  { rowCount_ := 2, colCount_ := 2, rowNames_ := ["r0", "r1"], colNames_ := ["0", "1"],
    rowNamesToIndex_ := [("r0", 0), ("r1", 1)],
    colNamesToIndex_ := [("0", 0), ("1", 1)],
    data_ := [3, 1, 2, 2] }

/-- A probability table with the columns `0`, `1`, two rows and 1/2 in every
cell. -/
def cptHalf : Matrix ℚ :=
  { rowCount_ := 2, colCount_ := 2, rowNames_ := ["r0", "r1"], colNames_ := ["0", "1"],
    rowNamesToIndex_ := [("r0", 0), ("r1", 1)],
    colNamesToIndex_ := [("0", 0), ("1", 1)],
    data_ := [1 / 2, 1 / 2, 1 / 2, 1 / 2] }

/-! ## `Matrix<T>`: unique values of a row or a column (src/core/Matrix.h) -/

/-- Call `tempSet.insert(x)` on a `std::set<T>`, held as the ascending list of
its elements: `x` is put in its place unless an equivalent element is there. -/
def setInsert {T : Type} [LinearOrder T] (x : T) : List T → List T
  | [] => [x]
  | y :: ys =>
    if x < y then x :: y :: ys
    else if y < x then y :: setInsert x ys
    else y :: ys

/-- Member `std::vector<T> getUniqueRowValues(unsigned int row)` (const and
non-const); the cells are subscripted without a range test. -/
def Matrix.getUniqueRowValues {T : Type} [LinearOrder T] (m : Matrix T) (row : Nat) :
    Except Error (List T) :=
  forUp (fun col tempSet => do
    let value ← vecRead m.data_ (col + row * m.colCount_)
    pure (setInsert value tempSet)) 0 m.colCount_ []

/-- Member `std::vector<T> getUniqueRowValues(unsigned int row, const T& exclud)`
(const and non-const). -/
def Matrix.getUniqueRowValuesExcluding {T : Type} [LinearOrder T] (m : Matrix T) (row : Nat)
    (exclud : T) : Except Error (List T) :=
  forUp (fun col tempSet => do
    let value ← vecRead m.data_ (col + row * m.colCount_)
    if exclud ≠ value then pure (setInsert value tempSet) else pure tempSet) 0 m.colCount_ []

/-- Member `std::vector<T> getUniqueColValues(unsigned int col)` (const and
non-const). -/
def Matrix.getUniqueColValues {T : Type} [LinearOrder T] (m : Matrix T) (col : Nat) :
    Except Error (List T) :=
  forUp (fun row tempSet => do
    let value ← vecRead m.data_ (col + row * m.colCount_)
    pure (setInsert value tempSet)) 0 m.rowCount_ []

/-- Member `std::vector<T> getUniqueColValues(unsigned int col, const T& exclud)`
(const and non-const). -/
def Matrix.getUniqueColValuesExcluding {T : Type} [LinearOrder T] (m : Matrix T) (col : Nat)
    (exclud : T) : Except Error (List T) :=
  forUp (fun row tempSet => do
    let value ← vecRead m.data_ (col + row * m.colCount_)
    if exclud ≠ value then pure (setInsert value tempSet) else pure tempSet) 0 m.rowCount_ []

/-- A 2 x 3 matrix with repeated values. -/
def repeats : Matrix Nat :=
  { rowCount_ := 2, colCount_ := 3, rowNames_ := [], colNames_ := [],
    rowNamesToIndex_ := [], colNamesToIndex_ := [], data_ := [5, 2, 5, 2, 9, 2] }

/-! ## `EM`: the M-phase and the E-phase (src/core/EM.cpp) -/

/-- Modelled from the spec: the call `n.loadBackup()` of `mPhase` is a parameter
`loadBackup` of the embedding (class `Node` is not among the sources).  Loop
variables of `mPhase`: the nodes already visited, `counter` and `difference`. -/
structure EM.MPhaseLoop where
  done : List NodeTables
  counter : Nat
  difference : ℚ
deriving DecidableEq, Repr

/-- Loop `for (row = 0; row < obMatrix.getRowCount(); row++)` of `mPhase` for
one node: `calculateMaximumLikelihood(row, counter, difference, n, obMatrix)`
with `obMatrix = n.getObservationMatrix()`. -/
def EM.mPhaseRows (counter : Nat) (difference : ℚ) (n : NodeTables) :
    Except (Failure EM.Likelihood) EM.Likelihood :=
  (List.range' 0 n.observationMatrix.getRowCount).foldlM
    (fun st row => EM.calculateMaximumLikelihood row st n.observationMatrix)
    { counter := counter, difference := difference, n := n }

/-- Loop `for (auto& n : network_.getNodes())` of `mPhase`; a failure carries
the nodes as they are at the throw. -/
def EM.mPhaseNodes (loadBackup : NodeTables → NodeTables) :
    List NodeTables → EM.MPhaseLoop → Except (Failure (List NodeTables)) EM.MPhaseLoop
  | [], st => .ok st
  | n :: rest, st =>
    match EM.mPhaseRows st.counter st.difference n with
    | .ok s =>
      EM.mPhaseNodes loadBackup rest
        { done := st.done ++ [loadBackup s.n], counter := s.counter,
          difference := s.difference }
    | .error (.threw msg s) => .error (.threw msg (st.done ++ s.n :: rest))
    | .error .undefinedBehaviour => .error .undefinedBehaviour

/-- Member `float mPhase()` of `EM` on the nodes of the network: returns the
nodes and `difference / counter`. -/
def EM.mPhase (loadBackup : NodeTables → NodeTables) (nodes : List NodeTables) :
    Except (Failure (List NodeTables)) (List NodeTables × ℚ) := do
  let st ← EM.mPhaseNodes loadBackup nodes { done := [], counter := 0, difference := 0 }
  pure (st.done, st.difference / (st.counter : ℚ))

/-- The expression `col - 1` on an `unsigned int`: 0 wraps to `UINT_MAX`. -/
def unsignedPred (col : Nat) : Nat :=
  (col + UINT_MAX) % (UINT_MAX + 1)

/-- Member `float calculateProbabilityEM(Node& n, unsigned int col, unsigned int
row)` of `EM`.  `totals` are the values that the calls
`probHandler_.computeTotalProbability(ParentIDs[key], network_.reverseFactor(n,
key, row))` return for `key = 0, ..., n.getNumberOfParents() - 1` (their classes
are not among the sources). -/
def EM.calculateProbabilityEM (n : NodeTables) (totals : List ℚ) (col row : Nat) :
    Except Error ℚ := do
  let totProbParents : ℚ := totals.foldl (fun t p => t * p) 1
  let denominator ← forUp (fun c sum => do
    let p ← n.probabilityMatrix.operatorCallConst c row
    pure (sum + p * totProbParents)) 0 n.probabilityMatrix.getColCount 0
  let p ← n.probabilityMatrix.operatorCallConst (unsignedPred col) row
  let nominator : ℚ := p * totProbParents
  pure (nominator / denominator)

/-- Conversion of a `float` to `int`, as in passing a `float` argument for the
parameter `T value` of `Matrix<int>::setData`: the fractional part is
discarded. -/
def floatToInt (value : ℚ) : Int :=
  if 0 ≤ value then ⌊value⌋ else ⌈value⌉

/-- Store the outcome of a mutating call on the observation table back into the
node. -/
def NodeTables.withObservations (n : NodeTables) :
    Except (Failure (Matrix Int)) (Matrix Int) → Except (Failure NodeTables) NodeTables
  | .ok ob => .ok { n with observationMatrix := ob }
  | .error (.threw msg ob) => .error (.threw msg { n with observationMatrix := ob })
  | .error .undefinedBehaviour => .error .undefinedBehaviour

/-- Member `void calculateExpectedValue(unsigned int row, Node& n)` of `EM`;
the operands of the sum are evaluated from left to right. -/
def EM.calculateExpectedValue (totals : List ℚ) (row : Nat) (n : NodeTables) :
    Except (Failure NodeTables) NodeTables :=
  if n.observationMatrix.hasNACol = true then
    (List.range' 1 (n.observationMatrix.getColCount - 1)).foldlM (fun n col => do
      let count ← raiseIn n (n.observationMatrix.operatorCall col row)
      let posterior ← raiseIn n (EM.calculateProbabilityEM n totals col row)
      let na ← raiseIn n (n.observationMatrix.operatorCall 0 row)
      let value : ℚ := (count : ℚ) + posterior * (na : ℚ)
      n.withObservations (n.observationMatrix.setData (floatToInt value) col row)) n
  else
    .ok n

/-- The value stored for a column and a row of a probability table (0 outside
the value store). -/
def Matrix.entry (m : Matrix ℚ) (col row : Nat) : ℚ :=
  (m.data_[col + row * m.colCount_]?).getD 0

/-- Sum of the entries of a row of a probability table over all its columns. -/
def Matrix.entrySum (m : Matrix ℚ) (row : Nat) : ℚ :=
  ((List.range m.colCount_).map (fun col => m.entry col row)).sum

/-- The count that `calculateMaximumLikelihood` subtracts from the row sum: the
count in column 0 if the table has a column named `NA`, else 0. -/
def Matrix.leadCount (m : Matrix Int) (row : Nat) : Int :=
  if m.hasNACol = true then m.count 0 row else 0

/-- The test under which `calculateMaximumLikelihood` divides: the row sum less
the count of column 0 is positive (table with an NA column), or the row sum is
not 0 (table without). -/
def Matrix.Divides (m : Matrix Int) (row : Nat) : Prop :=
  if m.hasNACol = true then 0 < m.rowTotal row - m.count 0 row else m.rowTotal row ≠ 0

instance (m : Matrix Int) (row : Nat) : Decidable (m.Divides row) := by
  unfold Matrix.Divides; infer_instance

/-- The probability that `calculateMaximumLikelihood` stores for an observation
column of a row. -/
def Matrix.newProbability (m : Matrix Int) (col row : Nat) : ℚ :=
  if m.Divides row then (m.count col row : ℚ) / ((m.rowTotal row : ℚ) - (m.leadCount row : ℚ))
  else 0

/-- What `calculateMaximumLikelihood` adds to `difference` for a row: the
absolute changes of the cells of the row if it divides, else nothing. -/
def NodeTables.rowChange (n : NodeTables) (row : Nat) : ℚ :=
  if n.observationMatrix.Divides row then
    ((List.range' n.observationMatrix.naColumns
        (n.observationMatrix.colCount_ - n.observationMatrix.naColumns)).map (fun col =>
      |n.probabilityMatrix.entry (col - n.observationMatrix.naColumns) row
        - n.observationMatrix.newProbability col row|)).sum
  else 0

/-- Sum of the absolute changes of all cells of a row, whether the row divides
or not. -/
def NodeTables.rowAbsChange (n : NodeTables) (row : Nat) : ℚ :=
  ((List.range' n.observationMatrix.naColumns
      (n.observationMatrix.colCount_ - n.observationMatrix.naColumns)).map (fun col =>
    |n.probabilityMatrix.entry (col - n.observationMatrix.naColumns) row
      - n.observationMatrix.newProbability col row|)).sum

/-- Sum of the absolute changes of all cells of the probability table of a
node. -/
def NodeTables.absChange (n : NodeTables) : ℚ :=
  ((List.range n.observationMatrix.rowCount_).map (fun row => n.rowAbsChange row)).sum

/-- What the M-phase adds to `difference` for a node. -/
def NodeTables.change (n : NodeTables) : ℚ :=
  ((List.range n.observationMatrix.rowCount_).map (fun row => n.rowChange row)).sum

/-- Number of cells of the probability table that the M-phase stores for a
node. -/
def NodeTables.cells (n : NodeTables) : Nat :=
  n.observationMatrix.rowCount_ *
    (n.observationMatrix.colCount_ - n.observationMatrix.naColumns)

/-- The tables of a node fit each other: the observation table holds one count
per cell, and the probability table holds one value per cell, has the rows of
the observation table and one column per observation column that is not the
leading NA column. -/
def NodeTables.Fit (n : NodeTables) : Prop :=
  n.observationMatrix.Sized ∧ n.probabilityMatrix.Sized ∧
  n.probabilityMatrix.rowCount_ = n.observationMatrix.rowCount_ ∧
  n.probabilityMatrix.colCount_ =
    n.observationMatrix.colCount_ - n.observationMatrix.naColumns

instance (n : NodeTables) : Decidable n.Fit := by
  unfold NodeTables.Fit; infer_instance

/-- An observation table with the columns `NA`, `0`, `1` whose second row has
no count outside the NA column. -/
def obsEmptyRow : Matrix Int :=
  { obsWithNA with data_ := [1, 3, 1, 2, 0, 0] }

/-- An observation table with the columns `0`, `1` whose second row is empty. -/
def obsPlainEmptyRow : Matrix Int :=
  { obsPlain with data_ := [3, 1, 0, 0] }

/-- A node with the probability table `cptHalf` and the given counts. -/
def nodeHalf (observations : Matrix Int) : NodeTables :=
  { probabilityMatrix := cptHalf, observationMatrix := observations }

/-! ## `Matrix<T>`: reading matrix files (src/core/Matrix.h)

A file is the list of the lines that `std::getline` delivers, or `none` if the
stream is not `good()` after opening.  Both readers rewind the stream with
`input.seekg(0)` before each of their three passes.  The `int` counters of
`readMatrix` are taken to hold the counts (files below 2^31 lines and columns);
the conversions to `size_t` are modulo 2^64. -/

/-- Abnormal ends of the file readers, with the matrix at the throw. -/
inductive ReadFailure (S : Type) where
  /-- A `std::invalid_argument` carrying its message. -/
  | threw (msg : String) (state : S)
  /-- A `boost::bad_lexical_cast` from the conversion of a token. -/
  | badLexicalCast (state : S)
  /-- A `std::length_error` from `data_.reserve`. -/
  | lengthError (state : S)
deriving DecidableEq, Repr

/-- What the readers take from the library: the conversion
`boost::lexical_cast<T>` of a token (`none` when it throws) and
`std::vector<T>::max_size()`. -/
structure ReadEnv (T : Type) where
  lexicalCast : String → Option T
  maxSize : Nat

/-- Number of values of `size_t`. -/
def SIZE_RANGE : Nat := 18446744073709551616

/-- Conversion of an `int` value to `size_t`. -/
def toSizeT (value : Int) : Nat :=
  (value % (SIZE_RANGE : Int)).toNat

/-- Conversion `int(flag)` of a `bool`. -/
def boolToNat (flag : Bool) : Nat :=
  if flag = true then 1 else 0

/-- Loop `while (content >> n) numCols++` on the characters of a line: the
extraction succeeds once for every maximal run of characters that are not
whitespace.  `inField` tells whether the previous character belongs to a
field. -/
def countFieldsFrom : Bool → List Char → Nat
  | _, [] => 0
  | inField, c :: cs =>
    if isSpace c = true then countFieldsFrom false cs
    else (if inField = true then 0 else 1) + countFieldsFrom true cs

/-- Number of fields that `>>` extracts from a line. -/
def countFields (line : String) : Nat :=
  countFieldsFrom false line.data

/-- The matcher of the readers: `c == '\t' || c == ' '`. -/
def isDelimiter (c : Char) : Bool :=
  decide (c.toNat = 9) || decide (c.toNat = 32)

/-- Pieces of a line in the order in which the split iterator of
`boost::algorithm::make_split_iterator(line, token_finder(matcher,
boost::token_compress_on))` visits them, following the documentation of the
library: the parts of the line between maximal runs of delimiters.  There is at
least one piece; the first and the last piece are empty when the line starts or
ends with a delimiter.  `piece` holds the characters of the current piece in
reverse, `inRun` tells whether the previous character was a delimiter. -/
def splitFrom : List Char → Bool → List Char → List String
  | piece, _, [] => [String.mk piece.reverse]
  | piece, inRun, c :: cs =>
    if isDelimiter c = true then
      if inRun = true then splitFrom piece true cs
      else String.mk piece.reverse :: splitFrom [] true cs
    else splitFrom (c :: piece) false cs

/-- The pieces of a line. -/
def splitPieces (line : String) : List String :=
  splitFrom [] false line.data

/-- Test `boost::begin(*it) == boost::end(*it)`: the piece is empty. -/
def isEmptyPiece (piece : String) : Bool :=
  piece.data.isEmpty

/-- Local variables of the row loops of the readers, with the matrix. -/
structure ReadLoop (T : Type) where
  m : Matrix T
  rowNBuffer : List String
  row : Nat
deriving DecidableEq, Repr

/-- Loop `for (; it != split_iter_end; ++it)` of the row loop of `readMatrix`:
empty pieces are skipped, every other piece is counted, converted and appended
to `data_`.  Returns the matrix and `counter`. -/
def pushTokens {T : Type} (env : ReadEnv T) :
    Matrix T → Nat → List String → Except (ReadFailure (Matrix T)) (Matrix T × Nat)
  | m, counter, [] => .ok (m, counter)
  | m, counter, piece :: rest =>
    if isEmptyPiece piece = true then pushTokens env m counter rest
    else
      match env.lexicalCast piece with
      | none => .error (.badLexicalCast m)
      | some value => pushTokens env { m with data_ := m.data_ ++ [value] } (counter + 1) rest

/-- The message of the exception for a row with a wrong number of tokens. -/
def rowMessage (row : Nat) : String :=
  "Row " ++ String.mk (Nat.toDigits 10 row)
    ++ " does not contain the specified number of samples"

/-- Body of the loop `while (std::getline(input, line))` that reads the data in
`readMatrix`. -/
def readLine {T : Type} (env : ReadEnv T) (rowNames : Bool) (st : ReadLoop T) (line : String) :
    Except (ReadFailure (Matrix T)) (ReadLoop T) :=
  let pieces := splitPieces line
  let rowNBuffer := if rowNames = true then st.rowNBuffer ++ [pieces.headD ""]
    else st.rowNBuffer
  let rest := if rowNames = true then pieces.tail else pieces
  match pushTokens env st.m 0 rest with
  | .error failure => .error failure
  | .ok (m, counter) =>
    if counter ≠ m.colCount_ then .error (.threw (rowMessage st.row) m)
    else .ok { m := m, rowNBuffer := rowNBuffer, row := st.row + 1 }

/-- Member `void readMatrix(const std::string& filename, bool colNames, bool
rowNames)`.  After the pass that counts the columns, `line` holds the first
line of the file (the empty string for an empty file); the stream is rewound
once more before the loop that reads the data. -/
def Matrix.readMatrix {T : Type} (env : ReadEnv T) (m : Matrix T)
    (file : Option (List String)) (colNames rowNames : Bool) :
    Except (ReadFailure (Matrix T)) (Matrix T) :=
  match file with
  | none => .error (.threw "File not found" m)
  | some lines =>
    let numRows : Int := (lines.length : Int)
    let line := lines.headD ""
    let numCols : Int := (countFields line : Int)
    let m1 : Matrix T :=
      { m with
        rowNames_ := [], colNames_ := [],
        colCount_ := toSizeT (numCols - (boolToNat rowNames : Int)),
        rowCount_ := toSizeT (numRows - (boolToNat colNames : Int)),
        data_ := [] }
    if (m1.colCount_ * m1.rowCount_) % SIZE_RANGE > env.maxSize then
      .error (.lengthError m1)
    else
      let colNBuffer :=
        if colNames = true then (splitPieces line).filter (fun piece => !isEmptyPiece piece)
        else []
      match lines.foldlM (readLine env rowNames)
          { m := m1, rowNBuffer := [], row := boolToNat colNames + 1 } with
      | .error failure => .error failure
      | .ok done => .ok ((done.m.setRowNames done.rowNBuffer).setColNames colNBuffer)

/-- Call `std::binary_search(deSelected.begin(), deSelected.end(), value)` on
the sorted vector. -/
def binarySearch (deSelected : List Nat) (value : Nat) : Bool :=
  deSelected.contains value

/-- Loop over the pieces of the header line in `readMatrixDeletion`: the name
with the running number `counter` is kept unless `counter + 1` is among the
deselected samples. -/
def keepNames (deSelected : List Nat) : List String → Nat → List String → List String
  | colNBuffer, _, [] => colNBuffer
  | colNBuffer, counter, piece :: rest =>
    if isEmptyPiece piece = true then keepNames deSelected colNBuffer counter rest
    else if binarySearch deSelected (counter + 1 + 1) = true then
      keepNames deSelected colNBuffer (counter + 1) rest
    else keepNames deSelected (colNBuffer ++ [piece]) (counter + 1) rest

/-- Loop over the pieces of a data line in `readMatrixDeletion`. -/
def pushKeptTokens {T : Type} (env : ReadEnv T) (deSelected : List Nat) :
    Matrix T → Nat → List String → Except (ReadFailure (Matrix T)) (Matrix T × Nat)
  | m, counter, [] => .ok (m, counter)
  | m, counter, piece :: rest =>
    if isEmptyPiece piece = true then pushKeptTokens env deSelected m counter rest
    else if binarySearch deSelected (counter + 1 + 1) = true then
      pushKeptTokens env deSelected m (counter + 1) rest
    else
      match env.lexicalCast piece with
      | none => .error (.badLexicalCast m)
      | some value =>
        pushKeptTokens env deSelected { m with data_ := m.data_ ++ [value] } (counter + 1) rest

/-- Body of the loop that reads the data in `readMatrixDeletion`. -/
def readLineDeletion {T : Type} (env : ReadEnv T) (rowNames : Bool) (deSelected : List Nat)
    (deleted : Nat) (st : ReadLoop T) (line : String) :
    Except (ReadFailure (Matrix T)) (ReadLoop T) :=
  let pieces := splitPieces line
  let rowNBuffer := if rowNames = true then st.rowNBuffer ++ [pieces.headD ""]
    else st.rowNBuffer
  let rest := if rowNames = true then pieces.tail else pieces
  match pushKeptTokens env deSelected st.m 0 rest with
  | .error failure => .error failure
  | .ok (m, counter) =>
    if counter ≠ m.colCount_ + deleted then .error (.threw (rowMessage st.row) m)
    else .ok { m := m, rowNBuffer := rowNBuffer, row := st.row + 1 }

/-- Member `void readMatrixDeletion(const std::string& filename, bool colNames,
bool rowNames, const std::vector<unsigned int>& deletedSamples)`; the counters
are `size_t` here. -/
def Matrix.readMatrixDeletion {T : Type} (env : ReadEnv T) (m : Matrix T)
    (file : Option (List String)) (colNames rowNames : Bool) (deletedSamples : List Nat) :
    Except (ReadFailure (Matrix T)) (Matrix T) :=
  let deSelected := deletedSamples.insertionSort (fun a b => a ≤ b)
  match file with
  | none => .error (.threw "File not found" m)
  | some lines =>
    let numRows := lines.length
    let m0 : Matrix T := { m with rowNames_ := [], colNames_ := [] }
    let line := lines.headD ""
    let counted := countFields line
    if counted < deletedSamples.length then
      .error (.threw "Attempted to delete more samples than present in the matrix." m0)
    else
      let numCols := counted - deletedSamples.length
      let m1 : Matrix T :=
        { m0 with
          colCount_ := (numCols + SIZE_RANGE - boolToNat rowNames) % SIZE_RANGE,
          rowCount_ := (numRows + SIZE_RANGE - boolToNat colNames) % SIZE_RANGE }
      if m1.rowCount_ = 0 ∨ m1.rowCount_ > numRows then
        .error (.threw
          "Matrix containing data is improperly formatted. No features were found." m1)
      else if m1.colCount_ = 0 ∨ m1.colCount_ > numCols then
        .error (.threw
          "Matrix containing data is improperly formatted. No samples were found." m1)
      else
        let m2 : Matrix T := { m1 with data_ := [] }
        if (m2.colCount_ * m2.rowCount_) % SIZE_RANGE > env.maxSize then
          .error (.lengthError m2)
        else
          let colNBuffer :=
            if colNames = true then keepNames deSelected [] 0 (splitPieces line) else []
          match lines.foldlM (readLineDeletion env rowNames deSelected deletedSamples.length)
              { m := m2, rowNBuffer := [], row := boolToNat colNames + 1 } with
          | .error failure => .error failure
          | .ok done => .ok ((done.m.setRowNames done.rowNBuffer).setColNames colNBuffer)

/-- A default-constructed matrix with `colCount_ = 0; rowCount_ = 0;`, the
state in which the file constructors call the reader. -/
def Matrix.emptyMatrix {T : Type} : Matrix T :=
  { rowCount_ := 0, colCount_ := 0, rowNames_ := [], colNames_ := [],
    rowNamesToIndex_ := [], colNamesToIndex_ := [], data_ := [] }

/-- Constructor `Matrix(filename, colNames, rowNames)`. -/
def Matrix.fromFile {T : Type} (env : ReadEnv T) (file : Option (List String))
    (colNames rowNames : Bool) : Except (ReadFailure (Matrix T)) (Matrix T) :=
  Matrix.emptyMatrix.readMatrix env file colNames rowNames

/-- Constructor `Matrix(filename, colNames, rowNames, samplesToDelete)`; its
body is the body of the three-argument file constructor. -/
def Matrix.fromFileDeleting {T : Type} (env : ReadEnv T) (file : Option (List String))
    (colNames rowNames : Bool) (_samplesToDelete : List Nat) :
    Except (ReadFailure (Matrix T)) (Matrix T) :=
  Matrix.emptyMatrix.readMatrix env file colNames rowNames

/-- Conversion `boost::lexical_cast<int>` of a token, following the
documentation of the library: an optional sign and decimal digits, the value
within the range of `int`. -/
def lexicalCastInt (token : String) : Option Int :=
  let digits := fun (cs : List Char) (sign : Int) =>
    if cs ≠ [] ∧ cs.all isDigit = true then
      let value : Int := sign * (digitsValue cs : Int)
      if -2147483648 ≤ value ∧ value ≤ 2147483647 then some value else none
    else none
  match token.data with
  | [] => none
  | c :: cs =>
    if c.toNat = 45 then digits cs (-1)
    else if c.toNat = 43 then digits cs 1
    else digits (c :: cs) 1

/-- Library environment of `Matrix<int>`. -/
def intEnv : ReadEnv Int :=
  { lexicalCast := lexicalCastInt, maxSize := 2305843009213693951 }

/-- Library environment of `Matrix<std::string>`: every token converts to
itself. -/
def stringEnv : ReadEnv String :=
  { lexicalCast := fun token => some token, maxSize := 288230376151711743 }

/-- The message of the `std::invalid_argument` that ended a call, if one did. -/
def thrownMessage {S A : Type} : Except (ReadFailure S) A → Option String
  | .error (.threw msg _) => some msg
  | _ => none

/-- Whether a `boost::bad_lexical_cast` ended a call. -/
def endedByBadCast {S A : Type} : Except (ReadFailure S) A → Bool
  | .error (.badLexicalCast _) => true
  | _ => false

/-- Dimensions, values and column names of the matrix that a reader returns. -/
def readSummary {T : Type} (outcome : Except (ReadFailure (Matrix T)) (Matrix T)) :
    Option (Nat × Nat × List T × List String) :=
  match outcome with
  | .ok m => some (m.rowCount_, m.colCount_, m.data_, m.colNames_)
  | .error _ => none

/-! ## Auxiliary predicates used by the proofs -/

/-- The probability table of the parameters has `cols` columns, `rows` rows and
one value per cell. -/
def EM.Likelihood.Shaped (st : EM.Likelihood) (cols rows : Nat) : Prop :=
  st.n.probabilityMatrix.colCount_ = cols ∧ st.n.probabilityMatrix.rowCount_ = rows ∧
    st.n.probabilityMatrix.data_.length = cols * rows


/-- Every object that an outcome carries, as its result or as the state at a
throw, satisfies `P`; `proj` selects the object from the result. -/
def Carries {A S : Type} (P : S → Prop) (proj : A → S) : Except (Failure S) A → Prop
  | .ok a => P (proj a)
  | .error (.threw _ s) => P s
  | .error .undefinedBehaviour => True


/-- State of the value store while `resize` relocates the old cells, walking the
old flat indices downwards: the cells with old flat index below `k` are still
where they were, those from `k` on have reached their new place. -/
def MoveInv {T : Type} (old : List T) (oc orows nc k : Nat) (d : List T) : Prop :=
  d.length = old.length ∧
  (∀ j, j < k → d[j]? = old[j]?) ∧
  (∀ col row, col < oc → row < orows → k ≤ col + row * oc →
    d[col + row * nc]? = old[col + row * oc]?)

end CausalTrail

namespace CausalTrail

/-! ## Arithmetic of the row-major layout -/

theorem flat_lt {w h col row : Nat} (hc : col < w) (hr : row < h) :
    col + row * w < w * h := by
  have h1 : (row + 1) * w ≤ h * w := Nat.mul_le_mul_right w hr
  have h2 : (row + 1) * w = row * w + w := Nat.succ_mul row w
  have h3 : h * w = w * h := Nat.mul_comm h w
  omega

theorem flat_inj {w col row col2 row2 : Nat} (hc : col < w) (hc2 : col2 < w)
    (h : col + row * w = col2 + row2 * w) : col = col2 ∧ row = row2 := by
  have hw : 0 < w := by omega
  have e1 : (col + row * w) / w = row := by
    rw [Nat.add_mul_div_right _ _ hw, Nat.div_eq_of_lt hc, Nat.zero_add]
  have e2 : (col2 + row2 * w) / w = row2 := by
    rw [Nat.add_mul_div_right _ _ hw, Nat.div_eq_of_lt hc2, Nat.zero_add]
  have hrow : row = row2 := by rw [← e1, ← e2, h]
  subst hrow
  exact ⟨by omega, rfl⟩

/-! ## Vector primitives -/

theorem vecRead_eq_ok {T : Type} {v : List T} {i : Nat} {x : T} (h : v[i]? = some x) :
    vecRead v i = .ok x := by
  simp [vecRead, h]

theorem vecWrite_eq_ok {T : Type} {v : List T} {i : Nat} (x : T) (h : i < v.length) :
    vecWrite v i x = .ok (v.set i x) := by
  simp [vecWrite, h]

theorem vecResize_length {T : Type} [Inhabited T] (v : List T) (n : Nat) :
    (vecResize v n).length = n := by
  simp [vecResize]; omega

theorem vecResize_getElem? {T : Type} [Inhabited T] (v : List T) (n j : Nat)
    (hn : v.length ≤ n) (hj : j < v.length) :
    (vecResize v n)[j]? = v[j]? := by
  unfold vecResize
  rw [List.take_of_length_le hn, List.getElem?_append_left hj]

/-! ## Loops -/

theorem forDown_succ_ok {S : Type} {body : Nat → S → Except Error S} {n : Nat} {s s1 : S}
    (h : body n s = .ok s1) : forDown body (n + 1) s = forDown body n s1 := by
  show (body n s >>= forDown body n) = _
  rw [h]
  rfl

theorem forUpFrom_succ_ok {S : Type} {body : Nat → S → Except Error S} {lo count : Nat}
    {s s1 : S} (h : body lo s = .ok s1) :
    forUpFrom body lo (count + 1) s = forUpFrom body (lo + 1) count s1 := by
  show (body lo s >>= forUpFrom body (lo + 1) count) = _
  rw [h]
  rfl

/-! ## The relocation loop of `resize` -/

theorem moveInv_step {T : Type} {old : List T} {oc orows nc nr col row : Nat} {d : List T}
    (hlen : old.length = nc * nr) (hoc : oc ≤ nc) (hor : orows ≤ nr)
    (hc : col < oc) (hr : row < orows)
    (inv : MoveInv old oc orows nc (col + 1 + row * oc) d) :
    ∃ d2, (do
        let x ← vecRead d (col + row * oc)
        vecWrite d (col + row * oc + (nc - oc) * row) x) = Except.ok d2 ∧
      MoveInv old oc orows nc (col + row * oc) d2 := by
  obtain ⟨hl, hlow, hhigh⟩ := inv
  have hdest : col + row * oc + (nc - oc) * row = col + row * nc := by
    have e : (nc - oc) * row = row * nc - row * oc := by
      rw [Nat.mul_comm, Nat.mul_sub]
    have le : row * oc ≤ row * nc := Nat.mul_le_mul_left row hoc
    omega
  have hsrc_le : col + row * oc ≤ col + row * nc := by
    have le : row * oc ≤ row * nc := Nat.mul_le_mul_left row hoc
    omega
  have hdest_lt : col + row * nc < nc * nr :=
    flat_lt (Nat.lt_of_lt_of_le hc hoc) (Nat.lt_of_lt_of_le hr hor)
  have hsrc_lt : col + row * oc < old.length := by omega
  have hx : d[col + row * oc]? = some (old.get ⟨col + row * oc, hsrc_lt⟩) := by
    rw [hlow _ (by omega)]
    exact List.getElem?_eq_getElem hsrc_lt
  refine ⟨d.set (col + row * nc) (old.get ⟨col + row * oc, hsrc_lt⟩), ?_, ?_, ?_, ?_⟩
  · rw [vecRead_eq_ok hx, hdest]
    exact vecWrite_eq_ok _ (by omega)
  · simp [hl]
  · intro j hj
    rw [List.getElem?_set_ne (by omega)]
    exact hlow j (by omega)
  · intro col2 row2 hc2 hr2 hk
    by_cases hsame : col2 + row2 * oc = col + row * oc
    · obtain ⟨e1, e2⟩ := flat_inj hc2 hc hsame
      subst e1; subst e2
      rw [List.getElem?_set_self (by omega)]
      exact (List.getElem?_eq_getElem hsrc_lt).symm
    · have hne : col + row * nc ≠ col2 + row2 * nc := by
        intro h
        obtain ⟨e1, e2⟩ := flat_inj (Nat.lt_of_lt_of_le hc hoc) (Nat.lt_of_lt_of_le hc2 hoc) h
        exact hsame (by rw [e1, e2])
      rw [List.getElem?_set_ne hne]
      exact hhigh col2 row2 hc2 hr2 (by omega)

theorem moveInv_row {T : Type} {old : List T} {oc orows nc nr row : Nat}
    (hlen : old.length = nc * nr) (hoc : oc ≤ nc) (hor : orows ≤ nr) (hr : row < orows) :
    ∀ (n : Nat) (d : List T), n ≤ oc → MoveInv old oc orows nc (n + row * oc) d →
      ∃ d2, forDown (fun col d => do
          let x ← vecRead d (col + row * oc)
          vecWrite d (col + row * oc + (nc - oc) * row) x) n d = Except.ok d2 ∧
        MoveInv old oc orows nc (row * oc) d2 := by
  intro n
  induction n with
  | zero =>
    intro d _ inv
    exact ⟨d, rfl, by simpa using inv⟩
  | succ n ih =>
    intro d hn inv
    obtain ⟨d1, h1, inv1⟩ := moveInv_step hlen hoc hor (show n < oc by omega) hr inv
    obtain ⟨d2, h2, inv2⟩ := ih d1 (by omega) inv1
    exact ⟨d2, (forDown_succ_ok h1).trans h2, inv2⟩

theorem moveInv_all {T : Type} {old : List T} {oc orows nc nr : Nat}
    (hlen : old.length = nc * nr) (hoc : oc ≤ nc) (hor : orows ≤ nr) :
    ∀ (n : Nat) (d : List T), n ≤ orows → MoveInv old oc orows nc (n * oc) d →
      ∃ d2, forDown (fun row d => forDown (fun col d => do
          let x ← vecRead d (col + row * oc)
          vecWrite d (col + row * oc + (nc - oc) * row) x) oc d) n d = Except.ok d2 ∧
        MoveInv old oc orows nc 0 d2 := by
  intro n
  induction n with
  | zero =>
    intro d _ inv
    exact ⟨d, rfl, by simpa using inv⟩
  | succ n ih =>
    intro d hn inv
    have inv0 : MoveInv old oc orows nc (oc + n * oc) d := by
      rw [Nat.succ_mul, Nat.add_comm] at inv
      exact inv
    obtain ⟨d1, h1, inv1⟩ :=
      moveInv_row hlen hoc hor (show n < orows by omega) oc d (Nat.le_refl _) inv0
    obtain ⟨d2, h2, inv2⟩ := ih d1 (by omega) inv1
    refine ⟨d2, ?_, inv2⟩
    have e := @forDown_succ_ok _ (fun row d => forDown (fun col d => do
          let x ← vecRead d (col + row * oc)
          vecWrite d (col + row * oc + (nc - oc) * row) x) oc d) n d d1 h1
    exact e.trans h2

theorem moveInv_init {T : Type} (old : List T) (oc orows nc : Nat) :
    MoveInv old oc orows nc (orows * oc) old := by
  refine ⟨rfl, fun _ _ => rfl, ?_⟩
  intro col row hc hr hk
  have := flat_lt hc hr
  rw [Nat.mul_comm oc orows] at this
  omega

/-! ## The initialisation loops of `resize` -/

theorem fill_row {T : Type} (w row : Nat) (init : T) :
    ∀ (count c0 : Nat) (d : List T), c0 + count ≤ w → (row + 1) * w ≤ d.length →
      ∃ d2, forUpFrom (fun col d => vecWrite d (col + row * w) init) c0 count d = Except.ok d2 ∧
        d2.length = d.length ∧
        (∀ col, c0 ≤ col → col < c0 + count → d2[col + row * w]? = some init) ∧
        (∀ j, (∀ col, c0 ≤ col → col < c0 + count → j ≠ col + row * w) → d2[j]? = d[j]?) := by
  intro count
  induction count with
  | zero =>
    intro c0 d _ _
    exact ⟨d, rfl, rfl, fun col h1 h2 => by omega, fun _ _ => rfl⟩
  | succ count ih =>
    intro c0 d hw hlen
    have hsm : (row + 1) * w = row * w + w := Nat.succ_mul row w
    have hlt : c0 + row * w < d.length := by omega
    have h1 : (fun col d => vecWrite d (col + row * w) init) c0 d
        = Except.ok (d.set (c0 + row * w) init) := vecWrite_eq_ok init hlt
    obtain ⟨d2, h2, hl2, hin, hout⟩ :=
      ih (c0 + 1) (d.set (c0 + row * w) init) (by omega) (by simpa using hlen)
    refine ⟨d2, (forUpFrom_succ_ok h1).trans h2, by simpa using hl2, ?_, ?_⟩
    · intro col hc1 hc2
      by_cases hcol : col = c0
      · subst hcol
        rw [hout _ (fun col2 h3 _ => by omega)]
        exact List.getElem?_set_self hlt
      · exact hin col (by omega) (by omega)
    · intro j hj
      rw [hout j (fun col h3 h4 => hj col (by omega) (by omega))]
      exact List.getElem?_set_ne (fun h => hj c0 (Nat.le_refl _) (by omega) h.symm)

theorem fill_rows {T : Type} (w c0 c1 : Nat) (init : T) (hc : c0 ≤ c1) (hw : c1 ≤ w) :
    ∀ (count r0 : Nat) (d : List T), (r0 + count) * w ≤ d.length →
      ∃ d2, forUpFrom (fun row d => forUp (fun col d => vecWrite d (col + row * w) init)
          c0 c1 d) r0 count d = Except.ok d2 ∧
        d2.length = d.length ∧
        (∀ row col, r0 ≤ row → row < r0 + count → c0 ≤ col → col < c1 →
          d2[col + row * w]? = some init) ∧
        (∀ j, (∀ row col, r0 ≤ row → row < r0 + count → c0 ≤ col → col < c1 →
          j ≠ col + row * w) → d2[j]? = d[j]?) := by
  intro count
  induction count with
  | zero =>
    intro r0 d _
    exact ⟨d, rfl, rfl, fun row col h1 h2 => by omega, fun _ _ => rfl⟩
  | succ count ih =>
    intro r0 d hlen
    have hmono : (r0 + 1) * w ≤ (r0 + (count + 1)) * w :=
      Nat.mul_le_mul_right w (by omega)
    obtain ⟨d1, h1, hl1, hin1, hout1⟩ :=
      fill_row w r0 init (c1 - c0) c0 d (by omega) (by omega)
    obtain ⟨d2, h2, hl2, hin2, hout2⟩ := ih (r0 + 1) d1 (by
      rw [hl1]
      have e : r0 + 1 + count = r0 + (count + 1) := by omega
      rw [e]
      exact hlen)
    have e := @forUpFrom_succ_ok _ (fun row d => forUp (fun col d =>
      vecWrite d (col + row * w) init) c0 c1 d) r0 count d d1 h1
    refine ⟨d2, e.trans h2, by rw [hl2, hl1], ?_, ?_⟩
    · intro row col hr1 hr2 hc1 hc2
      by_cases hrow : row = r0
      · subst hrow
        rw [hout2 _ (fun row2 col2 h3 _ _ h5 h6 => by
          have := (flat_inj (show col < w by omega) (show col2 < w by omega) h6).2
          omega)]
        exact hin1 col hc1 (by omega)
      · exact hin2 row col (by omega) (by omega) hc1 hc2
    · intro j hj
      rw [hout2 j (fun row col h3 h4 h5 h6 => hj row col (by omega) (by omega) h5 h6)]
      exact hout1 j (fun col h3 h4 => hj r0 col (Nat.le_refl _) (by omega) h3 (by omega))

theorem fill_rect {T : Type} (w c0 c1 r0 r1 : Nat) (init : T) (d : List T)
    (hc : c0 ≤ c1) (hw : c1 ≤ w) (hr : r0 ≤ r1) (hlen : r1 * w ≤ d.length) :
    ∃ d2, forUp (fun row d => forUp (fun col d => vecWrite d (col + row * w) init)
        c0 c1 d) r0 r1 d = Except.ok d2 ∧
      d2.length = d.length ∧
      (∀ row col, r0 ≤ row → row < r1 → c0 ≤ col → col < c1 →
        d2[col + row * w]? = some init) ∧
      (∀ j, (∀ row col, r0 ≤ row → row < r1 → c0 ≤ col → col < c1 →
        j ≠ col + row * w) → d2[j]? = d[j]?) := by
  have e : r0 + (r1 - r0) = r1 := by omega
  have := fill_rows w c0 c1 init hc hw (r1 - r0) r0 d (by rw [e]; exact hlen)
  rw [e] at this
  exact this

/-! ## `resize` -/

theorem ok_bind {A B : Type} (a : A) (f : A → Except Error B) :
    ((Except.ok a : Except Error A) >>= f) = f a := rfl

theorem ok_bind2 {E A B : Type} (a : A) (f : A → Except E B) :
    ((Except.ok a : Except E A) >>= f) = f a := rfl

theorem Matrix.resize_spec {T : Type} [Inhabited T] (m : Matrix T) (nc nr : Nat) (init : T)
    (hs : m.Sized) (hc : m.colCount_ ≤ nc) (hr : m.rowCount_ ≤ nr) :
    ∃ m2, m.resize nc nr init = .ok m2 ∧ m2.colCount_ = nc ∧ m2.rowCount_ = nr ∧
      m2.rowNames_ = m.rowNames_ ∧ m2.colNames_ = m.colNames_ ∧
      m2.rowNamesToIndex_ = m.rowNamesToIndex_ ∧ m2.colNamesToIndex_ = m.colNamesToIndex_ ∧
      m2.data_.length = nc * nr ∧
      ∀ col row, col < nc → row < nr →
        m2.data_[col + row * nc]? =
          if col < m.colCount_ ∧ row < m.rowCount_ then m.data_[col + row * m.colCount_]?
          else some init := by
  unfold Matrix.Sized at hs
  have hgrow : m.colCount_ * m.rowCount_ ≤ nc * nr := Nat.mul_le_mul hc hr
  unfold Matrix.resize
  rw [if_neg (by omega)]
  by_cases h1 : m.colCount_ < nc
  · rw [if_pos h1]
    have hl0 : (vecResize m.data_ (nc * nr)).length = nc * nr := vecResize_length _ _
    obtain ⟨d1, e1, hl1, -, hmoved⟩ := moveInv_all hl0 hc hr m.rowCount_
      (vecResize m.data_ (nc * nr)) (Nat.le_refl _) (moveInv_init _ _ _ _)
    obtain ⟨d2, e2, hl2, hin2, hout2⟩ := fill_rect nc m.colCount_ nc 0 m.rowCount_ init d1
      hc (Nat.le_refl _) (Nat.zero_le _) (by
        rw [hl1, hl0, Nat.mul_comm nc nr]; exact Nat.mul_le_mul_right nc hr)
    obtain ⟨d3, e3, hl3, hin3, hout3⟩ := fill_rect nc 0 nc m.rowCount_ nr init d2
      (Nat.zero_le _) (Nat.le_refl _) hr (by rw [hl2, hl1, hl0, Nat.mul_comm])
    refine ⟨{ m with data_ := d3, colCount_ := nc, rowCount_ := nr }, ?_, rfl, rfl, rfl, rfl,
      rfl, rfl, by simp [hl3, hl2, hl1, hl0], ?_⟩
    · simp only [e1, e2, e3, ok_bind]
      rfl
    · intro col row hcol hrow
      show d3[col + row * nc]? = _
      by_cases hold : col < m.colCount_ ∧ row < m.rowCount_
      · rw [if_pos hold]
        rw [hout3 _ (fun row2 col2 h3 _ _ h6 h7 => by
          have := (flat_inj hcol h6 h7).2
          omega)]
        rw [hout2 _ (fun row2 col2 _ _ h5 h6 h7 => by
          have := (flat_inj hcol h6 h7).1
          omega)]
        rw [hmoved col row hold.1 hold.2 (Nat.zero_le _)]
        exact vecResize_getElem? _ _ _ (by omega) (by
          rw [hs]; exact flat_lt hold.1 hold.2)
      · rw [if_neg hold]
        by_cases hrow2 : row < m.rowCount_
        · rw [hout3 _ (fun row2 col2 h3 _ _ h6 h7 => by
            have := (flat_inj hcol h6 h7).2
            omega)]
          exact hin2 row col (Nat.zero_le _) hrow2 (by
            by_contra h
            exact hold ⟨by omega, hrow2⟩) hcol
        · exact hin3 row col (by omega) hrow (Nat.zero_le _) hcol
  · rw [if_neg h1]
    have hceq : nc = m.colCount_ := by omega
    subst hceq
    by_cases h2 : m.rowCount_ < nr
    · rw [if_pos h2]
      have hl0 : (vecResize m.data_ (m.colCount_ * nr)).length = m.colCount_ * nr :=
        vecResize_length _ _
      obtain ⟨d1, e1, hl1, hin1, hout1⟩ := fill_rect m.colCount_ 0 m.colCount_ m.rowCount_ nr
        init (vecResize m.data_ (m.colCount_ * nr)) (Nat.zero_le _) (Nat.le_refl _) hr
        (by rw [hl0, Nat.mul_comm])
      refine ⟨{ m with data_ := d1, colCount_ := m.colCount_, rowCount_ := nr }, ?_, rfl, rfl,
        rfl, rfl, rfl, rfl, by simp [hl1, hl0], ?_⟩
      · simp only [e1, ok_bind]
        rfl
      · intro col row hcol hrow
        show d1[col + row * m.colCount_]? = _
        by_cases hrow2 : row < m.rowCount_
        · rw [if_pos ⟨hcol, hrow2⟩]
          rw [hout1 _ (fun row2 col2 h3 _ _ h6 h7 => by
            have := (flat_inj hcol h6 h7).2
            omega)]
          exact vecResize_getElem? _ _ _ (by omega) (by
            rw [hs]; exact flat_lt hcol hrow2)
        · rw [if_neg (fun h => hrow2 h.2)]
          exact hin1 row col (by omega) hrow (Nat.zero_le _) hcol
    · rw [if_neg h2]
      have hreq : nr = m.rowCount_ := by omega
      subst hreq
      refine ⟨m, rfl, rfl, rfl, rfl, rfl, rfl, rfl, hs, ?_⟩
      intro col row hcol hrow
      rw [if_pos ⟨hcol, hrow⟩]

/-! ## Maps -/

theorem mapFind_mapAssign {K : Type} [DecidableEq K] (m : List (K × Nat)) (k : K) (v : Nat)
    (k2 : K) : mapFind (mapAssign m k v) k2 = if k2 = k then some v else mapFind m k2 := by
  induction m with
  | nil =>
    by_cases h : k = k2
    · simp [mapAssign, mapFind, h]
    · have h2 : ¬ k2 = k := fun e => h e.symm
      simp [mapAssign, mapFind, h, h2]
  | cons p m ih =>
    unfold mapAssign
    by_cases hp : p.1 = k
    · rw [if_pos hp]
      by_cases h : k2 = k
      · simp [mapFind, h]
      · have h2 : ¬ k = k2 := fun e => h e.symm
        have h3 : ¬ p.1 = k2 := fun e => h (by rw [← e, hp])
        simp [mapFind, h, h2, h3]
    · rw [if_neg hp]
      by_cases hq : p.1 = k2
      · have h : ¬ k2 = k := fun e => hp (by rw [hq, e])
        simp [mapFind, hq, h]
      · simp only [mapFind, if_neg hq]
        exact ih

theorem mapFind_mem {K : Type} [DecidableEq K] {m : List (K × Nat)} {k : K} {i : Nat}
    (h : mapFind m k = some i) : (k, i) ∈ m := by
  induction m with
  | nil => simp [mapFind] at h
  | cons p m ih =>
    unfold mapFind at h
    by_cases hp : p.1 = k
    · rw [if_pos hp] at h
      have e : p = (k, i) := by
        cases p
        simp only [Option.some.injEq] at h hp
        simp [h, hp]
      rw [e]
      exact List.mem_cons_self _ _
    · rw [if_neg hp] at h
      exact List.mem_cons_of_mem _ (ih h)

theorem mem_mapAssign {K : Type} [DecidableEq K] {m : List (K × Nat)} {k : K} {v : Nat}
    {p : K × Nat} (h : p ∈ mapAssign m k v) : p = (k, v) ∨ p ∈ m := by
  induction m with
  | nil =>
    simp only [mapAssign, List.mem_singleton] at h
    exact Or.inl h
  | cons q m ih =>
    unfold mapAssign at h
    by_cases hq : q.1 = k
    · rw [if_pos hq] at h
      rcases List.mem_cons.mp h with h1 | h1
      · exact Or.inl h1
      · exact Or.inr (List.mem_cons_of_mem _ h1)
    · rw [if_neg hq] at h
      rcases List.mem_cons.mp h with h1 | h1
      · exact Or.inr (h1 ▸ List.mem_cons_self _ _)
      · rcases ih h1 with h2 | h2
        · exact Or.inl h2
        · exact Or.inr (List.mem_cons_of_mem _ h2)

/-! ## Decimal numerals -/

theorem digitChar_isDigit : ∀ d, d < 10 → isDigit (Nat.digitChar d) = true := by decide

theorem digitChar_value : ∀ d, d < 10 → (Nat.digitChar d).toNat - 48 = d := by decide

theorem toDigitsCore_isDigit (fuel : Nat) : ∀ (n : Nat) (acc : List Char),
    (∀ c ∈ acc, isDigit c = true) → ∀ c ∈ Nat.toDigitsCore 10 fuel n acc, isDigit c = true := by
  induction fuel with
  | zero => intro n acc h; simpa [Nat.toDigitsCore] using h
  | succ fuel ih =>
    intro n acc h
    have hacc : ∀ c ∈ Nat.digitChar (n % 10) :: acc, isDigit c = true := by
      intro c hc
      rcases List.mem_cons.mp hc with h1 | h1
      · rw [h1]; exact digitChar_isDigit _ (Nat.mod_lt _ (by decide))
      · exact h c h1
    simp only [Nat.toDigitsCore]
    split
    · exact hacc
    · exact ih _ _ hacc

theorem toDigitsCore_ne_nil (fuel : Nat) : ∀ (n : Nat) (acc : List Char),
    acc ≠ [] → Nat.toDigitsCore 10 fuel n acc ≠ [] := by
  induction fuel with
  | zero => intro n acc h; simpa [Nat.toDigitsCore] using h
  | succ fuel ih =>
    intro n acc _
    simp only [Nat.toDigitsCore]
    split
    · exact List.cons_ne_nil _ _
    · exact ih _ _ (List.cons_ne_nil _ _)

theorem toDigitsCore_value (fuel : Nat) : ∀ (n : Nat) (acc : List Char), n < fuel →
    (Nat.toDigitsCore 10 fuel n acc).foldl (fun v c => v * 10 + (c.toNat - 48)) 0 =
      acc.foldl (fun v c => v * 10 + (c.toNat - 48)) n := by
  induction fuel with
  | zero => intro n acc h; omega
  | succ fuel ih =>
    intro n acc hn
    simp only [Nat.toDigitsCore]
    have hd := digitChar_value (n % 10) (Nat.mod_lt _ (by decide))
    split
    · rename_i h0
      simp only [List.foldl_cons, hd]
      have : 0 * 10 + n % 10 = n := by omega
      rw [this]
    · rename_i h0
      rw [ih (n / 10) _ (by omega)]
      simp only [List.foldl_cons, hd]
      have : n / 10 * 10 + n % 10 = n := by omega
      rw [this]

theorem toDigits_isDigit (n : Nat) : ∀ c ∈ Nat.toDigits 10 n, isDigit c = true :=
  toDigitsCore_isDigit _ _ _ (fun _ h => by simp at h)

theorem toDigits_value (n : Nat) : digitsValue (Nat.toDigits 10 n) = n := by
  have := toDigitsCore_value (n + 1) n [] (by omega)
  simpa [digitsValue, Nat.toDigits] using this

theorem toDigits_ne_nil (n : Nat) : Nat.toDigits 10 n ≠ [] := by
  unfold Nat.toDigits
  simp only [Nat.toDigitsCore]
  split
  · exact List.cons_ne_nil _ _
  · exact toDigitsCore_ne_nil _ _ _ (List.cons_ne_nil _ _)

theorem isDigit_not_space {c : Char} (h : isDigit c = true) : isSpace c = false := by
  simp only [isDigit, Bool.and_eq_true, decide_eq_true_eq] at h
  simp only [isSpace, Bool.or_eq_false_iff, Bool.and_eq_false_iff, decide_eq_false_iff_not]
  omega

theorem isDigit_not_sign {c : Char} (h : isDigit c = true) :
    ¬ (c.toNat = 45 ∨ c.toNat = 43) := by
  simp only [isDigit, Bool.and_eq_true, decide_eq_true_eq] at h
  omega

theorem takeWhile_all {A : Type} (p : A → Bool) (l : List A) (h : ∀ a ∈ l, p a = true) :
    l.takeWhile p = l := by
  induction l with
  | nil => rfl
  | cons a l ih =>
    rw [List.takeWhile_cons, h a (List.mem_cons_self _ _)]
    simp only [if_true]
    rw [ih (fun b hb => h b (List.mem_cons_of_mem _ hb))]

theorem dropWhile_isSpace_digits {l : List Char} (h : ∀ c ∈ l, isDigit c = true) :
    l.dropWhile isSpace = l := by
  cases l with
  | nil => rfl
  | cons c cs =>
    rw [List.dropWhile_cons, isDigit_not_space (h c (List.mem_cons_self _ _))]
    rfl

/-- Statements `nbuffer << id; nbuffer >> ids` leave the decimal numeral of `id`
in `ids`. -/
theorem extractString_ofUnsigned (id : Nat) (old : String) :
    (extractString (IStream.ofUnsigned id) old).2 = String.mk (Nat.toDigits 10 id) := by
  have hd := toDigits_isDigit id
  have hne := toDigits_ne_nil id
  unfold extractString IStream.ofUnsigned
  simp only [Bool.true_eq_false, if_false]
  rw [dropWhile_isSpace_digits hd]
  cases hl : Nat.toDigits 10 id with
  | nil => exact absurd hl hne
  | cons c cs =>
    simp only
    rw [takeWhile_all]
    intro a ha
    rw [hl] at hd
    simp [isDigit_not_space (hd a ha)]

/-- Statements `ss << name; ss >> temp` recover `id` from its decimal numeral. -/
theorem extractUnsigned_numeral (id : Nat) (h : id ≤ UINT_MAX) (x : Nat) :
    (extractUnsigned (IStream.ofString (String.mk (Nat.toDigits 10 id))) x).2 = id := by
  have hd := toDigits_isDigit id
  have hne := toDigits_ne_nil id
  have hv := toDigits_value id
  unfold extractUnsigned IStream.ofString
  simp only [Bool.true_eq_false, if_false]
  rw [dropWhile_isSpace_digits hd]
  cases hl : Nat.toDigits 10 id with
  | nil => exact absurd hl hne
  | cons c cs =>
    rw [hl] at hd hv
    have hc := isDigit_not_sign (hd c (List.mem_cons_self _ _))
    have h45 : ¬ c.toNat = 45 := fun e => hc (Or.inl e)
    simp only [if_neg hc, takeWhile_all isDigit (c :: cs) hd, hv, List.isEmpty_cons,
      Bool.false_eq_true, if_false, decide_eq_true_eq, if_neg h45, if_neg (Nat.not_lt.mpr h)]

/-! ## Cell access -/

theorem Matrix.setData_inRange {T : Type} (m : Matrix T) (v : T) {col row : Nat}
    (hs : m.Sized) (hc : col < m.colCount_) (hr : row < m.rowCount_) :
    m.setData v col row = .ok { m with data_ := m.data_.set (col + row * m.colCount_) v } := by
  unfold Matrix.setData
  rw [if_neg (by omega)]
  have hlt : col + row * m.colCount_ < m.data_.length := by
    rw [hs]; exact flat_lt hc hr
  rw [vecWrite_eq_ok v hlt]
  rfl

theorem Matrix.getData_inRange {T : Type} (m : Matrix T) {col row : Nat}
    (hc : col ≤ m.colCount_) (hr : row ≤ m.rowCount_) :
    m.getData col row = vecRead m.data_ (col + row * m.colCount_) := by
  unfold Matrix.getData
  rw [if_neg (by omega)]

theorem Matrix.operatorCall_inRange {T : Type} (m : Matrix T) {col row : Nat}
    (hc : col ≤ m.colCount_) (hr : row ≤ m.rowCount_) :
    m.operatorCall col row = vecRead m.data_ (col + row * m.colCount_) := by
  unfold Matrix.operatorCall
  rw [if_neg (by omega)]

theorem vecRead_of_lt {T : Type} (v : List T) {i : Nat} (h : i < v.length) :
    vecRead v i = .ok (v.get ⟨i, h⟩) :=
  vecRead_eq_ok (List.getElem?_eq_getElem h)

/-! ## Network invariants -/

theorem Network.getIndex_eq_ok {n : Network} {id i : Nat} (h : n.getIndex id = .ok i) :
    mapFind n.IDToIndex_ id = some i := by
  unfold Network.getIndex at h
  cases hf : mapFind n.IDToIndex_ id with
  | none => rw [hf] at h; cases h
  | some j => rw [hf] at h; cases h; rfl

theorem Network.Coherent.index_lt {n : Network} (hn : n.Coherent) {id i : Nat}
    (h : n.getIndex id = .ok i) : i < n.NodeList_.length ∧ n.idAt i = id := by
  obtain ⟨_, _, _, _, _, hidx⟩ := hn
  have hm := hidx _ (mapFind_mem (Network.getIndex_eq_ok h))
  simp only at hm
  unfold Network.idAt
  rw [hm]
  refine ⟨?_, rfl⟩
  by_contra hge
  rw [List.getElem?_eq_none (by omega)] at hm
  simp at hm

theorem Network.Coherent.withCell {n : Network} (hn : n.Coherent) (col row value : Nat) :
    (n.withCell col row value).Coherent := by
  obtain ⟨h1, h2, h3, h4, h5, h6⟩ := hn
  refine ⟨?_, h2, h3, h4, h5, h6⟩
  unfold Matrix.Sized at h1 ⊢
  simpa [Network.withCell] using h1

theorem Network.setCell_ok {n : Network} (hn : n.Coherent) (value : Nat) {col row : Nat}
    (hc : col < n.NodeList_.length) (hr : row < n.NodeList_.length) :
    n.withAdjacency (n.AdjacencyMatrix_.setData value col row)
      = .ok (n.withCell col row value) := by
  obtain ⟨h1, h2, h3, _, _, _⟩ := hn
  rw [Matrix.setData_inRange _ _ h1 (by omega) (by omega)]
  rfl

/-! ## `getParents` -/

theorem Network.Coherent.rowName {n : Network} (hn : n.Coherent) {row : Nat}
    (hr : row < n.NodeList_.length) :
    vecRead n.AdjacencyMatrix_.getRowNames row
      = .ok (String.mk (Nat.toDigits 10 (n.idAt row))) ∧ n.idAt row ≤ UINT_MAX := by
  obtain ⟨_, _, _, h4, h5, _⟩ := hn
  have hnd : n.NodeList_[row]? = some (n.NodeList_.get ⟨row, hr⟩) :=
    List.getElem?_eq_getElem hr
  have hid : n.idAt row = (n.NodeList_.get ⟨row, hr⟩).id := by
    unfold Network.idAt
    rw [hnd]
    rfl
  constructor
  · apply vecRead_eq_ok
    unfold Matrix.getRowNames
    rw [h4, List.getElem?_map, hnd, hid]
    rfl
  · rw [hid]
    exact h5 _ (List.get_mem _ _ _)

theorem Network.getParents_loop {n : Network} (hn : n.Coherent) {index : Nat}
    (hi : index < n.NodeList_.length) :
    ∀ (count r0 : Nat) (acc : List Nat), r0 + count ≤ n.NodeList_.length →
      forUpFrom (fun row parentIDs => do
        let cell ← n.AdjacencyMatrix_.operatorCall index row
        if cell = 1 then
          let name ← vecRead n.AdjacencyMatrix_.getRowNames row
          let temp := (extractUnsigned (IStream.ofString name) 0).2
          pure (parentIDs ++ [temp])
        else
          pure parentIDs) r0 count acc
      = .ok (acc ++ ((List.range' r0 count).filter (fun row =>
          decide (n.AdjacencyMatrix_.data_[index + row * n.NodeList_.length]? = some 1))).map
            n.idAt) := by
  intro count
  induction count with
  | zero => intro r0 acc _; simp [forUpFrom]
  | succ count ih =>
    intro r0 acc hle
    have hr : r0 < n.NodeList_.length := by omega
    obtain ⟨hname, hbound⟩ := hn.rowName hr
    obtain ⟨h1, h2, h3, _, _, _⟩ := hn
    have hlt : index + r0 * n.NodeList_.length < n.AdjacencyMatrix_.data_.length := by
      rw [h1, h2, h3]; exact flat_lt hi hr
    have hcall : n.AdjacencyMatrix_.operatorCall index r0
        = .ok (n.AdjacencyMatrix_.data_.get ⟨index + r0 * n.NodeList_.length, hlt⟩) := by
      rw [Matrix.operatorCall_inRange _ (by omega) (by omega), h2]
      exact vecRead_of_lt _ hlt
    have hcell : n.AdjacencyMatrix_.data_[index + r0 * n.NodeList_.length]?
        = some (n.AdjacencyMatrix_.data_.get ⟨index + r0 * n.NodeList_.length, hlt⟩) :=
      List.getElem?_eq_getElem hlt
    rw [List.range'_succ, List.filter_cons, hcell]
    by_cases hone : n.AdjacencyMatrix_.data_.get ⟨index + r0 * n.NodeList_.length, hlt⟩ = 1
    · have hstep : (fun row parentIDs => do
          let cell ← n.AdjacencyMatrix_.operatorCall index row
          if cell = 1 then
            let name ← vecRead n.AdjacencyMatrix_.getRowNames row
            let temp := (extractUnsigned (IStream.ofString name) 0).2
            pure (parentIDs ++ [temp])
          else
            pure parentIDs) r0 acc = Except.ok (acc ++ [n.idAt r0]) := by
        simp only [hcall, hname, ok_bind, hone, if_true]
        rw [extractUnsigned_numeral _ hbound]
        rfl
      rw [forUpFrom_succ_ok hstep, ih (r0 + 1) _ (by omega)]
      rw [List.get_eq_getElem] at hone
      simp [hone]
    · have hstep : (fun row parentIDs => do
          let cell ← n.AdjacencyMatrix_.operatorCall index row
          if cell = 1 then
            let name ← vecRead n.AdjacencyMatrix_.getRowNames row
            let temp := (extractUnsigned (IStream.ofString name) 0).2
            pure (parentIDs ++ [temp])
          else
            pure parentIDs) r0 acc = Except.ok acc := by
        simp only [hcall, ok_bind, hone, if_false]
        rfl
      rw [forUpFrom_succ_ok hstep, ih (r0 + 1) _ (by omega)]
      rw [List.get_eq_getElem] at hone
      simp [hone]

/-- On a coherent network `getParents` returns the ids of the rows holding a 1
in the column of the queried node, in ascending row order. -/
theorem Network.getParents_eq {n : Network} (hn : n.Coherent) {id index : Nat}
    (hid : n.getIndex id = .ok index) :
    n.getParents id = .ok ((n.rowsWithOne index).map n.idAt) := by
  have hi := (hn.index_lt hid).1
  have hrows : n.AdjacencyMatrix_.getRowCount = n.NodeList_.length := hn.2.2.1
  unfold Network.getParents
  rw [hid]
  simp only [ok_bind, forUp, hrows, Nat.sub_zero]
  rw [Network.getParents_loop hn hi _ 0 [] (by omega)]
  simp [Network.rowsWithOne, List.range_eq_range']

/-! ## The readers establish the invariant -/

theorem extractUnsigned_le (s : IStream) (x : Nat) (hx : x ≤ UINT_MAX) :
    (extractUnsigned s x).2 ≤ UINT_MAX := by
  have hmod : ∀ v, (UINT_MAX + 1 - v) % (UINT_MAX + 1) ≤ UINT_MAX :=
    fun v => Nat.le_of_lt_succ (Nat.mod_lt _ (by decide))
  unfold extractUnsigned
  split
  · exact hx
  · split
    · exact hx
    · dsimp only
      split_ifs <;> first
        | exact Nat.zero_le _
        | exact Nat.le_refl _
        | exact hmod _
        | (dsimp only; omega)

theorem Network.NodeLoop.Inv.push {st : Network.NodeLoop} (h : st.Inv) (id1 : Nat)
    (name waste : String) (hid : id1 ≤ UINT_MAX) : (st.push id1 name waste).Inv := by
  obtain ⟨h1, h2, h3, h4, _, h6, h7, h8⟩ := h
  refine ⟨?_, ?_, ?_, ?_, hid, h6, h7, h8⟩
  · simp [Network.NodeLoop.push, h1]
  · simp [Network.NodeLoop.push, h2, extractString_ofUnsigned]
  · intro nd hnd
    simp only [Network.NodeLoop.push, List.mem_append, List.mem_singleton] at hnd
    rcases hnd with hnd | hnd
    · exact h3 nd hnd
    · rw [hnd]; exact hid
  · intro p hp
    simp only [Network.NodeLoop.push] at hp ⊢
    rcases mem_mapAssign hp with hp | hp
    · rw [hp, h1]
      simp
    · have hold := h4 p hp
      have hlt : p.2 < st.net.NodeList_.length := by
        by_contra hge
        rw [List.getElem?_eq_none (by omega)] at hold
        simp at hold
      rw [List.getElem?_append_left hlt]
      exact hold

theorem Network.NodeLoop.Inv.tgfNodeLine {st : Network.NodeLoop} (h : st.Inv)
    (line : String) : (Network.tgfNodeLine st line).Inv := by
  have h2 : Network.NodeLoop.Inv { st with ids := "" } := h
  exact h2.push _ _ _ (extractUnsigned_le _ _ h.2.2.2.2.1)

theorem Network.NodeLoop.Inv.naNodeLine {st : Network.NodeLoop} (h : st.Inv)
    (line : String) : (Network.naNodeLine st line).Inv :=
  h.push _ _ _ (extractUnsigned_le _ _ h.2.2.2.2.1)

theorem foldl_preserves {A B : Type} (P : A → Prop) (f : A → B → A)
    (hf : ∀ a b, P a → P (f a b)) : ∀ (l : List B) (a : A), P a → P (l.foldl f a) := by
  intro l
  induction l with
  | nil => intro a h; exact h
  | cons b l ih => intro a h; exact ih _ (hf a b h)

theorem Network.finishNodes_coherent {st : Network.NodeLoop} (h : st.Inv) :
    ∃ net, Network.finishNodes st = .ok net ∧ net.Coherent ∧
      net.IDToIndex_ = st.net.IDToIndex_ ∧ net.NodeList_ = st.net.NodeList_ := by
  obtain ⟨h1, h2, h3, h4, _, h6, h7, h8⟩ := h
  have hs : st.net.AdjacencyMatrix_.Sized := by
    unfold Matrix.Sized; rw [h6, h7, h8]; rfl
  obtain ⟨m2, e, hc, hr, _, _, _, _, hl, _⟩ :=
    Matrix.resize_spec st.net.AdjacencyMatrix_ st.net.NodeList_.length st.net.NodeList_.length 0
      hs (by omega) (by omega)
  refine ⟨{ st.net with
    AdjacencyMatrix_ := (m2.setRowNames st.names).setColNames st.names }, ?_, ?_, rfl, rfl⟩
  · unfold Network.finishNodes
    rw [e]
    rfl
  · refine ⟨?_, hc, hr, h2, h3, h4⟩
    show m2.data_.length = m2.colCount_ * m2.rowCount_
    rw [hl, hc, hr]

theorem Network.addEdge_known {n : Network} (hn : n.Coherent) {id1 id2 col row : Nat}
    (h1 : n.getIndex id1 = .ok col) (h2 : n.getIndex id2 = .ok row) :
    n.addEdge id1 id2 = .ok (n.withCell col row 1) := by
  unfold Network.addEdge
  rw [h1, h2]
  exact Network.setCell_ok hn 1 (hn.index_lt h1).1 (hn.index_lt h2).1

theorem Network.removeEdge_known {n : Network} (hn : n.Coherent) {id1 id2 col row : Nat}
    (h1 : n.getIndex id1 = .ok col) (h2 : n.getIndex id2 = .ok row) :
    n.removeEdge id1 id2 = .ok (n.withCell col row 0) := by
  unfold Network.removeEdge
  rw [h1, h2]
  exact Network.setCell_ok hn 0 (hn.index_lt h1).1 (hn.index_lt h2).1

theorem Network.getIndex_cases (n : Network) (id : Nat) :
    (∃ i, n.getIndex id = .ok i) ∨
      n.getIndex id = .error (.invalidArgument "Identifier not found") := by
  unfold Network.getIndex
  cases mapFind n.IDToIndex_ id with
  | none => exact Or.inr rfl
  | some i => exact Or.inl ⟨i, rfl⟩

theorem Network.addEdge_unknown {n : Network} {id1 id2 : Nat}
    (h : n.getIndex id1 = .error (.invalidArgument "Identifier not found") ∨
      n.getIndex id2 = .error (.invalidArgument "Identifier not found")) :
    n.addEdge id1 id2 = .error (.threw "Identifier not found" n) := by
  unfold Network.addEdge
  rcases n.getIndex_cases id1 with ⟨i, hi⟩ | hi
  · rcases h with h | h
    · rw [hi] at h; cases h
    · rw [hi, h]; rfl
  · rw [hi]; rfl

theorem Network.removeEdge_unknown {n : Network} {id1 id2 : Nat}
    (h : n.getIndex id1 = .error (.invalidArgument "Identifier not found") ∨
      n.getIndex id2 = .error (.invalidArgument "Identifier not found")) :
    n.removeEdge id1 id2 = .error (.threw "Identifier not found" n) := by
  unfold Network.removeEdge
  rcases n.getIndex_cases id1 with ⟨i, hi⟩ | hi
  · rcases h with h | h
    · rw [hi] at h; cases h
    · rw [hi, h]; rfl
  · rw [hi]; rfl

theorem Network.addEdge_coherent {n n2 : Network} (hn : n.Coherent) {id1 id2 : Nat}
    (h : n.addEdge id1 id2 = .ok n2) :
    n2.Coherent ∧ n2.IDToIndex_ = n.IDToIndex_ ∧ n2.NodeList_ = n.NodeList_ := by
  rcases n.getIndex_cases id1 with ⟨i, hi⟩ | hi
  · rcases n.getIndex_cases id2 with ⟨j, hj⟩ | hj
    · rw [Network.addEdge_known hn hi hj] at h
      cases h
      exact ⟨hn.withCell _ _ _, rfl, rfl⟩
    · rw [Network.addEdge_unknown (Or.inr hj)] at h; cases h
  · rw [Network.addEdge_unknown (Or.inl hi)] at h; cases h

theorem Network.edgeLoop_coherent (ids : List (Nat × Nat)) (nodes : List Node) :
    ∀ (lines : List String) (st done : Network.EdgeLoop),
      st.net.Coherent → st.net.IDToIndex_ = ids → st.net.NodeList_ = nodes →
      lines.foldlM Network.tgfEdgeLine st = .ok done →
      done.net.Coherent ∧ done.net.IDToIndex_ = ids ∧ done.net.NodeList_ = nodes := by
  intro lines
  induction lines with
  | nil =>
    intro st done hc hi hl h
    cases h
    exact ⟨hc, hi, hl⟩
  | cons line lines ih =>
    intro st done hc hi hl h
    rw [List.foldlM_cons] at h
    cases hstep : Network.tgfEdgeLine st line with
    | error e => rw [hstep] at h; cases h
    | ok st2 =>
      rw [hstep] at h
      unfold Network.tgfEdgeLine at hstep
      cases hadd : st.net.addEdge (extractUnsigned (extractUnsigned (IStream.ofString line)
          st.id1).1 st.id2).2 (extractUnsigned (IStream.ofString line) st.id1).2 with
      | error e => simp only [hadd] at hstep; cases hstep
      | ok net2 =>
        simp only [hadd] at hstep
        cases hstep
        obtain ⟨c2, i2, l2⟩ := Network.addEdge_coherent hc hadd
        exact ih _ done c2 (i2.trans hi) (l2.trans hl) h

theorem Network.readTGF_coherent (n0 net : Network) (lines : List String)
    (h0 : n0.IDToIndex_ = []) (h : n0.readTGF lines = .ok net) : net.Coherent := by
  unfold Network.readTGF at h
  have hinv : (List.foldl Network.tgfNodeLine
      { net := { n0 with NodeList_ := [], AdjacencyMatrix_ := n0.AdjacencyMatrix_.clear },
        id1 := 0, name := "", waste := "", ids := "", index := 0, names := [] }
      (lines.takeWhile (fun line => decide (line ≠ "#")))).Inv := by
    apply foldl_preserves Network.NodeLoop.Inv _ (fun st line hst => hst.tgfNodeLine line)
    refine ⟨rfl, rfl, ?_, ?_, Nat.zero_le _, rfl, rfl, rfl⟩
    · intro nd hnd; cases hnd
    · intro p hp
      simp only [h0] at hp
      cases hp
  obtain ⟨net1, e1, hc1, hi1, hl1⟩ := Network.finishNodes_coherent hinv
  simp only [e1] at h
  cases hloop : List.foldlM Network.tgfEdgeLine
      { net := net1, id1 := (List.foldl Network.tgfNodeLine
          { net := { n0 with NodeList_ := [], AdjacencyMatrix_ := n0.AdjacencyMatrix_.clear },
            id1 := 0, name := "", waste := "", ids := "", index := 0, names := [] }
          (lines.takeWhile (fun line => decide (line ≠ "#")))).id1, id2 := 0 }
      ((lines.dropWhile (fun line => decide (line ≠ "#"))).drop 1) with
  | error e =>
    have h2 := h
    simp only [ok_bind2, hloop] at h2
    cases h2
  | ok done =>
    have h2 := h
    simp only [ok_bind2, hloop] at h2
    cases h2
    exact (Network.edgeLoop_coherent _ _ _ _ _ hc1 rfl rfl hloop).1

theorem Network.readNA_coherent (n0 net : Network) (lines : List String)
    (h0 : n0.IDToIndex_ = []) (h : n0.readNA lines = .ok net) : net.Coherent := by
  unfold Network.readNA at h
  have hinv : (List.foldl Network.naNodeLine
      { net := { n0 with NodeList_ := [], AdjacencyMatrix_ := n0.AdjacencyMatrix_.clear },
        id1 := 0, name := "", waste := "", ids := "", index := 0, names := [] }
      (lines.drop 1)).Inv := by
    apply foldl_preserves Network.NodeLoop.Inv _ (fun st line hst => hst.naNodeLine line)
    refine ⟨rfl, rfl, ?_, ?_, Nat.zero_le _, rfl, rfl, rfl⟩
    · intro nd hnd; cases hnd
    · intro p hp
      simp only [h0] at hp
      cases hp
  obtain ⟨net1, e1, hc1, _, _⟩ := Network.finishNodes_coherent hinv
  simp only [e1] at h
  cases h
  exact hc1

/-! ## Facts about `withCell` -/

theorem Network.withCell_getData_self {n : Network} (hn : n.Coherent) {col row : Nat}
    (hc : col < n.NodeList_.length) (hr : row < n.NodeList_.length) (value : Nat) :
    (n.withCell col row value).AdjacencyMatrix_.getData col row = .ok value := by
  obtain ⟨h1, h2, h3, _, _, _⟩ := hn
  have hlt : col + row * n.AdjacencyMatrix_.colCount_ < n.AdjacencyMatrix_.data_.length := by
    rw [h1]; exact flat_lt (by omega) (by omega)
  unfold Network.withCell Matrix.getData
  dsimp only
  rw [if_neg (by omega)]
  exact vecRead_eq_ok (List.getElem?_set_self hlt)

theorem Network.withCell_getData_other {n : Network} (hn : n.Coherent) {col row c r : Nat}
    (hc : col < n.NodeList_.length) (hc2 : c < n.NodeList_.length)
    (hne : (c, r) ≠ (col, row)) (value : Nat) :
    (n.withCell col row value).AdjacencyMatrix_.getData c r
      = n.AdjacencyMatrix_.getData c r := by
  obtain ⟨_, h2, _, _, _, _⟩ := hn
  have hflat : col + row * n.AdjacencyMatrix_.colCount_ ≠ c + r * n.AdjacencyMatrix_.colCount_ := by
    intro h
    obtain ⟨e1, e2⟩ := flat_inj (by omega) (by omega) h
    exact hne (by rw [e1, e2])
  unfold Network.withCell Matrix.getData vecRead
  dsimp only
  rw [List.getElem?_set_ne hflat]

theorem Network.withCell_restore {n : Network} {col row v w : Nat}
    (h : n.AdjacencyMatrix_.data_[col + row * n.AdjacencyMatrix_.colCount_]? = some w) :
    (n.withCell col row v).withCell col row w = n := by
  have hset : (n.AdjacencyMatrix_.data_.set (col + row * n.AdjacencyMatrix_.colCount_) v).set
      (col + row * n.AdjacencyMatrix_.colCount_) w = n.AdjacencyMatrix_.data_ := by
    rw [List.set_set]
    apply List.ext_getElem?
    intro j
    by_cases hj : col + row * n.AdjacencyMatrix_.colCount_ = j
    · subst hj
      have hlt : col + row * n.AdjacencyMatrix_.colCount_ < n.AdjacencyMatrix_.data_.length := by
        by_contra hge
        rw [List.getElem?_eq_none (by omega)] at h
        cases h
      rw [List.getElem?_set_self hlt, h]
    · rw [List.getElem?_set_ne hj]
  unfold Network.withCell
  simp only [hset]

theorem Network.getData_cell {n : Network} (hn : n.Coherent) {col row v : Nat}
    (hc : col < n.NodeList_.length) (hr : row < n.NodeList_.length)
    (h : n.AdjacencyMatrix_.getData col row = .ok v) :
    n.AdjacencyMatrix_.data_[col + row * n.AdjacencyMatrix_.colCount_]? = some v := by
  obtain ⟨_, h2, h3, _, _, _⟩ := hn
  rw [Matrix.getData_inRange _ (show col ≤ n.AdjacencyMatrix_.colCount_ by omega)
    (show row ≤ n.AdjacencyMatrix_.rowCount_ by omega)] at h
  unfold vecRead at h
  cases hd : n.AdjacencyMatrix_.data_[col + row * n.AdjacencyMatrix_.colCount_]? with
  | none => rw [hd] at h; cases h
  | some x => rw [hd] at h; cases h; rfl

theorem Network.getIndex_none {n : Network} {id : Nat} (h : mapFind n.IDToIndex_ id = none) :
    n.getIndex id = .error (.invalidArgument "Identifier not found") := by
  unfold Network.getIndex
  rw [h]

theorem Network.Indexed.getIndex_idAt {n : Network} (hx : n.Indexed) {i : Nat}
    (hi : i < n.NodeList_.length) : n.getIndex (n.idAt i) = .ok i := by
  have h := hx i hi
  have hnd : n.NodeList_[i]? = some (n.NodeList_.get ⟨i, hi⟩) := List.getElem?_eq_getElem hi
  rw [hnd] at h
  simp only [Option.some_bind] at h
  unfold Network.getIndex Network.idAt
  rw [hnd]
  simp only [Option.map_some', Option.getD_some]
  show (match mapFind n.IDToIndex_ (n.NodeList_.get ⟨i, hi⟩).id with
    | none => _ | some index => _) = _
  rw [h]

/-! # Claims -/

/-- C1, evaluated on the code: on the network read from `tgfChain` node 2 has the
single parent 1, and `cutParents(2)` returns normally but clears nothing: the
network is unchanged, the incoming-edge cell (column 1, row 0) still holds 1 and
`getParents(2)` is still `[1]`, where the claim requires the empty list.
`cutParents` passes `(getIndex(parent), index)` to `setData`, the transpose of
the cell that `getParents` and `addEdge` use. -/
theorem cutParents_keeps_incoming_edge :
    Network.create.readTGF tgfChain = .ok chainNet ∧
    chainNet.getParents 2 = .ok [1] ∧
    chainNet.cutParents 2 = .ok chainNet ∧
    chainNet.AdjacencyMatrix_.getData 1 0 = .ok 1 :=
  ⟨rfl, rfl, rfl, rfl⟩

/-- C2, evaluated on the code: on the network read from `tgfCycle` (edges 1 → 2
and 2 → 1) `cutParents(2)` overwrites the cell (column 0, row 1), which is an
incoming-edge cell of node 1 and not of node 2; `getParents(1)` changes from
`[2]` to `[]`, where the claim requires it to be unchanged. -/
theorem cutParents_clears_outgoing_edge :
    Network.create.readTGF tgfCycle = .ok cycleNet ∧
    cycleNet.getParents 1 = .ok [2] ∧
    cycleNet.AdjacencyMatrix_.getData 0 1 = .ok 1 ∧
    cycleNet.cutParents 2 = .ok chainNet ∧
    chainNet.AdjacencyMatrix_.getData 0 1 = .ok 0 ∧
    chainNet.getParents 1 = .ok [] ∧
    chainNet.getParents 2 = .ok [1] :=
  ⟨rfl, rfl, rfl, rfl, rfl, rfl, rfl⟩

/-- C3: for a network built by `readTGF` or `readNA` on a newly constructed
`Network`, and ids `a`, `b` known to it, `addEdge(a, b)` returns normally and
afterwards `getParents(a)` returns a list that contains `b`. -/
theorem getParents_after_addEdge (lines : List String) (net : Network) (a b : Nat)
    (hbuilt : Network.create.readTGF lines = .ok net ∨ Network.create.readNA lines = .ok net)
    (ha : ∃ i, net.getIndex a = .ok i) (hb : ∃ j, net.getIndex b = .ok j) :
    ∃ net2 parents, net.addEdge a b = .ok net2 ∧ net2.getParents a = .ok parents ∧
      b ∈ parents := by
  have hc : net.Coherent := by
    rcases hbuilt with h | h
    · exact Network.readTGF_coherent _ _ _ rfl h
    · exact Network.readNA_coherent _ _ _ rfl h
  obtain ⟨i, hi⟩ := ha
  obtain ⟨j, hj⟩ := hb
  have hil := (hc.index_lt hi).1
  obtain ⟨hjl, hjid⟩ := hc.index_lt hj
  have hc2 := hc.withCell i j 1
  have hi2 : (net.withCell i j 1).getIndex a = .ok i := hi
  refine ⟨_, _, Network.addEdge_known hc hi hj, Network.getParents_eq hc2 hi2, ?_⟩
  refine List.mem_map.mpr ⟨j, ?_, hjid⟩
  unfold Network.rowsWithOne
  refine List.mem_filter.mpr ⟨List.mem_range.mpr hjl, ?_⟩
  have hcols : net.AdjacencyMatrix_.colCount_ = net.NodeList_.length := hc.2.1
  have hlt : i + j * net.NodeList_.length < net.AdjacencyMatrix_.data_.length := by
    rw [hc.1, hcols, hc.2.2.1]; exact flat_lt hil hjl
  simp only [Network.withCell, hcols, decide_eq_true_eq]
  exact List.getElem?_set_self hlt

/-- Instance of C3 on the network read from `tgfChain`, with a = 1 and b = 2. -/
theorem getParents_after_addEdge_witness :
    (Network.create.readTGF tgfChain = .ok chainNet ∨
      Network.create.readNA tgfChain = .ok chainNet) ∧
    (∃ i, chainNet.getIndex 1 = .ok i) ∧ (∃ j, chainNet.getIndex 2 = .ok j) ∧
    ∃ net2 parents, chainNet.addEdge 1 2 = .ok net2 ∧ net2.getParents 1 = .ok parents ∧
      2 ∈ parents :=
  ⟨Or.inl rfl, ⟨0, rfl⟩, ⟨1, rfl⟩,
    getParents_after_addEdge tgfChain chainNet 1 2 (Or.inl rfl) ⟨0, rfl⟩ ⟨1, rfl⟩⟩

/-- C4: on a network that satisfies the data-model invariants (square adjacency
matrix whose rows are named by the stringified node ids in node order, id index
bijective with node position), for a known id `X` at index `ix`, `getParents(X)`
returns the ids of exactly the rows that hold 1 in column `ix`, in ascending
row order; no id occurs twice, and an id `p` is returned if and only if `p` is
known and the cell (column `ix`, row `getIndex(p)`) reads 1. -/
theorem getParents_exact (n : Network) (X ix : Nat) (hn : n.Coherent) (hx : n.Indexed)
    (hX : n.getIndex X = .ok ix) :
    ∃ parents, n.getParents X = .ok parents ∧
      parents = (n.rowsWithOne ix).map n.idAt ∧
      (n.rowsWithOne ix).Pairwise (fun r1 r2 => r1 < r2) ∧
      parents.Nodup ∧
      ∀ p, p ∈ parents ↔
        ∃ ip, n.getIndex p = .ok ip ∧ n.AdjacencyMatrix_.operatorCall ix ip = .ok 1 := by
  have hil := (hn.index_lt hX).1
  have hcols : n.AdjacencyMatrix_.colCount_ = n.NodeList_.length := hn.2.1
  have hrows : n.AdjacencyMatrix_.rowCount_ = n.NodeList_.length := hn.2.2.1
  have hmem : ∀ r, r ∈ n.rowsWithOne ix ↔ r < n.NodeList_.length ∧
      n.AdjacencyMatrix_.data_[ix + r * n.NodeList_.length]? = some 1 := by
    intro r
    simp [Network.rowsWithOne, List.mem_filter]
  have hcall : ∀ r, r < n.NodeList_.length →
      (n.AdjacencyMatrix_.operatorCall ix r = .ok 1 ↔
        n.AdjacencyMatrix_.data_[ix + r * n.NodeList_.length]? = some 1) := by
    intro r hr
    rw [Matrix.operatorCall_inRange _ (by omega) (by omega), hcols]
    unfold vecRead
    cases n.AdjacencyMatrix_.data_[ix + r * n.NodeList_.length]? with
    | none => simp
    | some v => simp
  refine ⟨_, Network.getParents_eq hn hX, rfl, ?_, ?_, ?_⟩
  · exact (List.pairwise_lt_range _).filter _
  · apply List.Nodup.map_on
    · intro r1 h1 r2 h2 e
      have e1 := hx.getIndex_idAt ((hmem r1).mp h1).1
      have e2 := hx.getIndex_idAt ((hmem r2).mp h2).1
      rw [e, e2] at e1
      cases e1
      rfl
    · exact (List.nodup_range _).filter _
  · intro p
    constructor
    · intro hp
      obtain ⟨r, hr, hrp⟩ := List.mem_map.mp hp
      obtain ⟨hrl, hcell⟩ := (hmem r).mp hr
      refine ⟨r, ?_, (hcall r hrl).mpr hcell⟩
      rw [← hrp]
      exact hx.getIndex_idAt hrl
    · rintro ⟨ip, hip, hcell⟩
      obtain ⟨hipl, hid⟩ := hn.index_lt hip
      exact List.mem_map.mpr ⟨ip, (hmem ip).mpr ⟨hipl, (hcall ip hipl).mp hcell⟩, hid⟩

/-- Instance of C4 on `cycleNet`, for the node with id 2. -/
theorem getParents_exact_witness :
    cycleNet.Coherent ∧ cycleNet.Indexed ∧ cycleNet.getIndex 2 = .ok 1 ∧
    ∃ parents, cycleNet.getParents 2 = .ok parents ∧
      parents = (cycleNet.rowsWithOne 1).map cycleNet.idAt ∧
      (cycleNet.rowsWithOne 1).Pairwise (fun r1 r2 => r1 < r2) ∧
      parents.Nodup ∧
      ∀ p, p ∈ parents ↔
        ∃ ip, cycleNet.getIndex p = .ok ip ∧
          cycleNet.AdjacencyMatrix_.operatorCall 1 ip = .ok 1 :=
  ⟨by decide, by decide, rfl, getParents_exact cycleNet 2 1 (by decide) (by decide) rfl⟩

/-- C5: on a network that satisfies the data-model invariants, for known ids `a`
(index `ia`) and `b` (index `ib`), `addEdge(a, b)` and `removeEdge(a, b)` return
normally; the cell (column `ia`, row `ib`) then reads 1 resp. 0, every other
cell of the matrix reads as before, and dimensions, names, node list and the
index maps are unchanged.  If `a` or `b` is unknown, both calls throw
"Identifier not found" and leave the network as it was (no invariant needed). -/
theorem addEdge_removeEdge_single_cell (n : Network) (a b : Nat) (hn : n.Coherent) :
    (∀ ia ib, n.getIndex a = .ok ia → n.getIndex b = .ok ib →
      ∃ n1 n0, n.addEdge a b = .ok n1 ∧ n.removeEdge a b = .ok n0 ∧
        n1.AdjacencyMatrix_.getData ia ib = .ok 1 ∧
        n0.AdjacencyMatrix_.getData ia ib = .ok 0 ∧
        (∀ col row, col < n.AdjacencyMatrix_.colCount_ → row < n.AdjacencyMatrix_.rowCount_ →
          (col, row) ≠ (ia, ib) →
          n1.AdjacencyMatrix_.getData col row = n.AdjacencyMatrix_.getData col row ∧
          n0.AdjacencyMatrix_.getData col row = n.AdjacencyMatrix_.getData col row) ∧
        n1.SameExceptCells n ∧ n0.SameExceptCells n) ∧
    (mapFind n.IDToIndex_ a = none ∨ mapFind n.IDToIndex_ b = none →
      n.addEdge a b = .error (.threw "Identifier not found" n) ∧
      n.removeEdge a b = .error (.threw "Identifier not found" n)) := by
  constructor
  · intro ia ib ha hb
    have hal := (hn.index_lt ha).1
    have hbl := (hn.index_lt hb).1
    have hcols : n.AdjacencyMatrix_.colCount_ = n.NodeList_.length := hn.2.1
    refine ⟨n.withCell ia ib 1, n.withCell ia ib 0, Network.addEdge_known hn ha hb,
      Network.removeEdge_known hn ha hb, Network.withCell_getData_self hn hal hbl 1,
      Network.withCell_getData_self hn hal hbl 0, ?_, ?_, ?_⟩
    · intro col row hc _ hne
      exact ⟨Network.withCell_getData_other hn hal (by omega) hne 1,
        Network.withCell_getData_other hn hal (by omega) hne 0⟩
    · exact ⟨rfl, rfl, rfl, rfl, rfl, rfl, rfl, rfl, rfl, rfl, by simp [Network.withCell]⟩
    · exact ⟨rfl, rfl, rfl, rfl, rfl, rfl, rfl, rfl, rfl, rfl, by simp [Network.withCell]⟩
  · intro h
    have h2 : n.getIndex a = .error (.invalidArgument "Identifier not found") ∨
        n.getIndex b = .error (.invalidArgument "Identifier not found") :=
      h.imp Network.getIndex_none Network.getIndex_none
    exact ⟨Network.addEdge_unknown h2, Network.removeEdge_unknown h2⟩

/-- Instance of C5 on `chainNet`, with a = 1 and b = 2. -/
theorem addEdge_removeEdge_single_cell_witness :
    chainNet.Coherent ∧
    ((∀ ia ib, chainNet.getIndex 1 = .ok ia → chainNet.getIndex 2 = .ok ib →
      ∃ n1 n0, chainNet.addEdge 1 2 = .ok n1 ∧ chainNet.removeEdge 1 2 = .ok n0 ∧
        n1.AdjacencyMatrix_.getData ia ib = .ok 1 ∧
        n0.AdjacencyMatrix_.getData ia ib = .ok 0 ∧
        (∀ col row, col < chainNet.AdjacencyMatrix_.colCount_ →
          row < chainNet.AdjacencyMatrix_.rowCount_ → (col, row) ≠ (ia, ib) →
          n1.AdjacencyMatrix_.getData col row = chainNet.AdjacencyMatrix_.getData col row ∧
          n0.AdjacencyMatrix_.getData col row = chainNet.AdjacencyMatrix_.getData col row) ∧
        n1.SameExceptCells chainNet ∧ n0.SameExceptCells chainNet) ∧
    (mapFind chainNet.IDToIndex_ 1 = none ∨ mapFind chainNet.IDToIndex_ 2 = none →
      chainNet.addEdge 1 2 = .error (.threw "Identifier not found" chainNet) ∧
      chainNet.removeEdge 1 2 = .error (.threw "Identifier not found" chainNet))) :=
  ⟨by decide, addEdge_removeEdge_single_cell chainNet 1 2 (by decide)⟩

/-- C6: on a network that satisfies the data-model invariants, for known ids `a`
(index `ia`) and `b` (index `ib`): if the cell of the edge b → a reads 0, then
`addEdge(a, b)` followed by `removeEdge(a, b)` returns the network to exactly its
previous state, and if the cell reads 1, so does `removeEdge(a, b)` followed by
`addEdge(a, b)`. -/
theorem addEdge_removeEdge_inverse (n : Network) (a b ia ib : Nat) (hn : n.Coherent)
    (ha : n.getIndex a = .ok ia) (hb : n.getIndex b = .ok ib) :
    (n.AdjacencyMatrix_.getData ia ib = .ok 0 →
      (n.addEdge a b >>= fun n1 => n1.removeEdge a b) = .ok n) ∧
    (n.AdjacencyMatrix_.getData ia ib = .ok 1 →
      (n.removeEdge a b >>= fun n0 => n0.addEdge a b) = .ok n) := by
  have hal := (hn.index_lt ha).1
  have hbl := (hn.index_lt hb).1
  constructor
  · intro h
    have hcell := Network.getData_cell hn hal hbl h
    have ha2 : (n.withCell ia ib 1).getIndex a = .ok ia := ha
    have hb2 : (n.withCell ia ib 1).getIndex b = .ok ib := hb
    rw [Network.addEdge_known hn ha hb, ok_bind2,
      Network.removeEdge_known (hn.withCell ia ib 1) ha2 hb2, Network.withCell_restore hcell]
  · intro h
    have hcell := Network.getData_cell hn hal hbl h
    have ha2 : (n.withCell ia ib 0).getIndex a = .ok ia := ha
    have hb2 : (n.withCell ia ib 0).getIndex b = .ok ib := hb
    rw [Network.removeEdge_known hn ha hb, ok_bind2,
      Network.addEdge_known (hn.withCell ia ib 0) ha2 hb2, Network.withCell_restore hcell]

/-- Instances of C6 on `chainNet`: the absent edge 2 → 1 and the present edge 1 → 2. -/
theorem addEdge_removeEdge_inverse_witness :
    chainNet.Coherent ∧ chainNet.getIndex 1 = .ok 0 ∧ chainNet.getIndex 2 = .ok 1 ∧
    chainNet.AdjacencyMatrix_.getData 0 1 = .ok 0 ∧
    (chainNet.addEdge 1 2 >>= fun n1 => n1.removeEdge 1 2) = .ok chainNet ∧
    chainNet.AdjacencyMatrix_.getData 1 0 = .ok 1 ∧
    (chainNet.removeEdge 2 1 >>= fun n0 => n0.addEdge 2 1) = .ok chainNet :=
  ⟨by decide, rfl, rfl, rfl,
    (addEdge_removeEdge_inverse chainNet 1 2 0 1 (by decide) rfl rfl).1 rfl, rfl,
    (addEdge_removeEdge_inverse chainNet 2 1 1 0 (by decide) rfl rfl).2 rfl⟩

/-- C7: for a matrix whose value store has `colCount * rowCount` elements, a
value `v` and a position with `col < colCount` and `row < rowCount`,
`setData(v, col, row)` returns normally and afterwards both `getData(col, row)`
and `operator()(col, row)` return `v`. -/
theorem setData_then_getData {T : Type} (m : Matrix T) (v : T) (col row : Nat)
    (hs : m.Sized) (hc : col < m.colCount_) (hr : row < m.rowCount_) :
    ∃ m2, m.setData v col row = .ok m2 ∧ m2.getData col row = .ok v ∧
      m2.operatorCall col row = .ok v := by
  have hlt : col + row * m.colCount_ < m.data_.length := by
    rw [hs]; exact flat_lt hc hr
  refine ⟨_, Matrix.setData_inRange m v hs hc hr, ?_, ?_⟩
  · unfold Matrix.getData
    dsimp only
    rw [if_neg (by omega)]
    exact vecRead_eq_ok (List.getElem?_set_self hlt)
  · unfold Matrix.operatorCall
    dsimp only
    rw [if_neg (by omega)]
    exact vecRead_eq_ok (List.getElem?_set_self hlt)

/-- Instance of C7 on `squareTwo` at position (1, 0). -/
theorem setData_then_getData_witness :
    squareTwo.Sized ∧ 1 < squareTwo.colCount_ ∧ 0 < squareTwo.rowCount_ ∧
    ∃ m2, squareTwo.setData 99 1 0 = .ok m2 ∧ m2.getData 1 0 = .ok 99 ∧
      m2.operatorCall 1 0 = .ok 99 :=
  ⟨by decide, by decide, by decide,
    setData_then_getData squareTwo 99 1 0 (by decide) (by decide) (by decide)⟩

/-- C8, evaluated on the code: the range test of `getData`, `setData` and
`operator()` is `col > colCount_ || row > rowCount_`, so the out-of-range
column `col = colCount` is accepted.  On the 2 x 2 matrix `squareTwo` the
position (2, 0) is read and written without an error: it addresses flat index 2,
the cell (0, 1).  The out-of-range row `row = rowCount` is accepted too and
subscripts the value store past its end instead of throwing. -/
theorem cell_access_accepts_colCount :
    squareTwo.getColCount = 2 ∧ squareTwo.getRowCount = 2 ∧
    squareTwo.getData 2 0 = .ok 30 ∧
    squareTwo.operatorCall 2 0 = .ok 30 ∧
    squareTwo.setData 99 2 0 = .ok { squareTwo with data_ := [10, 20, 99, 40] } ∧
    squareTwo.getData 0 1 = .ok 30 ∧
    squareTwo.getData 0 2 = .error .vectorOutOfRange ∧
    squareTwo.setData 99 0 2 = .error .undefinedBehaviour :=
  ⟨rfl, rfl, rfl, rfl, rfl, rfl, rfl, rfl⟩

/-- C9: for a matrix whose value store has `colCount * rowCount` elements and
every `resize(c, r, init)` with `c >= colCount` and `r >= rowCount`, the call
returns normally and every cell that existed before reads the same value at the
same coordinates afterwards. -/
theorem resize_keeps_cells {T : Type} [Inhabited T] (m : Matrix T) (c r : Nat) (init : T)
    (hs : m.Sized) (hc : m.colCount_ ≤ c) (hr : m.rowCount_ ≤ r) :
    ∃ m2, m.resize c r init = .ok m2 ∧
      ∀ col row, col < m.colCount_ → row < m.rowCount_ →
        ∃ x, m.getData col row = .ok x ∧ m2.getData col row = .ok x := by
  obtain ⟨m2, e, hc2, hr2, _, _, _, _, _, hcells⟩ := Matrix.resize_spec m c r init hs hc hr
  refine ⟨m2, e, ?_⟩
  intro col row hcol hrow
  have hlt : col + row * m.colCount_ < m.data_.length := by
    rw [hs]; exact flat_lt hcol hrow
  refine ⟨m.data_.get ⟨_, hlt⟩, ?_, ?_⟩
  · rw [Matrix.getData_inRange _ (by omega) (by omega)]
    exact vecRead_of_lt _ hlt
  · rw [Matrix.getData_inRange _ (by omega) (by omega), hc2]
    apply vecRead_eq_ok
    rw [hcells col row (by omega) (by omega), if_pos ⟨hcol, hrow⟩]
    exact List.getElem?_eq_getElem hlt

/-- Instance of C9: `squareTwo` resized to 3 x 3. -/
theorem resize_keeps_cells_witness :
    squareTwo.Sized ∧ squareTwo.colCount_ ≤ 3 ∧ squareTwo.rowCount_ ≤ 3 ∧
    ∃ m2, squareTwo.resize 3 3 7 = .ok m2 ∧
      ∀ col row, col < squareTwo.colCount_ → row < squareTwo.rowCount_ →
        ∃ x, squareTwo.getData col row = .ok x ∧ m2.getData col row = .ok x :=
  ⟨by decide, by decide, by decide,
    resize_keeps_cells squareTwo 3 3 7 (by decide) (by decide) (by decide)⟩

/-- C10: for a matrix whose value store has `colCount * rowCount` elements,
whenever `resize(c, r, init)` returns normally the matrix reports
`getColCount() = c` and `getRowCount() = r`, and every cell that did not exist
before (`col >= old colCount` or `row >= old rowCount`) reads `init`. -/
theorem resize_dims_and_fill {T : Type} [Inhabited T] (m m2 : Matrix T) (c r : Nat) (init : T)
    (hs : m.Sized) (h : m.resize c r init = .ok m2) :
    m2.getColCount = c ∧ m2.getRowCount = r ∧
    ∀ col row, col < c → row < r → (m.colCount_ ≤ col ∨ m.rowCount_ ≤ row) →
      m2.getData col row = .ok init := by
  have hgrow : ¬ (m.colCount_ > c ∨ m.rowCount_ > r) := by
    intro hshrink
    unfold Matrix.resize at h
    rw [if_pos hshrink] at h
    cases h
  obtain ⟨m3, e, hc3, hr3, _, _, _, _, _, hcells⟩ :=
    Matrix.resize_spec m c r init hs (by omega) (by omega)
  rw [e] at h
  cases h
  refine ⟨hc3, hr3, ?_⟩
  intro col row hcol hrow hnew
  rw [Matrix.getData_inRange _ (by omega) (by omega), hc3]
  apply vecRead_eq_ok
  rw [hcells col row hcol hrow, if_neg (by omega)]

/-- Instance of C10: `squareTwo` resized to 3 x 3 with initial value 7. -/
theorem resize_dims_and_fill_witness :
    squareTwo.Sized ∧ squareTwo.resize 3 3 7 = .ok squareThree ∧
    squareThree.getColCount = 3 ∧ squareThree.getRowCount = 3 ∧
    ∀ col row, col < 3 → row < 3 → (squareTwo.colCount_ ≤ col ∨ squareTwo.rowCount_ ≤ row) →
      squareThree.getData col row = .ok 7 :=
  ⟨by decide, rfl, resize_dims_and_fill squareTwo squareThree 3 3 7 (by decide) rfl⟩

/-! ## Name lookup -/

theorem foldl_assign_eq {K : Type} [DecidableEq K] (names : List K) :
    ∀ (m : List (K × Nat)) (k : Nat),
      (names.foldl (fun (acc : List (K × Nat) × Nat) (n : K) =>
        (mapAssign acc.1 n acc.2, acc.2 + 1)) (m, k)).1 = assignIndices m k names := by
  induction names with
  | nil => intro m k; rfl
  | cons a rest ih =>
    intro m k
    rw [List.foldl_cons]
    exact ih _ _

theorem mapFind_assignIndices_not_mem {K : Type} [DecidableEq K] (names : List K) :
    ∀ (m : List (K × Nat)) (k : Nat) (x : K), x ∉ names →
      mapFind (assignIndices m k names) x = mapFind m x := by
  induction names with
  | nil => intro m k x _; rfl
  | cons a rest ih =>
    intro m k x hx
    have hxa : ¬ x = a := fun e => hx (e ▸ List.mem_cons_self _ _)
    have hxr : x ∉ rest := fun h => hx (List.mem_cons_of_mem _ h)
    show mapFind (assignIndices (mapAssign m a k) (k + 1) rest) x = _
    rw [ih _ _ _ hxr, mapFind_mapAssign, if_neg hxa]

theorem mapFind_assignIndices_nodup {K : Type} [DecidableEq K] (names : List K) :
    ∀ (m : List (K × Nat)) (k i : Nat) (x : K), names.Nodup → names[i]? = some x →
      mapFind (assignIndices m k names) x = some (k + i) := by
  induction names with
  | nil => intro m k i x _ h; simp at h
  | cons a rest ih =>
    intro m k i x hnd h
    obtain ⟨hnot, hrest⟩ := List.nodup_cons.mp hnd
    show mapFind (assignIndices (mapAssign m a k) (k + 1) rest) x = _
    cases i with
    | zero =>
      simp only [List.getElem?_cons_zero, Option.some.injEq] at h
      subst h
      rw [mapFind_assignIndices_not_mem _ _ _ _ hnot, mapFind_mapAssign, if_pos rfl]
      rfl
    | succ i =>
      simp only [List.getElem?_cons_succ] at h
      rw [ih _ _ i x hrest h]
      congr 1
      omega

theorem Matrix.setRowNames_lookup {T : Type} (m : Matrix T) (names : List String) :
    (m.setRowNames names).rowNamesToIndex_ = assignIndices m.rowNamesToIndex_ 0 names :=
  foldl_assign_eq names _ _

theorem Matrix.setColNames_lookup {T : Type} (m : Matrix T) (names : List String) :
    (m.setColNames names).colNamesToIndex_ = assignIndices m.colNamesToIndex_ 0 names :=
  foldl_assign_eq names _ _

theorem Matrix.findRow_of_find {T : Type} {m : Matrix T} {name : String} {i : Nat}
    (h : mapFind m.rowNamesToIndex_ name = some i) : m.findRow name = (i : Int) := by
  unfold Matrix.findRow
  rw [h]

theorem Matrix.findCol_of_find {T : Type} {m : Matrix T} {name : String} {i : Nat}
    (h : mapFind m.colNamesToIndex_ name = some i) : m.findCol name = (i : Int) := by
  unfold Matrix.findCol
  rw [h]

theorem Matrix.getValueByNames_found {T : Type} {m : Matrix T} {colName rowName : String}
    {col row : Nat} (hc : m.findCol colName = (col : Int))
    (hr : m.findRow rowName = (row : Int)) :
    m.getValueByNames colName rowName = vecRead m.data_ (col + row * m.colCount_) := by
  unfold Matrix.getValueByNames
  simp only [hc, hr]
  rw [if_neg (by omega)]
  rfl

/-! # Claims on name lookup and resizing -/

/-- C11: for a matrix whose value store has `colCount * rowCount` elements,
`resize(c, r, init)` fails if and only if `c < colCount` or `r < rowCount`; a
failing call throws "Matrices can not be shrinked" and leaves the matrix
(dimensions, values, names, lookups) exactly as it was. -/
theorem resize_fails_iff_shrinks {T : Type} [Inhabited T] (m : Matrix T) (c r : Nat)
    (init : T) (hs : m.Sized) :
    ((∃ f, m.resize c r init = .error f) ↔ (c < m.colCount_ ∨ r < m.rowCount_)) ∧
    (∀ f, m.resize c r init = .error f → f = .threw "Matrices can not be shrinked" m) := by
  by_cases hshrink : m.colCount_ > c ∨ m.rowCount_ > r
  · have e : m.resize c r init = .error (.threw "Matrices can not be shrinked" m) := by
      unfold Matrix.resize
      rw [if_pos hshrink]
    refine ⟨⟨fun _ => hshrink, fun _ => ⟨_, e⟩⟩, ?_⟩
    intro f hf
    rw [e] at hf
    cases hf
    rfl
  · obtain ⟨m2, e, _⟩ := Matrix.resize_spec m c r init hs (by omega) (by omega)
    refine ⟨⟨?_, fun h => absurd h hshrink⟩, ?_⟩
    · rintro ⟨f, hf⟩
      rw [e] at hf
      cases hf
    · intro f hf
      rw [e] at hf
      cases hf

/-- Instance of C11 on `squareTwo`, asked to shrink to 1 x 2. -/
theorem resize_fails_iff_shrinks_witness :
    squareTwo.Sized ∧
    ((∃ f, squareTwo.resize 1 2 7 = .error f) ↔
      (1 < squareTwo.colCount_ ∨ 2 < squareTwo.rowCount_)) ∧
    (∀ f, squareTwo.resize 1 2 7 = .error f →
      f = .threw "Matrices can not be shrinked" squareTwo) :=
  ⟨by decide, resize_fails_iff_shrinks squareTwo 1 2 7 (by decide)⟩

/-- C12: for pairwise distinct row names, after `setRowNames(rows)` the call
`findRow(rows[i])` returns `i` at every position `i`; likewise `findCol(cols[j])`
returns `j` after `setColNames(cols)` for pairwise distinct column names; and
with both assigned, `getValueByNames(cols[j], rows[i])` returns what
`getData(j, i)` returns at every position inside the matrix. -/
theorem find_after_setNames {T : Type} (m : Matrix T) (rows cols : List String)
    (hr : rows.Nodup) (hc : cols.Nodup) :
    (∀ (i : Nat) name, rows[i]? = some name → (m.setRowNames rows).findRow name = (i : Int)) ∧
    (∀ (j : Nat) name, cols[j]? = some name → (m.setColNames cols).findCol name = (j : Int)) ∧
    (∀ i j rname cname, rows[i]? = some rname → cols[j]? = some cname →
      j < m.colCount_ → i < m.rowCount_ →
      ((m.setRowNames rows).setColNames cols).getValueByNames cname rname
        = ((m.setRowNames rows).setColNames cols).getData j i) := by
  have hrow : ∀ i name, rows[i]? = some name →
      mapFind (assignIndices m.rowNamesToIndex_ 0 rows) name = some i := by
    intro i name h
    have := mapFind_assignIndices_nodup rows m.rowNamesToIndex_ 0 i name hr h
    rwa [Nat.zero_add] at this
  have hcol : ∀ j name, cols[j]? = some name →
      mapFind (assignIndices m.colNamesToIndex_ 0 cols) name = some j := by
    intro j name h
    have := mapFind_assignIndices_nodup cols m.colNamesToIndex_ 0 j name hc h
    rwa [Nat.zero_add] at this
  refine ⟨?_, ?_, ?_⟩
  · intro i name h
    apply Matrix.findRow_of_find
    rw [Matrix.setRowNames_lookup]
    exact hrow i name h
  · intro j name h
    apply Matrix.findCol_of_find
    rw [Matrix.setColNames_lookup]
    exact hcol j name h
  · intro i j rname cname h1 h2 hj hi
    have e1 : ((m.setRowNames rows).setColNames cols).findRow rname = (i : Int) := by
      apply Matrix.findRow_of_find
      show mapFind (m.setRowNames rows).rowNamesToIndex_ rname = some i
      rw [Matrix.setRowNames_lookup]
      exact hrow i rname h1
    have e2 : ((m.setRowNames rows).setColNames cols).findCol cname = (j : Int) := by
      apply Matrix.findCol_of_find
      rw [Matrix.setColNames_lookup]
      exact hcol j cname h2
    rw [Matrix.getValueByNames_found e2 e1]
    exact (Matrix.getData_inRange _ (Nat.le_of_lt hj) (Nat.le_of_lt hi)).symm

/-- Instance of C12 on `squareTwo` with row names a, b and column names x, y. -/
theorem find_after_setNames_witness :
    ["a", "b"].Nodup ∧ ["x", "y"].Nodup ∧
    (∀ (i : Nat) name, ["a", "b"][i]? = some name →
      (squareTwo.setRowNames ["a", "b"]).findRow name = (i : Int)) ∧
    (∀ (j : Nat) name, ["x", "y"][j]? = some name →
      (squareTwo.setColNames ["x", "y"]).findCol name = (j : Int)) ∧
    (∀ i j rname cname, ["a", "b"][i]? = some rname → ["x", "y"][j]? = some cname →
      j < squareTwo.colCount_ → i < squareTwo.rowCount_ →
      ((squareTwo.setRowNames ["a", "b"]).setColNames ["x", "y"]).getValueByNames cname rname
        = ((squareTwo.setRowNames ["a", "b"]).setColNames ["x", "y"]).getData j i) :=
  ⟨by decide, by decide,
    find_after_setNames squareTwo ["a", "b"] ["x", "y"] (by decide) (by decide)⟩

/-- C13, evaluated on the code: `setRowNames` and `setColNames` only add to the
name→index lookup, they never clear it.  On the 1 x 1 matrix built by the
dimension constructor (default names `{"NA"}`), after `setRowNames({"a"})` the
row names are `["a"]`, yet `findRow("NA")` returns 0 where the claim requires
-1; the same holds for `setColNames` and `findCol`. -/
theorem setNames_keeps_old_names :
    (unitNA.setRowNames ["a"]).getRowNames = ["a"] ∧
    (unitNA.setRowNames ["a"]).findRow "NA" = 0 ∧
    (unitNA.setRowNames ["a"]).findRow "a" = 0 ∧
    (unitNA.setColNames ["a"]).getColNames = ["a"] ∧
    (unitNA.setColNames ["a"]).findCol "NA" = 0 ∧
    (unitNA.setRowNames ["a"]).findRow "b" = -1 := by
  decide

/-- C14, evaluated on the code: `renamedSquare` is reached from the 1 x 4 matrix
`wideNamed` by `clear()`, `resize(2, 2, 0)`, `setColNames({"w", "x"})`,
`setRowNames({"a", "b"})` and `setData(7, 1, 1)`; its name lists are as long as
its dimensions.  The lookup still holds the old column name "z" at index 3, so
`getValueByNames("z", "a")` does not fail and returns 7, the value of cell
(1, 1), while `getData(findCol("z"), findRow("a")) = getData(3, 0)` throws. -/
theorem getValueByNames_reads_stale_index :
    (wideNamed.clear.resize 2 2 0 >>= fun m =>
      ((m.setColNames ["w", "x"]).setRowNames ["a", "b"]).setData 7 1 1) = .ok renamedSquare ∧
    renamedSquare.getColNames.length = renamedSquare.getColCount ∧
    renamedSquare.getRowNames.length = renamedSquare.getRowCount ∧
    renamedSquare.findCol "z" = 3 ∧ renamedSquare.findRow "a" = 0 ∧
    renamedSquare.getValueByNames "z" "a" = .ok 7 ∧
    renamedSquare.getData 1 1 = .ok 7 ∧
    renamedSquare.getData 3 0
      = .error (.invalidArgument "In setData, Invalid matrix position") := by
  decide

/-- C15, evaluated on the code: on the 2 x 2 matrix built by the dimension
constructor (default names `{"NA"}`), after `setColNames({"a", "b"})` and
`setRowNames({"a", "b"})` the name "NA" is neither a column name nor a row
name, yet `hasNACol()` and `hasNARow()` return true; the adjacency matrix of a
network read by `readTGF` is in the same situation. -/
theorem hasNA_after_rename :
    ((squareNA.setColNames ["a", "b"]).setRowNames ["a", "b"]).getColNames = ["a", "b"] ∧
    ((squareNA.setColNames ["a", "b"]).setRowNames ["a", "b"]).getRowNames = ["a", "b"] ∧
    ((squareNA.setColNames ["a", "b"]).setRowNames ["a", "b"]).hasNACol = true ∧
    ((squareNA.setColNames ["a", "b"]).setRowNames ["a", "b"]).hasNARow = true ∧
    chainNet.AdjacencyMatrix_.getRowNames = ["1", "2"] ∧
    chainNet.AdjacencyMatrix_.hasNARow = true := by
  decide

/-- C16, evaluated on the code: `clear()` resets the two dimensions and the value
store only.  After `clear()` on the 2 x 2 matrix `squareNamed` the counts are 0
and the value store is empty, but the name vectors still hold `["a", "b"]` and
`["x", "y"]`, `findRow("b")` returns 1 and `findCol("y")` returns 1; after
`clear()` on `unitNA`, `hasNACol()` and `hasNARow()` still return true. -/
theorem clear_keeps_names :
    squareNamed.clear.getRowCount = 0 ∧ squareNamed.clear.getColCount = 0 ∧
    squareNamed.clear.data_ = [] ∧
    squareNamed.clear.getRowNames = ["a", "b"] ∧
    squareNamed.clear.getColNames = ["x", "y"] ∧
    squareNamed.clear.findRow "b" = 1 ∧ squareNamed.clear.findCol "y" = 1 ∧
    unitNA.clear.hasNACol = true ∧ unitNA.clear.hasNARow = true := by
  decide

/-- C17 as stated fails on the code: right after the dimension constructor with
its default names the 2 x 2 matrix `squareNA` has one row name and one column
name; and `resize(2, 3, 0)` on `squareNamed` adds a row without adding a name. -/
theorem names_size_differs_from_count :
    squareNA.getRowNames.length = 1 ∧ squareNA.getRowCount = 2 ∧
    squareNA.getColNames.length = 1 ∧ squareNA.getColCount = 2 ∧
    squareNamed.NamesFit ∧
    squareNamed.resize 2 3 0
      = .ok { squareNamed with rowCount_ := 3, data_ := [0, 0, 0, 0, 0, 0] } ∧
    ({ squareNamed with rowCount_ := 3, data_ := [0, 0, 0, 0, 0, 0] } :
      Matrix Nat).getRowNames.length = 2 := by
  decide

/-- C17, amended: the name-vector constructor establishes
`getRowNames().size() == getRowCount()` and `getColNames().size() ==
getColCount()`.  On a matrix where both hold (value store of `colCount *
rowCount` elements), `setData` keeps them, `setRowNames(names)` and
`setColNames(names)` keep them exactly when `names` has as many entries as there
are rows resp. columns, and a `resize(c, r, init)` that returns normally keeps
them exactly when it changes neither dimension.  The dimension constructor with
its default names `{"NA"}` establishes them only for a 1 x 1 matrix. -/
theorem names_fit_kept {T : Type} [Inhabited T] (m : Matrix T) (hs : m.Sized)
    (hfit : m.NamesFit) :
    (∀ (cols rows : List String) (init : T), (Matrix.createNamed cols rows init).NamesFit) ∧
    (∀ (c r : Nat) (init : T),
      (Matrix.create c r init ["NA"] ["NA"]).NamesFit ↔ (c = 1 ∧ r = 1)) ∧
    (∀ v col row m2, m.setData v col row = .ok m2 → m2.NamesFit) ∧
    (∀ names, (m.setRowNames names).NamesFit ↔ names.length = m.getRowCount) ∧
    (∀ names, (m.setColNames names).NamesFit ↔ names.length = m.getColCount) ∧
    (∀ c r init m2, m.resize c r init = .ok m2 →
      (m2.NamesFit ↔ (c = m.getColCount ∧ r = m.getRowCount))) := by
  obtain ⟨hrows, hcols⟩ := hfit
  refine ⟨fun _ _ _ => ⟨rfl, rfl⟩, ?_, ?_, ?_, ?_, ?_⟩
  · intro c r init
    show (1 = r ∧ 1 = c) ↔ (c = 1 ∧ r = 1)
    omega
  · intro v col row m2 h
    unfold Matrix.setData at h
    split at h
    · cases h
    · cases hw : vecWrite m.data_ (col + row * m.colCount_) v with
      | error e =>
        rw [hw] at h
        cases e <;> cases h
      | ok d =>
        rw [hw] at h
        cases h
        exact ⟨hrows, hcols⟩
  · intro names
    constructor
    · intro h; exact h.1
    · intro h; exact ⟨h, hcols⟩
  · intro names
    constructor
    · intro h; exact h.2
    · intro h; exact ⟨hrows, h⟩
  · intro c r init m2 h
    have hgrow : ¬ (m.colCount_ > c ∨ m.rowCount_ > r) := by
      intro hshrink
      unfold Matrix.resize at h
      rw [if_pos hshrink] at h
      cases h
    obtain ⟨m3, e, hc3, hr3, hrn, hcn, _⟩ :=
      Matrix.resize_spec m c r init hs (by omega) (by omega)
    rw [e] at h
    cases h
    unfold Matrix.NamesFit Matrix.getRowNames Matrix.getColNames Matrix.getRowCount
      Matrix.getColCount at *
    rw [hrn, hcn, hc3, hr3, hrows, hcols]
    constructor
    · intro h; exact ⟨h.2.symm, h.1.symm⟩
    · intro h; exact ⟨h.2.symm, h.1.symm⟩

/-- Instance of the amended C17 on `squareNamed`. -/
theorem names_fit_kept_witness :
    squareNamed.Sized ∧ squareNamed.NamesFit ∧
    (∀ (cols rows : List String) (init : Nat),
      (Matrix.createNamed cols rows init).NamesFit) ∧
    (∀ (c r : Nat) (init : Nat),
      (Matrix.create c r init ["NA"] ["NA"]).NamesFit ↔ (c = 1 ∧ r = 1)) ∧
    (∀ v col row m2, squareNamed.setData v col row = .ok m2 → m2.NamesFit) ∧
    (∀ names, (squareNamed.setRowNames names).NamesFit ↔
      names.length = squareNamed.getRowCount) ∧
    (∀ names, (squareNamed.setColNames names).NamesFit ↔
      names.length = squareNamed.getColCount) ∧
    (∀ c r init m2, squareNamed.resize c r init = .ok m2 →
      (m2.NamesFit ↔ (c = squareNamed.getColCount ∧ r = squareNamed.getRowCount))) :=
  ⟨by decide, by decide, names_fit_kept squareNamed (by decide) (by decide)⟩

/-! ## Tokenising well-formed lines -/

theorem takeWhile_stop {A : Type} (p : A → Bool) (l r : List A) (hl : ∀ a ∈ l, p a = true)
    (hr : ∀ c, r.head? = some c → p c = false) :
    (l ++ r).takeWhile p = l ∧ (l ++ r).dropWhile p = r := by
  have h1 : r.takeWhile p = [] ∧ r.dropWhile p = r := by
    cases r with
    | nil => exact ⟨rfl, rfl⟩
    | cons c cs =>
      have hc := hr c rfl
      simp [List.takeWhile_cons, List.dropWhile_cons, hc]
  rw [List.takeWhile_append_of_pos hl, List.dropWhile_append_of_pos hl, h1.1, h1.2]
  simp

theorem extractUnsigned_field (id : Nat) (hid : id ≤ UINT_MAX) (r : List Char)
    (hr : ∀ c, r.head? = some c → isDigit c = false) (x : Nat) :
    extractUnsigned { rest := Nat.toDigits 10 id ++ r, good := true } x
      = ({ rest := r, good := !r.isEmpty }, id) := by
  have hd := toDigits_isDigit id
  have hne := toDigits_ne_nil id
  have hv := toDigits_value id
  have hstop := takeWhile_stop isDigit (Nat.toDigits 10 id) r hd hr
  unfold extractUnsigned
  simp only [Bool.true_eq_false, if_false]
  cases hl : Nat.toDigits 10 id with
  | nil => exact absurd hl hne
  | cons c cs =>
    rw [hl] at hd hv hstop
    have hc := isDigit_not_sign (hd c (List.mem_cons_self _ _))
    have h45 : ¬ c.toNat = 45 := fun e => hc (Or.inl e)
    have hsp : isSpace c = false := isDigit_not_space (hd c (List.mem_cons_self _ _))
    have hdrop : List.dropWhile isSpace (c :: cs ++ r) = c :: (cs ++ r) := by
      rw [List.cons_append, List.dropWhile_cons, hsp]
      rfl
    rw [hdrop]
    have hstop2 : List.takeWhile isDigit (c :: (cs ++ r)) = c :: cs ∧
        List.dropWhile isDigit (c :: (cs ++ r)) = r := hstop
    simp only [if_neg hc, hstop2.1, hstop2.2, hv, List.isEmpty_cons,
      Bool.false_eq_true, if_false, decide_eq_true_eq, if_neg h45, if_neg (Nat.not_lt.mpr hid)]

theorem extractUnsigned_skip_blank (l : List Char) (x : Nat) :
    extractUnsigned { rest := Char.ofNat 32 :: l, good := true } x
      = extractUnsigned { rest := l, good := true } x := by
  have hsp : isSpace (Char.ofNat 32) = true := by decide
  unfold extractUnsigned
  simp only [Bool.true_eq_false, if_false, List.dropWhile_cons, hsp, if_true]

theorem extractString_field (name : String) (hn : IsToken name) (x : String) :
    (extractString { rest := Char.ofNat 32 :: name.data, good := true } x).2 = name := by
  have hsp : isSpace (Char.ofNat 32) = true := by decide
  obtain ⟨hne, hall⟩ := hn
  unfold extractString
  simp only [Bool.true_eq_false, if_false, List.dropWhile_cons, hsp, if_true]
  cases hl : name.data with
  | nil => exact absurd hl hne
  | cons c cs =>
    rw [hl] at hall
    have hc : isSpace c = false := hall c (List.mem_cons_self _ _)
    simp only [List.dropWhile_cons, hc, Bool.false_eq_true, if_false]
    rw [takeWhile_all]
    · rw [← hl]
    · intro a ha
      simp [hall a ha]

theorem blank_not_digit : ∀ c, (Char.ofNat 32 :: (l : List Char)).head? = some c →
    isDigit c = false := by
  intro c h
  simp only [List.head?_cons, Option.some.injEq] at h
  subst h
  decide

theorem Network.tgfNodeLine_nodeLine (st : Network.NodeLoop) (id : Nat) (name : String)
    (hid : id ≤ UINT_MAX) (hn : IsToken name) :
    Network.tgfNodeLine st (nodeLine id name)
      = Network.NodeLoop.push { st with ids := "" } id name st.waste := by
  unfold Network.tgfNodeLine nodeLine IStream.ofString
  simp only [extractUnsigned_field id hid _ blank_not_digit, List.isEmpty_cons, Bool.not_false]
  rw [extractString_field name hn]

theorem Network.tgfEdgeLine_edgeLine (st : Network.EdgeLoop) (a b : Nat)
    (ha : a ≤ UINT_MAX) (hb : b ≤ UINT_MAX) :
    Network.tgfEdgeLine st (edgeLine a b)
      = (st.net.addEdge b a >>= fun net => pure { net := net, id1 := a, id2 := b }) := by
  unfold Network.tgfEdgeLine edgeLine IStream.ofString
  have e := extractUnsigned_field b hb [] (fun c h => by simp at h) st.id2
  rw [List.append_nil] at e
  simp only [extractUnsigned_field a ha _ blank_not_digit, List.isEmpty_cons, Bool.not_false,
    extractUnsigned_skip_blank, e]

/-! ## The node block of a well-formed trivial-graph file -/

theorem nodeLine_ne_sep (id : Nat) (name : String) : nodeLine id name ≠ "#" := by
  intro h
  have h2 := congrArg (fun s => s.data.length) h
  have hne := toDigits_ne_nil id
  simp only [nodeLine, List.length_append, List.length_cons] at h2
  simp only [List.length_nil] at h2
  have h4 : (Nat.toDigits 10 id).length = 0 := by omega
  exact hne (List.length_eq_zero.mp h4)

theorem tgfFile_split (nodes : List (Nat × String)) (edges : List (Nat × Nat)) :
    (tgfFile nodes edges).takeWhile (fun line => decide (line ≠ "#"))
      = nodes.map (fun p => nodeLine p.1 p.2) ∧
    ((tgfFile nodes edges).dropWhile (fun line => decide (line ≠ "#"))).drop 1
      = edges.map (fun e => edgeLine e.1 e.2) := by
  have h := takeWhile_stop (fun line => decide (line ≠ "#"))
    (nodes.map (fun p => nodeLine p.1 p.2)) ("#" :: edges.map (fun e => edgeLine e.1 e.2))
    (by
      intro line hl
      obtain ⟨p, _, hp⟩ := List.mem_map.mp hl
      rw [← hp]
      exact decide_eq_true (nodeLine_ne_sep _ _))
    (by
      intro c hc
      simp only [List.head?_cons, Option.some.injEq] at hc
      subst hc
      decide)
  unfold tgfFile
  rw [h.1, h.2]
  exact ⟨rfl, rfl⟩

theorem Network.foldl_tgfNodeLine (nodes : List (Nat × String)) :
    ∀ (st : Network.NodeLoop), NodesWellFormed nodes →
      (nodes.map (fun p => nodeLine p.1 p.2)).foldl Network.tgfNodeLine st
        = st.pushAll nodes := by
  induction nodes with
  | nil => intro st _; rfl
  | cons p rest ih =>
    intro st h
    have hp := h p (List.mem_cons_self _ _)
    rw [List.map_cons, List.foldl_cons, Network.tgfNodeLine_nodeLine st p.1 p.2 hp.1 hp.2]
    exact ih _ (fun q hq => h q (List.mem_cons_of_mem _ hq))

theorem Network.NodeLoop.pushAll_fields (nodes : List (Nat × String)) :
    ∀ (st : Network.NodeLoop),
      (st.pushAll nodes).net.NodeList_
        = st.net.NodeList_ ++ nodes.map (fun p => { first := 0, id := p.1, name := p.2 }) ∧
      (st.pushAll nodes).net.IDToIndex_
        = assignIndices st.net.IDToIndex_ st.index (nodes.map Prod.fst) ∧
      (st.pushAll nodes).net.NameToIndex_
        = assignIndices st.net.NameToIndex_ st.index (nodes.map Prod.snd) ∧
      (st.pushAll nodes).names
        = st.names ++ nodes.map (fun p => String.mk (Nat.toDigits 10 p.1)) ∧
      (st.pushAll nodes).net.AdjacencyMatrix_ = st.net.AdjacencyMatrix_ ∧
      (st.pushAll nodes).net.ExtensionToIndex_ = st.net.ExtensionToIndex_ := by
  induction nodes with
  | nil => intro st; simp [Network.NodeLoop.pushAll, assignIndices]
  | cons p rest ih =>
    intro st
    obtain ⟨h1, h2, h3, h4, h5, h6⟩ :=
      ih (Network.NodeLoop.push { st with ids := "" } p.1 p.2 st.waste)
    show _ ∧ _ ∧ _ ∧ _ ∧ _ ∧ _
    refine ⟨?_, ?_, ?_, ?_, ?_, ?_⟩
    · show (Network.NodeLoop.pushAll _ rest).net.NodeList_ = _
      rw [h1]
      simp [Network.NodeLoop.push]
    · show (Network.NodeLoop.pushAll _ rest).net.IDToIndex_ = _
      rw [h2]
      rfl
    · show (Network.NodeLoop.pushAll _ rest).net.NameToIndex_ = _
      rw [h3]
      rfl
    · show (Network.NodeLoop.pushAll _ rest).names = _
      rw [h4]
      simp [Network.NodeLoop.push, extractString_ofUnsigned]
    · show (Network.NodeLoop.pushAll _ rest).net.AdjacencyMatrix_ = _
      rw [h5]
      rfl
    · show (Network.NodeLoop.pushAll _ rest).net.ExtensionToIndex_ = _
      rw [h6]
      rfl

theorem Network.NodeLoop.Inv.pushAll (nodes : List (Nat × String)) :
    ∀ (st : Network.NodeLoop), st.Inv → NodesWellFormed nodes → (st.pushAll nodes).Inv := by
  induction nodes with
  | nil => intro st h _; exact h
  | cons p rest ih =>
    intro st h hw
    have h2 : Network.NodeLoop.Inv { st with ids := "" } := h
    exact ih _ (h2.push _ _ _ (hw p (List.mem_cons_self _ _)).1)
      (fun q hq => hw q (List.mem_cons_of_mem _ hq))

theorem replicate_of_cells {n : Nat} {v : Nat} {d : List Nat} (hl : d.length = n * n)
    (hc : ∀ col row, col < n → row < n → d[col + row * n]? = some v) :
    d = List.replicate (n * n) v := by
  apply List.ext_getElem?
  intro j
  by_cases hj : j < n * n
  · have hn : 0 < n := by
      rcases Nat.eq_zero_or_pos n with h | h
      · subst h; omega
      · exact h
    have hrow : j / n < n := Nat.div_lt_of_lt_mul hj
    have hcol : j % n < n := Nat.mod_lt _ hn
    have hsplit : j % n + j / n * n = j := by
      rw [Nat.mul_comm]; exact Nat.mod_add_div j n
    have := hc (j % n) (j / n) hcol hrow
    rw [hsplit] at this
    rw [this, List.getElem?_replicate, if_pos hj]
  · rw [List.getElem?_eq_none (by omega), List.getElem?_eq_none (by simp; omega)]

theorem Network.finishNodes_eq {st : Network.NodeLoop}
    (h6 : st.net.AdjacencyMatrix_.colCount_ = 0) (h7 : st.net.AdjacencyMatrix_.rowCount_ = 0)
    (h8 : st.net.AdjacencyMatrix_.data_ = []) :
    Network.finishNodes st = .ok { st.net with
      AdjacencyMatrix_ :=
        { rowCount_ := st.net.NodeList_.length, colCount_ := st.net.NodeList_.length,
          rowNames_ := st.names, colNames_ := st.names,
          rowNamesToIndex_ := assignIndices st.net.AdjacencyMatrix_.rowNamesToIndex_ 0 st.names,
          colNamesToIndex_ := assignIndices st.net.AdjacencyMatrix_.colNamesToIndex_ 0 st.names,
          data_ := List.replicate (st.net.NodeList_.length * st.net.NodeList_.length) 0 } } := by
  have hs : st.net.AdjacencyMatrix_.Sized := by
    unfold Matrix.Sized; rw [h6, h7, h8]; rfl
  obtain ⟨m2, e, hc, hr, _, _, hrm, hcm, hl, hcells⟩ :=
    Matrix.resize_spec st.net.AdjacencyMatrix_ st.net.NodeList_.length st.net.NodeList_.length 0
      hs (by omega) (by omega)
  have hdata : m2.data_ = List.replicate (st.net.NodeList_.length * st.net.NodeList_.length) 0 := by
    apply replicate_of_cells hl
    intro col row hcol hrow
    rw [hcells col row hcol hrow, if_neg (by omega)]
  unfold Network.finishNodes
  rw [e]
  show Except.ok _ = Except.ok _
  congr 1
  show ({ st.net with AdjacencyMatrix_ :=
    (m2.setRowNames st.names).setColNames st.names } : Network) = _
  rcases m2 with ⟨rc, cc, rn, cn, rm, cm, d⟩
  simp only at hc hr hrm hcm hdata
  subst hc hr hrm hcm hdata
  simp only [Matrix.setRowNames, Matrix.setColNames, foldl_assign_eq]

/-! ## The edge block of a well-formed trivial-graph file -/

theorem Network.indexOf_of_getIndex {n : Network} {id i : Nat} (h : n.getIndex id = .ok i) :
    n.indexOf id = i := by
  unfold Network.indexOf
  rw [Network.getIndex_eq_ok h]
  rfl

theorem Network.paint_nil (n : Network) : n.paint [] = n := rfl

theorem Network.paint_cons (n : Network) (e : Nat × Nat) (rest : List (Nat × Nat)) :
    n.paint (e :: rest) = (n.withCell (n.indexOf e.2) (n.indexOf e.1) 1).paint rest := rfl

theorem Network.Coherent.known_le {n : Network} (hn : n.Coherent) {id i : Nat}
    (h : n.getIndex id = .ok i) : id ≤ UINT_MAX := by
  obtain ⟨hl, hid⟩ := hn.index_lt h
  have := (hn.rowName hl).2
  rwa [hid] at this

theorem Network.edgeLoop_paint :
    ∀ (edges : List (Nat × Nat)) (st : Network.EdgeLoop), st.net.Coherent →
      (∀ e ∈ edges, (∃ i, st.net.getIndex e.1 = .ok i) ∧ (∃ j, st.net.getIndex e.2 = .ok j)) →
      ∃ done, (edges.map (fun e => edgeLine e.1 e.2)).foldlM Network.tgfEdgeLine st = .ok done ∧
        done.net = st.net.paint edges := by
  intro edges
  induction edges with
  | nil =>
    intro st _ _
    exact ⟨st, rfl, rfl⟩
  | cons e rest ih =>
    intro st hc hk
    obtain ⟨⟨i, hi⟩, ⟨j, hj⟩⟩ := hk e (List.mem_cons_self _ _)
    have hstep : Network.tgfEdgeLine st (edgeLine e.1 e.2)
        = .ok { net := st.net.withCell j i 1, id1 := e.1, id2 := e.2 } := by
      rw [Network.tgfEdgeLine_edgeLine st e.1 e.2 (hc.known_le hi) (hc.known_le hj),
        Network.addEdge_known hc hj hi]
      rfl
    obtain ⟨done, hd, hnet⟩ := ih { net := st.net.withCell j i 1, id1 := e.1, id2 := e.2 }
      (hc.withCell j i 1) (fun e2 h2 => hk e2 (List.mem_cons_of_mem _ h2))
    refine ⟨done, ?_, ?_⟩
    · rw [List.map_cons, List.foldlM_cons, hstep]
      exact hd
    · rw [hnet, Network.paint_cons, Network.indexOf_of_getIndex hi,
        Network.indexOf_of_getIndex hj]

theorem mapFind_assignIndices_mem {K : Type} [DecidableEq K] (names : List K) :
    ∀ (m : List (K × Nat)) (k : Nat) (x : K), x ∈ names →
      ∃ i, mapFind (assignIndices m k names) x = some i := by
  induction names with
  | nil => intro m k x h; cases h
  | cons a rest ih =>
    intro m k x h
    by_cases hr : x ∈ rest
    · exact ih _ _ x hr
    · have hxa : x = a := by
        rcases List.mem_cons.mp h with h1 | h1
        · exact h1
        · exact absurd h1 hr
      subst hxa
      refine ⟨k, ?_⟩
      show mapFind (assignIndices (mapAssign m x k) (k + 1) rest) x = _
      rw [mapFind_assignIndices_not_mem _ _ _ _ hr, mapFind_mapAssign, if_pos rfl]

/-- Reading a well-formed trivial-graph file into a newly constructed network
returns normally, with the network `ofNodes nodes` painted with the edges. -/
theorem Network.readTGF_tgfFile (nodes : List (Nat × String)) (edges : List (Nat × Nat))
    (hn : NodesWellFormed nodes) (he : EdgesDeclared nodes edges) :
    Network.create.readTGF (tgfFile nodes edges)
      = .ok ((Network.ofNodes nodes).paint edges) ∧ (Network.ofNodes nodes).Coherent := by
  obtain ⟨htake, hdrop⟩ := tgfFile_split nodes edges
  have hinv0 : Network.freshLoop.Inv := by
    refine ⟨rfl, rfl, ?_, ?_, Nat.zero_le _, rfl, rfl, rfl⟩
    · intro nd hnd; cases hnd
    · intro p hp; cases hp
  have hinv := Network.NodeLoop.Inv.pushAll nodes _ hinv0 hn
  obtain ⟨f1, f2, f3, f4, f5, f6⟩ := Network.NodeLoop.pushAll_fields nodes Network.freshLoop
  have hfin := Network.finishNodes_eq hinv.2.2.2.2.2.1 hinv.2.2.2.2.2.2.1 hinv.2.2.2.2.2.2.2
  obtain ⟨net1, e1, hc1, _, _⟩ := Network.finishNodes_coherent hinv
  have hnet1 : net1 = Network.ofNodes nodes := by
    rw [hfin] at e1
    cases e1
    unfold Network.ofNodes
    simp only [f1, f2, f3, f4, f5, f6]
    simp only [Network.freshLoop, List.nil_append, List.length_map]
    rfl
  subst hnet1
  refine ⟨?_, hc1⟩
  have hknown : ∀ e ∈ edges,
      (∃ i, (Network.ofNodes nodes).getIndex e.1 = .ok i) ∧
      (∃ j, (Network.ofNodes nodes).getIndex e.2 = .ok j) := by
    intro e hmem
    obtain ⟨h1, h2⟩ := he e hmem
    obtain ⟨i, hi⟩ := mapFind_assignIndices_mem _ [] 0 e.1 h1
    obtain ⟨j, hj⟩ := mapFind_assignIndices_mem _ [] 0 e.2 h2
    constructor
    · refine ⟨i, ?_⟩
      unfold Network.getIndex
      show (match mapFind (assignIndices [] 0 (nodes.map Prod.fst)) e.1 with
        | none => _ | some index => _) = _
      rw [hi]
    · refine ⟨j, ?_⟩
      unfold Network.getIndex
      show (match mapFind (assignIndices [] 0 (nodes.map Prod.fst)) e.2 with
        | none => _ | some index => _) = _
      rw [hj]
  obtain ⟨done, hd, hnet⟩ := Network.edgeLoop_paint edges
    { net := Network.ofNodes nodes, id1 := (Network.freshLoop.pushAll nodes).id1, id2 := 0 }
    hc1 hknown
  have hloop : (nodes.map (fun p => nodeLine p.1 p.2)).foldl Network.tgfNodeLine
      { net := { Network.create with NodeList_ := [],
                                     AdjacencyMatrix_ := Network.create.AdjacencyMatrix_.clear },
        id1 := 0, name := "", waste := "", ids := "", index := 0, names := [] }
      = Network.freshLoop.pushAll nodes := Network.foldl_tgfNodeLine nodes _ hn
  unfold Network.readTGF
  simp only [htake, hdrop, hloop, e1, ok_bind2, hd]
  rw [← hnet]
  rfl

/-! ## Cells written by the edge block -/

theorem foldl_set_length (cells : List Nat) :
    ∀ (d : List Nat), (cells.foldl (fun d j => d.set j 1) d).length = d.length := by
  induction cells with
  | nil => intro d; rfl
  | cons c rest ih => intro d; rw [List.foldl_cons, ih]; simp

theorem foldl_set_keeps_one (cells : List Nat) :
    ∀ (d : List Nat) (j : Nat), d[j]? = some 1 →
      (cells.foldl (fun d j => d.set j 1) d)[j]? = some 1 := by
  induction cells with
  | nil => intro d j h; exact h
  | cons c rest ih =>
    intro d j h
    rw [List.foldl_cons]
    apply ih
    by_cases hc : c = j
    · subst hc
      have hlt : c < d.length := by
        by_contra hge
        rw [List.getElem?_eq_none (by omega)] at h
        cases h
      exact List.getElem?_set_self hlt
    · rw [List.getElem?_set_ne hc]
      exact h

theorem foldl_set_one_mem (cells : List Nat) :
    ∀ (d : List Nat) (j : Nat), j ∈ cells → j < d.length →
      (cells.foldl (fun d j => d.set j 1) d)[j]? = some 1 := by
  induction cells with
  | nil => intro d j h; cases h
  | cons c rest ih =>
    intro d j h hlt
    rw [List.foldl_cons]
    rcases List.mem_cons.mp h with h1 | h1
    · subst h1
      exact foldl_set_keeps_one rest _ _ (List.getElem?_set_self hlt)
    · exact ih _ j h1 (by simpa using hlt)

theorem count_set_zero_one {d : List Nat} {c : Nat} (h : d[c]? = some 0) :
    (d.set c 1).count 1 = d.count 1 + 1 ∧ (d.set c 1).count 0 + 1 = d.count 0 := by
  have hlt : c < d.length := by
    by_contra hge
    rw [List.getElem?_eq_none (by omega)] at h
    cases h
  have hv : d[c] = 0 := by
    rw [List.getElem?_eq_getElem hlt] at h
    exact Option.some.inj h
  have hpos : 0 < d.count 0 := List.count_pos_iff.mpr (List.getElem?_mem h)
  rw [List.count_set _ _ _ _ hlt, List.count_set _ _ _ _ hlt, hv]
  simp only [beq_self_eq_true, if_true]
  have e1 : ((0 : Nat) == 1) = false := rfl
  have e2 : ((1 : Nat) == 0) = false := rfl
  simp only [e1, e2, Bool.false_eq_true, if_false]
  omega

theorem count_foldl_set (cells : List Nat) :
    ∀ (d : List Nat), cells.Nodup → (∀ c ∈ cells, d[c]? = some 0) →
      (cells.foldl (fun d j => d.set j 1) d).count 1 = d.count 1 + cells.length ∧
      (cells.foldl (fun d j => d.set j 1) d).count 0 + cells.length = d.count 0 := by
  induction cells with
  | nil => intro d _ _; exact ⟨rfl, rfl⟩
  | cons c rest ih =>
    intro d hnd hz
    obtain ⟨hnot, hrest⟩ := List.nodup_cons.mp hnd
    obtain ⟨s1, s0⟩ := count_set_zero_one (hz c (List.mem_cons_self _ _))
    obtain ⟨r1, r0⟩ := ih (d.set c 1) hrest (by
      intro c2 h2
      have hne : c ≠ c2 := fun e => hnot (e ▸ h2)
      rw [List.getElem?_set_ne hne]
      exact hz c2 (List.mem_cons_of_mem _ h2))
    rw [List.foldl_cons, List.length_cons]
    constructor
    · rw [r1, s1]; omega
    · omega

theorem Network.paint_data (n : Network) (edges : List (Nat × Nat)) :
    (n.paint edges).AdjacencyMatrix_.data_
      = (edges.map n.edgeCell).foldl (fun d j => d.set j 1) n.AdjacencyMatrix_.data_ := by
  rw [List.foldl_map]
  rfl

theorem Network.Coherent.paint (edges : List (Nat × Nat)) :
    ∀ (n : Network), n.Coherent → (n.paint edges).Coherent := by
  induction edges with
  | nil => intro n h; exact h
  | cons e rest ih =>
    intro n h
    rw [Network.paint_cons]
    exact ih _ (h.withCell _ _ _)

theorem Network.Coherent.edgeCell_lt {n : Network} (hn : n.Coherent) {e : Nat × Nat} {i j : Nat}
    (hi : n.getIndex e.1 = .ok i) (hj : n.getIndex e.2 = .ok j) :
    n.edgeCell e = j + i * n.NodeList_.length ∧
      n.edgeCell e < n.AdjacencyMatrix_.data_.length := by
  have hcols : n.AdjacencyMatrix_.colCount_ = n.NodeList_.length := hn.2.1
  have e1 : n.edgeCell e = j + i * n.NodeList_.length := by
    unfold Network.edgeCell
    rw [Network.indexOf_of_getIndex hi, Network.indexOf_of_getIndex hj, hcols]
  refine ⟨e1, ?_⟩
  rw [e1, hn.1, hcols, hn.2.2.1]
  exact flat_lt (hn.index_lt hj).1 (hn.index_lt hi).1

theorem Network.Coherent.edgeCell_inj {n : Network} (hn : n.Coherent) {e e2 : Nat × Nat}
    {i j i2 j2 : Nat} (hi : n.getIndex e.1 = .ok i) (hj : n.getIndex e.2 = .ok j)
    (hi2 : n.getIndex e2.1 = .ok i2) (hj2 : n.getIndex e2.2 = .ok j2)
    (h : n.edgeCell e = n.edgeCell e2) : e = e2 := by
  rw [(hn.edgeCell_lt hi hj).1, (hn.edgeCell_lt hi2 hj2).1] at h
  obtain ⟨hjeq, hieq⟩ := flat_inj (hn.index_lt hj).1 (hn.index_lt hj2).1 h
  have a1 := (hn.index_lt hi).2
  have a2 := (hn.index_lt hi2).2
  have b1 := (hn.index_lt hj).2
  have b2 := (hn.index_lt hj2).2
  rw [hieq] at a1
  rw [hjeq] at b1
  exact Prod.ext (a1.symm.trans a2) (b1.symm.trans b2)

theorem Network.ofNodes_known {nodes : List (Nat × String)} {id : Nat}
    (h : id ∈ nodes.map Prod.fst) : ∃ i, (Network.ofNodes nodes).getIndex id = .ok i := by
  obtain ⟨i, hi⟩ := mapFind_assignIndices_mem _ [] 0 id h
  refine ⟨i, ?_⟩
  unfold Network.getIndex
  show (match mapFind (assignIndices [] 0 (nodes.map Prod.fst)) id with
    | none => _ | some index => _) = _
  rw [hi]

/-! # Claims on reading trivial-graph files -/

/-- C18: reading, into a newly constructed network, a trivial-graph file whose
first block has N well-formed `id name` lines with pairwise distinct ids and
pairwise distinct names (followed by `#` and edge lines over declared ids)
returns normally and yields exactly the N nodes in file order, with
`getIndex(id_i) = i` and `getIndex(name_i) = i` for the i-th node line, and an
N x N adjacency matrix whose row names and column names are the stringified ids
in the same order. -/
theorem readTGF_nodes_in_file_order (nodes : List (Nat × String)) (edges : List (Nat × Nat))
    (hn : NodesWellFormed nodes) (he : EdgesDeclared nodes edges)
    (hids : (nodes.map Prod.fst).Nodup) (hnames : (nodes.map Prod.snd).Nodup) :
    ∃ net, Network.create.readTGF (tgfFile nodes edges) = .ok net ∧
      net.NodeList_ = nodes.map (fun p => { first := 0, id := p.1, name := p.2 }) ∧
      (∀ (i : Nat) p, nodes[i]? = some p →
        net.getIndex p.1 = .ok i ∧ net.getIndexByName p.2 = .ok i) ∧
      net.AdjacencyMatrix_.getColCount = nodes.length ∧
      net.AdjacencyMatrix_.getRowCount = nodes.length ∧
      net.AdjacencyMatrix_.data_.length = nodes.length * nodes.length ∧
      net.AdjacencyMatrix_.getRowNames
        = nodes.map (fun p => String.mk (Nat.toDigits 10 p.1)) ∧
      net.AdjacencyMatrix_.getColNames
        = nodes.map (fun p => String.mk (Nat.toDigits 10 p.1)) := by
  obtain ⟨hread, hc⟩ := Network.readTGF_tgfFile nodes edges hn he
  refine ⟨_, hread, rfl, ?_, rfl, rfl, ?_, rfl, rfl⟩
  · intro i p hp
    have h1 : (nodes.map Prod.fst)[i]? = some p.1 := by
      rw [List.getElem?_map, hp]; rfl
    have h2 : (nodes.map Prod.snd)[i]? = some p.2 := by
      rw [List.getElem?_map, hp]; rfl
    have f1 := mapFind_assignIndices_nodup _ [] 0 i p.1 hids h1
    have f2 := mapFind_assignIndices_nodup _ [] 0 i p.2 hnames h2
    rw [Nat.zero_add] at f1 f2
    constructor
    · unfold Network.getIndex
      show (match mapFind (assignIndices [] 0 (nodes.map Prod.fst)) p.1 with
        | none => _ | some index => _) = _
      rw [f1]
    · unfold Network.getIndexByName
      show (match mapFind (assignIndices [] 0 (nodes.map Prod.snd)) p.2 with
        | none => _ | some index => _) = _
      rw [f2]
  · have hs := (hc.paint edges).1
    have e1 : ((Network.ofNodes nodes).paint edges).AdjacencyMatrix_.colCount_ = nodes.length :=
      rfl
    have e2 : ((Network.ofNodes nodes).paint edges).AdjacencyMatrix_.rowCount_ = nodes.length :=
      rfl
    unfold Matrix.Sized at hs
    rw [hs, e1, e2]

/-- Instance of C18 on the file `1 A`, `2 B`, `#`, `1 2`. -/
theorem readTGF_nodes_in_file_order_witness :
    NodesWellFormed [(1, "A"), (2, "B")] ∧ EdgesDeclared [(1, "A"), (2, "B")] [(1, 2)] ∧
    ([(1, "A"), (2, "B")].map Prod.fst).Nodup ∧ ([(1, "A"), (2, "B")].map Prod.snd).Nodup ∧
    tgfFile [(1, "A"), (2, "B")] [(1, 2)] = tgfChain ∧
    ∃ net, Network.create.readTGF (tgfFile [(1, "A"), (2, "B")] [(1, 2)]) = .ok net ∧
      net.NodeList_
        = [(1, "A"), (2, "B")].map (fun p => { first := 0, id := p.1, name := p.2 }) ∧
      (∀ (i : Nat) p, [(1, "A"), (2, "B")][i]? = some p →
        net.getIndex p.1 = .ok i ∧ net.getIndexByName p.2 = .ok i) ∧
      net.AdjacencyMatrix_.getColCount = [(1, "A"), (2, "B")].length ∧
      net.AdjacencyMatrix_.getRowCount = [(1, "A"), (2, "B")].length ∧
      net.AdjacencyMatrix_.data_.length
        = [(1, "A"), (2, "B")].length * [(1, "A"), (2, "B")].length ∧
      net.AdjacencyMatrix_.getRowNames
        = [(1, "A"), (2, "B")].map (fun p => String.mk (Nat.toDigits 10 p.1)) ∧
      net.AdjacencyMatrix_.getColNames
        = [(1, "A"), (2, "B")].map (fun p => String.mk (Nat.toDigits 10 p.1)) :=
  ⟨by decide, by decide, by decide, by decide, by decide,
    readTGF_nodes_in_file_order [(1, "A"), (2, "B")] [(1, 2)] (by decide) (by decide)
      (by decide) (by decide)⟩

/-- C19: reading, into a newly constructed network, a trivial-graph file with N
well-formed node lines, the separator `#` and E pairwise distinct well-formed
edge lines over declared ids returns normally and yields an adjacency matrix of
N * N cells of which exactly E hold 1 and N * N - E hold 0. -/
theorem readTGF_counts_edges (nodes : List (Nat × String)) (edges : List (Nat × Nat))
    (hn : NodesWellFormed nodes) (he : EdgesDeclared nodes edges) (hd : edges.Nodup) :
    ∃ net, Network.create.readTGF (tgfFile nodes edges) = .ok net ∧
      net.AdjacencyMatrix_.data_.length = nodes.length * nodes.length ∧
      net.AdjacencyMatrix_.data_.count 1 = edges.length ∧
      net.AdjacencyMatrix_.data_.count 0 = nodes.length * nodes.length - edges.length := by
  obtain ⟨hread, hc⟩ := Network.readTGF_tgfFile nodes edges hn he
  have hknown : ∀ e ∈ edges, ∃ i j, (Network.ofNodes nodes).getIndex e.1 = .ok i ∧
      (Network.ofNodes nodes).getIndex e.2 = .ok j := by
    intro e hmem
    obtain ⟨i, hi⟩ := Network.ofNodes_known (he e hmem).1
    obtain ⟨j, hj⟩ := Network.ofNodes_known (he e hmem).2
    exact ⟨i, j, hi, hj⟩
  have hnodup : (edges.map (Network.ofNodes nodes).edgeCell).Nodup := by
    apply List.Nodup.map_on _ hd
    intro e h1 e2 h2 heq
    obtain ⟨i, j, hi, hj⟩ := hknown e h1
    obtain ⟨i2, j2, hi2, hj2⟩ := hknown e2 h2
    exact hc.edgeCell_inj hi hj hi2 hj2 heq
  have hzero : ∀ c ∈ edges.map (Network.ofNodes nodes).edgeCell,
      (List.replicate (nodes.length * nodes.length) 0)[c]? = some 0 := by
    intro c hmem
    obtain ⟨e, h1, rfl⟩ := List.mem_map.mp hmem
    obtain ⟨i, j, hi, hj⟩ := hknown e h1
    have hlt := (hc.edgeCell_lt hi hj).2
    have hlen : (Network.ofNodes nodes).AdjacencyMatrix_.data_.length
        = nodes.length * nodes.length := by simp [Network.ofNodes]
    rw [hlen] at hlt
    rw [List.getElem?_replicate, if_pos hlt]
  obtain ⟨c1, c0⟩ := count_foldl_set _ (List.replicate (nodes.length * nodes.length) 0)
    hnodup hzero
  have hdata : ((Network.ofNodes nodes).paint edges).AdjacencyMatrix_.data_
      = (edges.map (Network.ofNodes nodes).edgeCell).foldl (fun d j => d.set j 1)
        (List.replicate (nodes.length * nodes.length) 0) := Network.paint_data _ _
  refine ⟨_, hread, ?_, ?_, ?_⟩
  · rw [hdata, foldl_set_length, List.length_replicate]
  · rw [hdata, c1, List.length_map, List.count_replicate]
    have e : ((0 : Nat) == 1) = false := rfl
    rw [e]
    simp
  · rw [hdata]
    rw [List.length_map] at c0
    have : (List.replicate (nodes.length * nodes.length) 0).count 0
        = nodes.length * nodes.length := List.count_replicate_self _ _
    omega

/-- Instance of C19 on the file `1 A`, `2 B`, `#`, `1 2`, `2 1`. -/
theorem readTGF_counts_edges_witness :
    NodesWellFormed [(1, "A"), (2, "B")] ∧
    EdgesDeclared [(1, "A"), (2, "B")] [(1, 2), (2, 1)] ∧
    [((1 : Nat), (2 : Nat)), (2, 1)].Nodup ∧
    tgfFile [(1, "A"), (2, "B")] [(1, 2), (2, 1)] = tgfCycle ∧
    ∃ net, Network.create.readTGF (tgfFile [(1, "A"), (2, "B")] [(1, 2), (2, 1)]) = .ok net ∧
      net.AdjacencyMatrix_.data_.length
        = [(1, "A"), (2, "B")].length * [(1, "A"), (2, "B")].length ∧
      net.AdjacencyMatrix_.data_.count 1 = [((1 : Nat), (2 : Nat)), (2, 1)].length ∧
      net.AdjacencyMatrix_.data_.count 0
        = [(1, "A"), (2, "B")].length * [(1, "A"), (2, "B")].length
          - [((1 : Nat), (2 : Nat)), (2, 1)].length :=
  ⟨by decide, by decide, by decide, by decide,
    readTGF_counts_edges [(1, "A"), (2, "B")] [(1, 2), (2, 1)] (by decide) (by decide)
      (by decide)⟩

/-- C20 as stated fails on the code: for the file `1 A`, `2 B`, `#`, `1 2` the
edge line `1 2` (id1 = 1, id2 = 2) leaves the cell [index(id1)][index(id2)],
column 0 and row 1, at 0, and `getParents(1)` is empty: it does not contain 2.
The line created the edge 1 → 2 instead: `getParents(2)` is `[1]`. -/
theorem tgf_edge_line_is_not_target_first :
    tgfFile [(1, "A"), (2, "B")] [(1, 2)] = tgfChain ∧
    Network.create.readTGF tgfChain = .ok chainNet ∧
    chainNet.getIndex 1 = .ok 0 ∧ chainNet.getIndex 2 = .ok 1 ∧
    chainNet.AdjacencyMatrix_.getData 0 1 = .ok 0 ∧
    chainNet.getParents 1 = .ok [] ∧
    chainNet.getParents 2 = .ok [1] := by
  decide

/-- C20, amended: in a trivial-graph file an edge line `id1 id2` is
source-then-target (`readTGF` calls `addEdge(id2, id1)`): it creates the edge
id1 → id2.  After reading a well-formed file into a newly constructed network,
for every edge line `id1 id2` the cell with column `index(id2)` and row
`index(id1)` reads 1 and `getParents(id2)` contains `id1`. -/
theorem readTGF_edge_line_is_source_first (nodes : List (Nat × String))
    (edges : List (Nat × Nat)) (id1 id2 : Nat)
    (hn : NodesWellFormed nodes) (he : EdgesDeclared nodes edges)
    (hmem : (id1, id2) ∈ edges) :
    ∃ net i1 i2 parents, Network.create.readTGF (tgfFile nodes edges) = .ok net ∧
      net.getIndex id1 = .ok i1 ∧ net.getIndex id2 = .ok i2 ∧
      net.AdjacencyMatrix_.getData i2 i1 = .ok 1 ∧
      net.getParents id2 = .ok parents ∧ id1 ∈ parents := by
  obtain ⟨hread, hc⟩ := Network.readTGF_tgfFile nodes edges hn he
  obtain ⟨i1, hi1⟩ := Network.ofNodes_known (he _ hmem).1
  obtain ⟨i2, hi2⟩ := Network.ofNodes_known (he _ hmem).2
  have hcp := hc.paint edges
  have hi1p : ((Network.ofNodes nodes).paint edges).getIndex id1 = .ok i1 := hi1
  have hi2p : ((Network.ofNodes nodes).paint edges).getIndex id2 = .ok i2 := hi2
  obtain ⟨hcell, hlt⟩ := hc.edgeCell_lt (e := (id1, id2)) hi1 hi2
  have hone : ((Network.ofNodes nodes).paint edges).AdjacencyMatrix_.data_[
      i2 + i1 * nodes.length]? = some 1 := by
    rw [Network.paint_data]
    have hnl : (Network.ofNodes nodes).NodeList_.length = nodes.length := by
      simp [Network.ofNodes]
    rw [hnl] at hcell
    rw [← hcell]
    exact foldl_set_one_mem _ _ _ (List.mem_map.mpr ⟨(id1, id2), hmem, rfl⟩) hlt
  have hl1 := (hc.index_lt hi1).1
  have hl2 := (hc.index_lt hi2).1
  have hnl : (Network.ofNodes nodes).NodeList_.length = nodes.length := by
    simp [Network.ofNodes]
  refine ⟨_, i1, i2, _, hread, hi1p, hi2p, ?_, Network.getParents_eq hcp hi2p, ?_⟩
  · rw [Matrix.getData_inRange _ (show i2 ≤ nodes.length by omega)
      (show i1 ≤ nodes.length by omega)]
    exact vecRead_eq_ok hone
  · refine List.mem_map.mpr ⟨i1, ?_, (hc.index_lt hi1).2⟩
    unfold Network.rowsWithOne
    refine List.mem_filter.mpr ⟨List.mem_range.mpr hl1, ?_⟩
    rw [decide_eq_true_eq]
    have hnl2 : ((Network.ofNodes nodes).paint edges).NodeList_.length = nodes.length := hnl
    rw [hnl2]
    exact hone

/-- Instance of the amended C20 on the file `1 A`, `2 B`, `#`, `1 2`. -/
theorem readTGF_edge_line_is_source_first_witness :
    NodesWellFormed [(1, "A"), (2, "B")] ∧ EdgesDeclared [(1, "A"), (2, "B")] [(1, 2)] ∧
    ((1 : Nat), (2 : Nat)) ∈ [((1 : Nat), (2 : Nat))] ∧
    ∃ net i1 i2 parents,
      Network.create.readTGF (tgfFile [(1, "A"), (2, "B")] [(1, 2)]) = .ok net ∧
      net.getIndex 1 = .ok i1 ∧ net.getIndex 2 = .ok i2 ∧
      net.AdjacencyMatrix_.getData i2 i1 = .ok 1 ∧
      net.getParents 2 = .ok parents ∧ 1 ∈ parents :=
  ⟨by decide, by decide, by decide,
    readTGF_edge_line_is_source_first [(1, "A"), (2, "B")] [(1, 2)] 1 2 (by decide)
      (by decide) (by decide)⟩

/-! ## Reading simple-interaction files -/

theorem extractString_middle (tok : String) (hn : IsToken tok) (r : List Char) (x : String) :
    extractString { rest := Char.ofNat 32 :: (tok.data ++ Char.ofNat 32 :: r), good := true } x
      = ({ rest := Char.ofNat 32 :: r, good := true }, tok) := by
  have hsp : isSpace (Char.ofNat 32) = true := by decide
  obtain ⟨hne, hall⟩ := hn
  have hstop := takeWhile_stop (fun ch => !isSpace ch) tok.data (Char.ofNat 32 :: r)
    (fun a ha => by simp [hall a ha])
    (fun c hc => by
      simp only [List.head?_cons, Option.some.injEq] at hc
      subst hc
      decide)
  cases hl : tok.data with
  | nil => exact absurd hl hne
  | cons c cs =>
    rw [hl] at hall hstop
    have hc : isSpace c = false := hall c (List.mem_cons_self _ _)
    have hdrop : List.dropWhile isSpace (Char.ofNat 32 :: (c :: cs ++ Char.ofNat 32 :: r))
        = c :: (cs ++ Char.ofNat 32 :: r) := by
      rw [List.dropWhile_cons, hsp, if_pos rfl, List.cons_append, List.dropWhile_cons, hc]
      rfl
    have hstop2 : List.takeWhile (fun ch => !isSpace ch) (c :: (cs ++ Char.ofNat 32 :: r))
          = c :: cs ∧
        List.dropWhile (fun ch => !isSpace ch) (c :: (cs ++ Char.ofNat 32 :: r))
          = Char.ofNat 32 :: r := hstop
    unfold extractString
    simp only [Bool.true_eq_false, if_false]
    rw [hdrop]
    simp only [hstop2.1, hstop2.2, List.isEmpty_cons, Bool.not_false]
    rw [← hl]

theorem Network.sifLine_sifRow (st : Network.SifLoop) (a b : Nat) (rel : String)
    (ha : a ≤ UINT_MAX) (hb : b ≤ UINT_MAX) (hr : IsToken rel) :
    Network.sifLine st (sifRow a rel b)
      = (st.net.addEdge b a >>= fun net =>
          pure { net := net, id1 := a, id2 := b, relation := rel }) := by
  unfold Network.sifLine sifRow IStream.ofString
  have e := extractUnsigned_field b hb [] (fun c h => by simp at h) st.id2
  rw [List.append_nil] at e
  simp only [extractUnsigned_field a ha _ blank_not_digit, List.isEmpty_cons, Bool.not_false,
    extractString_middle rel hr, extractUnsigned_skip_blank, e]

theorem Network.sifLoop_paint :
    ∀ (rows : List (Nat × String × Nat)) (st : Network.SifLoop), st.net.Coherent →
      (∀ r ∈ rows, IsToken r.2.1 ∧ (∃ i, st.net.getIndex r.1 = .ok i) ∧
        (∃ j, st.net.getIndex r.2.2 = .ok j)) →
      ∃ done, (sifFile rows).foldlM Network.sifLine st = .ok done ∧
        done.net = st.net.paint (sifEdges rows) := by
  intro rows
  induction rows with
  | nil =>
    intro st _ _
    exact ⟨st, rfl, rfl⟩
  | cons r rest ih =>
    intro st hc hk
    obtain ⟨htok, ⟨i, hi⟩, ⟨j, hj⟩⟩ := hk r (List.mem_cons_self _ _)
    have hstep : Network.sifLine st (sifRow r.1 r.2.1 r.2.2)
        = .ok { net := st.net.withCell j i 1, id1 := r.1, id2 := r.2.2, relation := r.2.1 } := by
      rw [Network.sifLine_sifRow st r.1 r.2.2 r.2.1 (hc.known_le hi) (hc.known_le hj) htok,
        Network.addEdge_known hc hj hi]
      rfl
    obtain ⟨done, hd, hnet⟩ := ih
      { net := st.net.withCell j i 1, id1 := r.1, id2 := r.2.2, relation := r.2.1 }
      (hc.withCell j i 1) (fun r2 h2 => hk r2 (List.mem_cons_of_mem _ h2))
    refine ⟨done, ?_, ?_⟩
    · unfold sifFile
      rw [List.map_cons, List.foldlM_cons, hstep]
      exact hd
    · rw [hnet]
      unfold sifEdges
      rw [List.map_cons, Network.paint_cons, Network.indexOf_of_getIndex hi,
        Network.indexOf_of_getIndex hj]

theorem Network.paint_parent {n : Network} (hn : n.Coherent) (edges : List (Nat × Nat))
    {id1 id2 i1 i2 : Nat} (hmem : (id1, id2) ∈ edges)
    (hi1 : n.getIndex id1 = .ok i1) (hi2 : n.getIndex id2 = .ok i2) :
    (n.paint edges).AdjacencyMatrix_.getData i2 i1 = .ok 1 ∧
    ∃ parents, (n.paint edges).getParents id2 = .ok parents ∧ id1 ∈ parents := by
  have hcp := hn.paint edges
  have hi2p : (n.paint edges).getIndex id2 = .ok i2 := hi2
  obtain ⟨hcell, hlt⟩ := hn.edgeCell_lt (e := (id1, id2)) hi1 hi2
  have hone : (n.paint edges).AdjacencyMatrix_.data_[i2 + i1 * n.NodeList_.length]?
      = some 1 := by
    rw [Network.paint_data, ← hcell]
    exact foldl_set_one_mem _ _ _ (List.mem_map.mpr ⟨(id1, id2), hmem, rfl⟩) hlt
  have hl1 := (hn.index_lt hi1).1
  have hl2 := (hn.index_lt hi2).1
  have hcols : (n.paint edges).AdjacencyMatrix_.colCount_ = n.NodeList_.length := hn.2.1
  have hrows : (n.paint edges).AdjacencyMatrix_.rowCount_ = n.NodeList_.length := hn.2.2.1
  refine ⟨?_, _, Network.getParents_eq hcp hi2p, ?_⟩
  · rw [Matrix.getData_inRange _ (show i2 ≤ (n.paint edges).AdjacencyMatrix_.colCount_ by omega)
      (show i1 ≤ (n.paint edges).AdjacencyMatrix_.rowCount_ by omega), hcols]
    exact vecRead_eq_ok hone
  · refine List.mem_map.mpr ⟨i1, ?_, (hn.index_lt hi1).2⟩
    unfold Network.rowsWithOne
    refine List.mem_filter.mpr ⟨List.mem_range.mpr hl1, ?_⟩
    rw [decide_eq_true_eq]
    exact hone

theorem Network.isOk_getIndex {n : Network} {id : Nat} (h : (n.getIndex id).isOk = true) :
    ∃ i, n.getIndex id = .ok i := by
  rcases n.getIndex_cases id with hi | hi
  · exact hi
  · rw [hi] at h
    cases h

theorem Network.paint_same (n : Network) (edges : List (Nat × Nat)) :
    (n.paint edges).SameExceptCells n := by
  refine ⟨rfl, rfl, rfl, rfl, rfl, rfl, rfl, rfl, rfl, rfl, ?_⟩
  rw [Network.paint_data]
  exact foldl_set_length _ _

/-! # Claims on simple-interaction files and on dispatch by extension -/

/-- C21 as stated fails on the code: on the two-node network read from the
node-attribute file `1 x A`, `2 x B`, the interaction line `1 pp 2` (id1 = 1,
id2 = 2) leaves `getParents(1)` empty, so it does not contain 2.  The line
created the edge 1 → 2 instead: `getParents(2)` is `[1]`.  The nodes are the
same before and after. -/
theorem sif_line_is_not_target_first :
    Network.create.readNA naPair = .ok pairNet ∧
    sifFile [(1, "pp", 2)] = sifChain ∧
    pairNet.readSIF sifChain = .ok chainNet ∧
    chainNet.NodeList_ = pairNet.NodeList_ ∧
    chainNet.getParents 1 = .ok [] ∧
    chainNet.getParents 2 = .ok [1] := by
  decide

/-- C21, amended: in a simple-interaction file a line `id1 relation id2` is
source-then-target (`readSIF` calls `addEdge(id2, id1)`): it adds the edge
id1 → id2.  On a network that satisfies the data-model invariant and knows the
ids of every line, `readSIF` on well-formed lines returns normally; afterwards,
for every line `id1 relation id2`, the cell with column `index(id2)` and row
`index(id1)` reads 1 and `getParents(id2)` contains `id1`; the node list, both
index maps and the dimensions and names of the adjacency matrix are unchanged. -/
theorem readSIF_line_is_source_first (n : Network) (rows : List (Nat × String × Nat))
    (id1 id2 : Nat) (relation : String) (hn : n.Coherent) (hk : n.SifKnown rows)
    (hmem : (id1, relation, id2) ∈ rows) :
    ∃ net i1 i2 parents, n.readSIF (sifFile rows) = .ok net ∧
      net.SameExceptCells n ∧
      net.getIndex id1 = .ok i1 ∧ net.getIndex id2 = .ok i2 ∧
      net.AdjacencyMatrix_.getData i2 i1 = .ok 1 ∧
      net.getParents id2 = .ok parents ∧ id1 ∈ parents := by
  obtain ⟨_, h1, h2⟩ := hk _ hmem
  obtain ⟨i1, hi1⟩ := Network.isOk_getIndex h1
  obtain ⟨i2, hi2⟩ := Network.isOk_getIndex h2
  have hne : n.NodeList_.isEmpty = false := by
    have hlt := (hn.index_lt hi1).1
    cases hl : n.NodeList_ with
    | nil => rw [hl] at hlt; cases hlt
    | cons a l => rfl
  obtain ⟨done, hd, hnet⟩ := Network.sifLoop_paint rows
    { net := n, id1 := 0, id2 := 0, relation := "" } hn
    (fun r hr => ⟨(hk r hr).1, Network.isOk_getIndex (hk r hr).2.1,
      Network.isOk_getIndex (hk r hr).2.2⟩)
  have hread : n.readSIF (sifFile rows) = .ok (n.paint (sifEdges rows)) := by
    unfold Network.readSIF
    rw [hne, hd]
    simp only [Bool.false_eq_true, if_false]
    rw [← hnet]
    rfl
  have hm2 : (id1, id2) ∈ sifEdges rows :=
    List.mem_map.mpr ⟨(id1, relation, id2), hmem, rfl⟩
  obtain ⟨hcell, parents, hp, hin⟩ := Network.paint_parent hn (sifEdges rows) hm2 hi1 hi2
  exact ⟨_, i1, i2, parents, hread, Network.paint_same n _, hi1, hi2, hcell, hp, hin⟩

/-- Instance of the amended C21 on the network read from `1 x A`, `2 x B` and
the interaction file with the single line `1 pp 2`. -/
theorem readSIF_line_is_source_first_witness :
    pairNet.Coherent ∧ pairNet.SifKnown [(1, "pp", 2)] ∧
    ((1 : Nat), "pp", (2 : Nat)) ∈ [((1 : Nat), "pp", (2 : Nat))] ∧
    ∃ net i1 i2 parents, pairNet.readSIF (sifFile [(1, "pp", 2)]) = .ok net ∧
      net.SameExceptCells pairNet ∧
      net.getIndex 1 = .ok i1 ∧ net.getIndex 2 = .ok i2 ∧
      net.AdjacencyMatrix_.getData i2 i1 = .ok 1 ∧
      net.getParents 2 = .ok parents ∧ 1 ∈ parents :=
  ⟨by decide, by decide, by decide,
    readSIF_line_is_source_first pairNet [(1, "pp", 2)] 1 2 "pp" (by decide) (by decide)
      (by decide)⟩

/-- C22: `readSIF` on a network with no nodes throws `std::invalid_argument`
("You have to read in a .na file beforehand.") for every file content, and the
network at the throw is the network before the call: nodes, index maps and
adjacency matrix are unchanged. -/
theorem readSIF_without_nodes_throws (n : Network) (lines : List String)
    (h : n.NodeList_ = []) :
    n.readSIF lines = .error (.threw "You have to read in a .na file beforehand." n) := by
  unfold Network.readSIF
  rw [h]
  rfl

/-- Instance of C22 on a newly constructed network and the file `1 pp 2`. -/
theorem readSIF_without_nodes_throws_witness :
    Network.create.NodeList_ = [] ∧
    Network.create.readSIF sifChain
      = .error (.threw "You have to read in a .na file beforehand." Network.create) :=
  ⟨by decide, readSIF_without_nodes_throws Network.create sifChain (by decide)⟩

/-- C23 fails on the code: the file name `graph.txt` has the extension `.txt`,
which is none of `.tgf`, `.na`, `.sif`, yet `readNetwork` does not throw.  The
subscript `ExtensionToIndex_[extension]` inserts the extension with the value 0,
so the file is read by `readTGF`: a newly constructed network reads the nodes
and the edge of the file, and an existing network loses its nodes. -/
theorem readNetwork_unknown_extension_reads_tgf :
    fileExtension "graph.txt" = ".txt" ∧
    mapFind Network.create.ExtensionToIndex_ ".txt" = none ∧
    Network.create.readNetwork "graph.txt" tgfChain
      = .ok { chainNet with
          ExtensionToIndex_ := [(".tgf", 0), (".na", 1), (".sif", 2), (".txt", 0)] } ∧
    (∃ net, chainNet.readNetwork "graph.txt" [] = .ok net ∧ net.NodeList_ = [] ∧
      net.AdjacencyMatrix_.getRowCount = 0 ∧
      mapFind net.ExtensionToIndex_ ".txt" = some 0) := by
  refine ⟨by decide, by decide, by decide, _, rfl, by decide, by decide, by decide⟩

/-- C24 fails on the code: after the two-node file `1 A`, `2 B`, `#`, `1 2`, a
second `readTGF` on the one-node file `7 C`, `#` leaves the entries of the
former nodes in both index maps: `getIndex(1)`, `getIndex(2)`, `getIndex("A")`
and `getIndex("B")` return normally although these ids and names occur only in
the first file, and `getIndex(2) = 1` is not a position of the node list.  The
same holds for `readNA` on `7 x C`. -/
theorem reread_keeps_old_index_entries :
    Network.create.readTGF tgfChain = .ok chainNet ∧
    chainNet.readTGF tgfSingle = .ok staleNet ∧
    chainNet.readNA naSingle = .ok staleNet ∧
    staleNet.NodeList_ = [{ first := 0, id := 7, name := "C" }] ∧
    staleNet.getIndex 1 = .ok 0 ∧ staleNet.getIndex 2 = .ok 1 ∧
    staleNet.getIndexByName "A" = .ok 0 ∧ staleNet.getIndexByName "B" = .ok 1 ∧
    ¬ (1 < staleNet.NodeList_.length) := by
  decide

/-! ## The adjacency matrix stays square and binary -/

theorem carries_raiseIn_bind {A B S : Type} {P : S → Prop} {proj : B → S} (s : S)
    (r : Except Error A) (f : A → Except (Failure S) B) (hs : P s)
    (hf : ∀ a, Carries P proj (f a)) : Carries P proj (raiseIn s r >>= f) := by
  cases r with
  | ok a => exact hf a
  | error e =>
    cases e with
    | invalidArgument msg => exact hs
    | vectorOutOfRange => exact True.intro

theorem carries_bind {A B S : Type} {P : S → Prop} {projA : A → S} {projB : B → S}
    (r : Except (Failure S) A) (f : A → Except (Failure S) B) (hr : Carries P projA r)
    (hf : ∀ a, P (projA a) → Carries P projB (f a)) : Carries P projB (r >>= f) := by
  cases r with
  | ok a => exact hf a hr
  | error e =>
    cases e with
    | threw msg s => exact hr
    | undefinedBehaviour => exact True.intro

theorem carries_foldlM {A B S : Type} {P : S → Prop} {proj : A → S}
    (f : A → B → Except (Failure S) A) (hf : ∀ a b, P (proj a) → Carries P proj (f a b)) :
    ∀ (l : List B) (a : A), P (proj a) → Carries P proj (l.foldlM f a) := by
  intro l
  induction l with
  | nil => intro a ha; exact ha
  | cons b rest ih =>
    intro a ha
    rw [List.foldlM_cons]
    exact carries_bind _ _ (hf a b ha) (fun a2 h2 => ih a2 h2)

theorem Network.SquareBinary.setCell {n : Network} (h : n.SquareBinary) {v : Nat}
    (hv : v = 0 ∨ v = 1) (col row : Nat) :
    Carries Network.SquareBinary id
      (n.withAdjacency (n.AdjacencyMatrix_.setData v col row)) := by
  unfold Matrix.setData
  by_cases hr : col > n.AdjacencyMatrix_.colCount_ ∨ row > n.AdjacencyMatrix_.rowCount_
  · rw [if_pos hr]
    exact h
  · rw [if_neg hr]
    unfold vecWrite
    by_cases hl : col + row * n.AdjacencyMatrix_.colCount_ < n.AdjacencyMatrix_.data_.length
    · rw [if_pos hl]
      obtain ⟨h1, h2, h3, h4⟩ := h
      refine ⟨h1, h2, ?_, ?_⟩
      · show (n.AdjacencyMatrix_.data_.set _ v).length = _
        rw [List.length_set]
        exact h3
      · intro x hx
        have hx2 : x ∈ n.AdjacencyMatrix_.data_.set
            (col + row * n.AdjacencyMatrix_.colCount_) v := hx
        rcases List.mem_or_eq_of_mem_set hx2 with hm | hm
        · exact h4 x hm
        · rw [hm]; exact hv
    · rw [if_neg hl]
      exact True.intro

theorem Network.SquareBinary.addEdge {n : Network} (h : n.SquareBinary) (id1 id2 : Nat) :
    Carries Network.SquareBinary id (n.addEdge id1 id2) := by
  unfold Network.addEdge
  exact carries_raiseIn_bind n _ _ h (fun col =>
    carries_raiseIn_bind n _ _ h (fun row => h.setCell (Or.inr rfl) col row))

theorem Network.SquareBinary.removeEdge {n : Network} (h : n.SquareBinary) (id1 id2 : Nat) :
    Carries Network.SquareBinary id (n.removeEdge id1 id2) := by
  unfold Network.removeEdge
  exact carries_raiseIn_bind n _ _ h (fun col =>
    carries_raiseIn_bind n _ _ h (fun row => h.setCell (Or.inl rfl) col row))

theorem Network.SquareBinary.cutParents {n : Network} (h : n.SquareBinary) (node : Nat) :
    Carries Network.SquareBinary id (n.cutParents node) := by
  unfold Network.cutParents
  refine carries_raiseIn_bind n _ _ h (fun parentIDs =>
    carries_raiseIn_bind n _ _ h (fun index => ?_))
  exact carries_foldlM _ (fun net p hnet =>
    carries_raiseIn_bind net _ _ hnet (fun col => Network.SquareBinary.setCell hnet
      (Or.inl rfl) col index)) parentIDs n h

theorem Network.SquareBinary.sifLine {st : Network.SifLoop} (h : st.net.SquareBinary)
    (line : String) :
    Carries Network.SquareBinary Network.SifLoop.net (Network.sifLine st line) := by
  unfold Network.sifLine
  exact carries_bind _ _ (h.addEdge _ _) (fun net hnet => hnet)

theorem Network.SquareBinary.readSIF {n : Network} (h : n.SquareBinary) (lines : List String) :
    Carries Network.SquareBinary id (n.readSIF lines) := by
  unfold Network.readSIF
  split
  · exact h
  · exact carries_bind _ _
      (carries_foldlM Network.sifLine (fun st line hst => Network.SquareBinary.sifLine hst line)
        lines { net := n, id1 := 0, id2 := 0, relation := "" } h)
      (fun done hd => hd)

theorem Network.SquareBinary.tgfEdgeLine {st : Network.EdgeLoop} (h : st.net.SquareBinary)
    (line : String) :
    Carries Network.SquareBinary Network.EdgeLoop.net (Network.tgfEdgeLine st line) := by
  unfold Network.tgfEdgeLine
  exact carries_bind _ _ (h.addEdge _ _) (fun net hnet => hnet)

theorem Network.push_keeps_matrix (st : Network.NodeLoop) (id1 : Nat) (name waste : String) :
    (st.push id1 name waste).net.AdjacencyMatrix_ = st.net.AdjacencyMatrix_ := rfl

theorem Network.finishNodes_squareBinary {st : Network.NodeLoop}
    (h6 : st.net.AdjacencyMatrix_.colCount_ = 0) (h7 : st.net.AdjacencyMatrix_.rowCount_ = 0)
    (h8 : st.net.AdjacencyMatrix_.data_ = []) :
    ∃ net, Network.finishNodes st = .ok net ∧ net.SquareBinary := by
  refine ⟨_, Network.finishNodes_eq h6 h7 h8, rfl, rfl, ?_, ?_⟩
  · show (List.replicate _ 0).length = _
    rw [List.length_replicate]
  · intro v hv
    have hv2 : v ∈ List.replicate (st.net.NodeList_.length * st.net.NodeList_.length) 0 := hv
    exact Or.inl (List.eq_of_mem_replicate hv2)

theorem Network.readTGF_squareBinary (n0 : Network) (lines : List String) :
    Carries Network.SquareBinary id (n0.readTGF lines) := by
  unfold Network.readTGF
  have hinv : ∀ st0 : Network.NodeLoop,
      (st0.net.AdjacencyMatrix_.colCount_ = 0 ∧ st0.net.AdjacencyMatrix_.rowCount_ = 0 ∧
        st0.net.AdjacencyMatrix_.data_ = []) →
      ∀ l : List String,
      ((l.foldl Network.tgfNodeLine st0).net.AdjacencyMatrix_.colCount_ = 0 ∧
        (l.foldl Network.tgfNodeLine st0).net.AdjacencyMatrix_.rowCount_ = 0 ∧
        (l.foldl Network.tgfNodeLine st0).net.AdjacencyMatrix_.data_ = []) := by
    intro st0 h0 l
    exact foldl_preserves (fun st : Network.NodeLoop =>
      st.net.AdjacencyMatrix_.colCount_ = 0 ∧ st.net.AdjacencyMatrix_.rowCount_ = 0 ∧
        st.net.AdjacencyMatrix_.data_ = []) Network.tgfNodeLine (fun st line hst => hst) l st0 h0
  obtain ⟨h6, h7, h8⟩ := hinv
    { net := { n0 with NodeList_ := [], AdjacencyMatrix_ := n0.AdjacencyMatrix_.clear },
      id1 := 0, name := "", waste := "", ids := "", index := 0, names := [] }
    ⟨rfl, rfl, rfl⟩ (lines.takeWhile (fun line => decide (line ≠ "#")))
  obtain ⟨net1, e1, hsb⟩ := Network.finishNodes_squareBinary h6 h7 h8
  simp only [e1, ok_bind2]
  exact carries_bind _ _
    (carries_foldlM Network.tgfEdgeLine
      (fun st line hst => Network.SquareBinary.tgfEdgeLine hst line) _ _ hsb)
    (fun done hd => hd)

theorem Network.readNA_squareBinary (n0 : Network) (lines : List String) :
    Carries Network.SquareBinary id (n0.readNA lines) := by
  unfold Network.readNA
  have hinv := foldl_preserves (fun st : Network.NodeLoop =>
      st.net.AdjacencyMatrix_.colCount_ = 0 ∧ st.net.AdjacencyMatrix_.rowCount_ = 0 ∧
        st.net.AdjacencyMatrix_.data_ = []) Network.naNodeLine (fun st line hst => hst)
      (lines.drop 1)
      { net := { n0 with NodeList_ := [], AdjacencyMatrix_ := n0.AdjacencyMatrix_.clear },
        id1 := 0, name := "", waste := "", ids := "", index := 0, names := [] }
      ⟨rfl, rfl, rfl⟩
  obtain ⟨h6, h7, h8⟩ := hinv
  obtain ⟨net1, e1, hsb⟩ := Network.finishNodes_squareBinary h6 h7 h8
  simp only [e1]
  exact hsb

theorem Network.Call.run_squareBinary (call : Network.Call) {n : Network}
    (h : n.SquareBinary) : Carries Network.SquareBinary id (call.run n) := by
  cases call with
  | addEdge id1 id2 => exact h.addEdge id1 id2
  | removeEdge id1 id2 => exact h.removeEdge id1 id2
  | cutParents i => exact h.cutParents i
  | readSIF lines => exact h.readSIF lines

/-- C25: in every network state reachable from a `readTGF` or `readNA` that
returned normally (on any prior network) by a sequence of `addEdge`,
`removeEdge`, `cutParents` and `readSIF` calls, each of which may return or
throw, the adjacency matrix has as many columns and as many rows as there are
nodes, holds one value per cell, every stored value is 0 or 1, and `getData`
returns 0 or 1 for every column and row below the node count. -/
theorem reachable_adjacency_square_binary (net : Network) (h : net.Reachable) :
    net.SquareBinary ∧
    ∀ col row, col < net.NodeList_.length → row < net.NodeList_.length →
      ∃ v, net.AdjacencyMatrix_.getData col row = .ok v ∧ (v = 0 ∨ v = 1) := by
  have hsb : net.SquareBinary := by
    induction h with
    | readTGF n0 net lines hread =>
      have := Network.readTGF_squareBinary n0 lines
      rw [hread] at this
      exact this
    | readNA n0 net lines hread =>
      have := Network.readNA_squareBinary n0 lines
      rw [hread] at this
      exact this
    | returned n net call _ hrun ih =>
      have := call.run_squareBinary ih
      rw [hrun] at this
      exact this
    | threw n net call msg _ hrun ih =>
      have := call.run_squareBinary ih
      rw [hrun] at this
      exact this
  refine ⟨hsb, ?_⟩
  intro col row hc hr
  obtain ⟨h1, h2, h3, h4⟩ := hsb
  have h1b : net.AdjacencyMatrix_.colCount_ = net.NodeList_.length := h1
  have h2b : net.AdjacencyMatrix_.rowCount_ = net.NodeList_.length := h2
  have hlt : col + row * net.AdjacencyMatrix_.colCount_ < net.AdjacencyMatrix_.data_.length := by
    rw [h3, h1b]
    exact flat_lt hc hr
  refine ⟨_, ?_, h4 _ (List.get_mem _ _ hlt)⟩
  rw [Matrix.getData_inRange _ (by omega) (by omega)]
  exact vecRead_of_lt _ hlt

/-- Instance of C25 on the state reached by reading `1 A`, `2 B`, `#`, `1 2`
into a newly constructed network and then calling `addEdge(1, 2)`. -/
theorem reachable_adjacency_square_binary_witness :
    cycleNet.Reachable ∧ cycleNet.SquareBinary ∧
    ∀ col row, col < cycleNet.NodeList_.length → row < cycleNet.NodeList_.length →
      ∃ v, cycleNet.AdjacencyMatrix_.getData col row = .ok v ∧ (v = 0 ∨ v = 1) :=
  have hreach : cycleNet.Reachable :=
    Network.Reachable.returned chainNet cycleNet (.addEdge 1 2)
      (Network.Reachable.readTGF Network.create chainNet tgfChain (by decide)) (by decide)
  ⟨hreach, reachable_adjacency_square_binary cycleNet hreach⟩

/-! ## The loop of one EM run -/

theorem EM.SameSettings.refl {S D : Type} (a : EM S D) : a.SameSettings a :=
  ⟨rfl, rfl, rfl⟩

theorem EM.SameSettings.trans {S D : Type} {a b c : EM S D} (h1 : a.SameSettings b)
    (h2 : b.SameSettings c) : a.SameSettings c :=
  ⟨h1.1.trans h2.1, h1.2.1.trans h2.2.1, h1.2.2.trans h2.2.2⟩

theorem EM.iterate_total {S D : Type} (P : EMPhases S D) :
    ∀ (fuel : Nat) (em : EM S D) (d : D) (runs : Nat),
      em.maxRuns_ ≤ fuel + runs → runs ≤ em.maxRuns_ →
      ∃ em2 d2 r, EM.iterate P fuel em d runs = some (em2, d2, r) ∧ r ≤ em.maxRuns_ ∧
        (r < em.maxRuns_ → P.gt d2 em.differenceThreshold_ = false) ∧
        em2.SameSettings em ∧ em2.method_ = em.method_ := by
  intro fuel
  induction fuel with
  | zero =>
    intro em d runs hf hr
    refine ⟨em, d, runs, ?_, hr, ?_, EM.SameSettings.refl em, rfl⟩
    · unfold EM.iterate
      rw [if_neg (by omega)]
    · intro hlt
      omega
  | succ fuel ih =>
    intro em d runs hf hr
    by_cases hc : P.gt d em.differenceThreshold_ = true ∧ runs < em.maxRuns_
    · obtain ⟨em2, d2, r, e, h1, h2, h3, h4⟩ := ih
        { em with network_ := (P.mPhase (P.ePhase em.network_)).1 }
        (P.mPhase (P.ePhase em.network_)).2 (runs + 1)
        (show em.maxRuns_ ≤ fuel + (runs + 1) by omega) hc.2
      refine ⟨em2, d2, r, ?_, h1, h2, h3, h4⟩
      unfold EM.iterate
      rw [if_pos hc]
      exact e
    · refine ⟨em, d, runs, ?_, hr, ?_, EM.SameSettings.refl em, rfl⟩
      · unfold EM.iterate
        rw [if_neg hc]
      · intro hlt
        cases hg : P.gt d em.differenceThreshold_ with
        | false => rfl
        | true => exact absurd ⟨hg, hlt⟩ hc

theorem replicate_pairs_flatten (k : Nat) (log : List EMCall) :
    (log ++ [EMCall.ePhase] ++ [EMCall.mPhase]) ++
        (List.replicate k [EMCall.ePhase, EMCall.mPhase]).flatten
      = log ++ (List.replicate (k + 1) [EMCall.ePhase, EMCall.mPhase]).flatten := by
  rw [List.replicate_succ, List.flatten_cons]
  simp

theorem EM.iterate_log {S D : Type} (P : EMPhases S D) :
    ∀ (fuel : Nat) (em : EM (S × List EMCall) D) (d : D) (runs : Nat)
      (em2 : EM (S × List EMCall) D) (d2 : D) (r : Nat),
      EM.iterate P.logged fuel em d runs = some (em2, d2, r) →
      runs ≤ r ∧ em2.network_.2 = em.network_.2 ++
        (List.replicate (r - runs) [EMCall.ePhase, EMCall.mPhase]).flatten := by
  intro fuel
  induction fuel with
  | zero =>
    intro em d runs em2 d2 r h
    unfold EM.iterate at h
    split at h
    · cases h
    · cases h
      refine ⟨Nat.le_refl _, ?_⟩
      rw [Nat.sub_self]
      simp
  | succ fuel ih =>
    intro em d runs em2 d2 r h
    unfold EM.iterate at h
    split at h
    · obtain ⟨h1, h2⟩ := ih _ _ _ _ _ _ h
      refine ⟨by omega, ?_⟩
      rw [h2]
      have hk : r - runs = (r - (runs + 1)) + 1 := by omega
      rw [hk]
      exact replicate_pairs_flatten _ _
    · cases h
      refine ⟨Nat.le_refl _, ?_⟩
      rw [Nat.sub_self]
      simp

theorem EM.initalise_logged {S D : Type} (P : EMPhases S D) (em : EM (S × List EMCall) D) :
    (EM.initalise P.logged em).network_.2 = em.network_.2 ++ EM.runCalls em.method_ 0 ∧
    (EM.initalise P.logged em).SameSettings em ∧
    (EM.initalise P.logged em).method_ = em.method_ := by
  unfold EM.initalise EM.runCalls
  cases hm : em.method_ with
  | zero => exact ⟨by simp [EMPhases.logged], ⟨rfl, rfl, rfl⟩, rfl⟩
  | succ k =>
    cases k with
    | zero => exact ⟨by simp [EMPhases.logged], ⟨rfl, rfl, rfl⟩, rfl⟩
    | succ j => exact ⟨by simp, ⟨rfl, rfl, rfl⟩, hm⟩

theorem EM.initalise_settings {S D : Type} (P : EMPhases S D) (em : EM S D) :
    (EM.initalise P em).SameSettings em ∧ (EM.initalise P em).method_ = em.method_ := by
  unfold EM.initalise
  split
  · next h => exact ⟨⟨rfl, rfl, rfl⟩, rfl⟩
  · next h => exact ⟨⟨rfl, rfl, rfl⟩, rfl⟩
  · exact ⟨⟨rfl, rfl, rfl⟩, rfl⟩

theorem EM.runCalls_append (method r : Nat) :
    EM.runCalls method 0 ++ (List.replicate r [EMCall.ePhase, EMCall.mPhase]).flatten
      = EM.runCalls method r := by
  unfold EM.runCalls
  simp

theorem EM.run_total {S D : Type} (P : EMPhases S D) (fuel : Nat) (em : EM S D)
    (hf : em.maxRuns_ ≤ fuel) :
    ∃ em2 d r, EM.runEMIterations_ P fuel em = some (em2, d, r) ∧ r ≤ em.maxRuns_ ∧
      (r < em.maxRuns_ → P.gt d em.differenceThreshold_ = false) ∧
      em2.SameSettings em ∧ em2.method_ = em.method_ := by
  obtain ⟨hs, hm⟩ := EM.initalise_settings P em
  obtain ⟨em2, d, r, e, h1, h2, h3, h4⟩ := EM.iterate_total P fuel (EM.initalise P em)
    P.infinity 0 (by rw [hs.2.2]; omega) (Nat.zero_le _)
  rw [hs.2.2] at h1 h2
  rw [hs.2.1] at h2
  exact ⟨em2, d, r, e, h1, h2, h3.trans hs, h4.trans hm⟩

theorem EM.run_logged {S D : Type} (P : EMPhases S D) (fuel : Nat)
    (em : EM (S × List EMCall) D) (hf : em.maxRuns_ ≤ fuel) :
    ∃ em2 d r, EM.runEMIterations_ P.logged fuel em = some (em2, d, r) ∧ r ≤ em.maxRuns_ ∧
      (r < em.maxRuns_ → P.gt d em.differenceThreshold_ = false) ∧
      em2.SameSettings em ∧ em2.method_ = em.method_ ∧
      em2.network_.2 = em.network_.2 ++ EM.runCalls em.method_ r := by
  obtain ⟨em2, d, r, e, h1, h2, h3, h4⟩ := EM.run_total P.logged fuel em hf
  refine ⟨em2, d, r, e, h1, h2, h3, h4, ?_⟩
  obtain ⟨_, hlog⟩ := EM.iterate_log P fuel _ _ _ _ _ _ e
  rw [hlog, (EM.initalise_logged P em).1, List.append_assoc, Nat.sub_zero,
    EM.runCalls_append]

/-! # Claims on the control flow of the learner -/

/-- C26: for every network state, every choice of phases and every observation
table without a -1 entry, `performEM` returns and makes exactly one call into
the phases, an M-phase (so no E-phase and no initialisation); the network is
the one that this M-phase leaves, `getNumberOfRuns()` returns 1 and
`getDifference()` the value of the M-phase, whatever the threshold, the
iteration cap and the values of the other members are. -/
theorem performEM_complete_data_single_mPhase {S D : Type} (P : EMPhases S D) (fuel : Nat)
    (em : EM (S × List EMCall) D) (h : em.observations_.contains (-1) = false) :
    ∃ em2, EM.performEM P.logged fuel em = some em2 ∧
      em2.network_.2 = em.network_.2 ++ [EMCall.mPhase] ∧
      em2.network_.1 = (P.mPhase em.network_.1).1 ∧
      em2.getNumberOfRuns = 1 ∧
      em2.getDifference = (P.mPhase em.network_.1).2 := by
  refine ⟨{ em with
    network_ := (P.logged.mPhase em.network_).1,
    finalDifference_ := (P.logged.mPhase em.network_).2,
    neededRuns_ := 1 }, ?_, rfl, rfl, rfl, rfl⟩
  unfold EM.performEM
  rw [if_neg (by rw [h]; exact Bool.false_ne_true)]

/-- Instance of C26 on the counting phases and a 2 x 2 table of 0 and 1. -/
theorem performEM_complete_data_single_mPhase_witness :
    (learnerStart obsComplete).observations_.contains (-1) = false ∧
    ∃ em2, EM.performEM countingPhases.logged 0 (learnerStart obsComplete) = some em2 ∧
      em2.network_.2 = (learnerStart obsComplete).network_.2 ++ [EMCall.mPhase] ∧
      em2.network_.1 = (countingPhases.mPhase (learnerStart obsComplete).network_.1).1 ∧
      em2.getNumberOfRuns = 1 ∧
      em2.getDifference = (countingPhases.mPhase (learnerStart obsComplete).network_.1).2 :=
  ⟨by decide,
    performEM_complete_data_single_mPhase countingPhases 0 (learnerStart obsComplete)
      (by decide)⟩

/-- C27: for every threshold, every iteration cap `maxRuns_` (0 included) and
every choice of phases, `runEMIterations_` returns: the loop needs no more than
`maxRuns_` passes of its body.  The calls made are the initialisation selected
by `method_` followed by exactly `r` pairs E-phase, M-phase, where `r` is the
returned run count; `r <= maxRuns_`, and if `r < maxRuns_` the returned
difference is not greater than the threshold. -/
theorem runEMIterations_within_cap {S D : Type} (P : EMPhases S D) (fuel : Nat)
    (em : EM (S × List EMCall) D) (hf : em.maxRuns_ ≤ fuel) :
    ∃ em2 d r, EM.runEMIterations_ P.logged fuel em = some (em2, d, r) ∧
      r ≤ em.maxRuns_ ∧
      (r < em.maxRuns_ → P.gt d em.differenceThreshold_ = false) ∧
      em2.network_.2 = em.network_.2 ++ EM.runCalls em.method_ r := by
  obtain ⟨em2, d, r, e, h1, h2, _, _, h5⟩ := EM.run_logged P fuel em hf
  exact ⟨em2, d, r, e, h1, h2, h5⟩

/-- Instance of C27 on the counting phases with threshold 0 and cap 10: the run
stops after 3 pairs. -/
theorem runEMIterations_within_cap_witness :
    (learnerStart obsMissing).maxRuns_ ≤ 10 ∧
    (EM.runEMIterations_ countingPhases.logged 10 (learnerStart obsMissing)).map
      (fun out => (out.2.1, out.2.2)) = some (Amount.finite 0, 3) ∧
    ∃ em2 d r, EM.runEMIterations_ countingPhases.logged 10 (learnerStart obsMissing)
        = some (em2, d, r) ∧
      r ≤ (learnerStart obsMissing).maxRuns_ ∧
      (r < (learnerStart obsMissing).maxRuns_ →
        countingPhases.gt d (learnerStart obsMissing).differenceThreshold_ = false) ∧
      em2.network_.2 = (learnerStart obsMissing).network_.2 ++
        EM.runCalls (learnerStart obsMissing).method_ r :=
  ⟨by decide, by decide,
    runEMIterations_within_cap countingPhases 10 (learnerStart obsMissing) (by decide)⟩

/-! ## Selection of the initialisation method -/

theorem EM.maxMethodStep_eq {S D : Type} (P : EMPhases S D) (fuel : Nat) (st : EM.MaxLoop S D)
    (method : Nat) (ran : EM S D × D × Nat)
    (hrun : EM.runEMIterations_ P fuel { st.em with method_ := method } = some ran) :
    EM.maxMethodStep P fuel st method = some
      { em := { ran.1 with
          network_ := (P.calculateLikelihoodOfTheData ran.1.network_ ran.1.observations_).1 },
        maxprob :=
          if P.gt (P.calculateLikelihoodOfTheData ran.1.network_ ran.1.observations_).2
            st.maxprob = true
          then (P.calculateLikelihoodOfTheData ran.1.network_ ran.1.observations_).2
          else st.maxprob,
        maxmethod :=
          if P.gt (P.calculateLikelihoodOfTheData ran.1.network_ ran.1.observations_).2
            st.maxprob = true
          then method else st.maxmethod,
        prob := (P.calculateLikelihoodOfTheData ran.1.network_ ran.1.observations_).2 } := by
  unfold EM.maxMethodStep
  rw [hrun]
  simp only [Option.bind_eq_bind, Option.some_bind]
  split <;> rfl

theorem countP_pairs (r : Nat) :
    (List.replicate r [EMCall.ePhase, EMCall.mPhase]).flatten.countP EMCall.isInitalise = 0 := by
  induction r with
  | zero => rfl
  | succ k ih =>
    rw [List.replicate_succ, List.flatten_cons, List.countP_append, ih]
    rfl

theorem EM.countP_runCalls {method : Nat} (h : method = 0 ∨ method = 1) (r : Nat) :
    (EM.runCalls method r).countP EMCall.isInitalise = 1 := by
  unfold EM.runCalls
  rw [List.countP_append, countP_pairs]
  rcases h with h | h <;> subst h <;> rfl

theorem EM.maxMethodStep_logged {S D : Type} (P : EMPhases S D) (fuel : Nat)
    (st : EM.MaxLoop (S × List EMCall) D) (method : Nat) (hf : st.em.maxRuns_ ≤ fuel) :
    ∃ st2 r, EM.maxMethodStep P.logged fuel st method = some st2 ∧
      (st2.maxmethod = method ∨ st2.maxmethod = st.maxmethod) ∧
      st2.em.SameSettings st.em ∧ r ≤ st.em.maxRuns_ ∧
      st2.em.network_.2 = st.em.network_.2 ++
        (EM.runCalls method r ++ [EMCall.calculateLikelihoodOfTheData]) := by
  obtain ⟨em0, d0, r0, e0, hr0, _, hs0, _, hl0⟩ :=
    EM.run_logged P fuel { st.em with method_ := method } hf
  refine ⟨_, r0, EM.maxMethodStep_eq P.logged fuel st method _ e0, ?_, hs0, hr0, ?_⟩
  · dsimp only
    split
    · exact Or.inl rfl
    · exact Or.inr rfl
  · show em0.network_.2 ++ [EMCall.calculateLikelihoodOfTheData] = _
    rw [hl0]
    simp only [List.append_assoc]

theorem EM.getMaxMethod_logged {S D : Type} (P : EMPhases S D) (fuel : Nat)
    (em : EM (S × List EMCall) D) (hf : em.maxRuns_ ≤ fuel) :
    ∃ sel r0 r1, EM.getMaxMethod_ P.logged fuel em = some sel ∧
      (sel.2 = 0 ∨ sel.2 = 1) ∧ sel.1.SameSettings em ∧
      r0 ≤ em.maxRuns_ ∧ r1 ≤ em.maxRuns_ ∧
      sel.1.network_.2 = em.network_.2 ++
        (EM.runCalls 0 r0 ++ [EMCall.calculateLikelihoodOfTheData]) ++
        (EM.runCalls 1 r1 ++ [EMCall.calculateLikelihoodOfTheData]) := by
  obtain ⟨st0, r0, e0, hm0, hs0, hr0, hl0⟩ := EM.maxMethodStep_logged P fuel
    { em := em, maxprob := P.logged.zero, maxmethod := 0, prob := P.logged.zero } 0 hf
  obtain ⟨st1, r1, e1, hm1, hs1, hr1, hl1⟩ := EM.maxMethodStep_logged P fuel st0 1
    (by rw [hs0.2.2]; exact hf)
  refine ⟨(st1.em, st1.maxmethod), r0, r1, ?_, ?_, hs1.trans hs0, hr0, ?_, ?_⟩
  · unfold EM.getMaxMethod_
    simp only [List.foldlM_cons, List.foldlM_nil, e0, Option.bind_eq_bind, Option.some_bind,
      e1]
    rfl
  · rcases hm1 with h | h
    · exact Or.inr h
    · rcases hm0 with h0 | h0
      · exact Or.inl (h.trans h0)
      · exact Or.inl (h.trans h0)
  · rw [hs0.2.2] at hr1
    exact hr1
  · show st1.em.network_.2 = _
    rw [hl1, hl0]

/-- C28 as stated fails on the code: with the counting phases, threshold 0, at
most 10 runs and a table holding a -1, `performEM` makes three runs of the EM
iteration, not two: the log holds three initialisations, the third one after
the second likelihood computation.  The selection run of the winning method 0
returned the difference 0 after 3 passes of the loop; the learner reports the
difference -2 and the run count 1, the values of the third run. -/
theorem performEM_runs_a_third_time :
    obsMissing.contains (-1) = true ∧
    (EM.getMaxMethod_ countingPhases.logged 10 (learnerStart obsMissing)).map Prod.snd
      = some 0 ∧
    (EM.runEMIterations_ countingPhases.logged 10 (learnerStart obsMissing)).map
      (fun out => (out.2.1, out.2.2)) = some (Amount.finite 0, 3) ∧
    (EM.performEM countingPhases.logged 10 (learnerStart obsMissing)).map
      (fun em => (em.network_.2, em.getDifference, em.getNumberOfRuns))
      = some ([EMCall.initaliseAssumingUniformDistribution,
          EMCall.ePhase, EMCall.mPhase, EMCall.ePhase, EMCall.mPhase,
          EMCall.ePhase, EMCall.mPhase,
          EMCall.calculateLikelihoodOfTheData,
          EMCall.initaliseAccordingToInitialDistribution,
          EMCall.ePhase, EMCall.mPhase,
          EMCall.calculateLikelihoodOfTheData,
          EMCall.initaliseAssumingUniformDistribution,
          EMCall.ePhase, EMCall.mPhase], Amount.finite (-2), 1) := by
  decide

/-- C28, amended: when the observation table contains a -1, `performEM` returns
after exactly three runs of the EM iteration: one with method 0 and one with
method 1, each followed by a likelihood computation, and one more with the
method that `getMaxMethod_` returned.  The reported difference and run count are
the values returned by this third run. -/
theorem performEM_missing_data_three_runs {S D : Type} (P : EMPhases S D) (fuel : Nat)
    (em : EM (S × List EMCall) D) (h : em.observations_.contains (-1) = true)
    (hf : em.maxRuns_ ≤ fuel) :
    ∃ sel ran em2 r0 r1, EM.getMaxMethod_ P.logged fuel em = some sel ∧
      (sel.2 = 0 ∨ sel.2 = 1) ∧
      EM.runEMIterations_ P.logged fuel { sel.1 with method_ := sel.2 } = some ran ∧
      EM.performEM P.logged fuel em = some em2 ∧
      em2.getDifference = ran.2.1 ∧ em2.getNumberOfRuns = ran.2.2 ∧
      em2.network_.2 = em.network_.2 ++
        (EM.runCalls 0 r0 ++ [EMCall.calculateLikelihoodOfTheData]) ++
        (EM.runCalls 1 r1 ++ [EMCall.calculateLikelihoodOfTheData]) ++
        EM.runCalls sel.2 ran.2.2 ∧
      (em2.network_.2.drop em.network_.2.length).countP EMCall.isInitalise = 3 := by
  obtain ⟨sel, r0, r1, esel, hm, hs, _, _, hl⟩ := EM.getMaxMethod_logged P fuel em hf
  obtain ⟨em3, d, r, e3, _, _, _, _, hl3⟩ := EM.run_logged P fuel
    { sel.1 with method_ := sel.2 } (by show sel.1.maxRuns_ ≤ fuel; rw [hs.2.2]; exact hf)
  have hlog : em3.network_.2 = em.network_.2 ++
      (EM.runCalls 0 r0 ++ [EMCall.calculateLikelihoodOfTheData]) ++
      (EM.runCalls 1 r1 ++ [EMCall.calculateLikelihoodOfTheData]) ++ EM.runCalls sel.2 r := by
    rw [hl3]
    show sel.1.network_.2 ++ _ = _
    rw [hl]
  refine ⟨sel, (em3, d, r), { em3 with finalDifference_ := d, neededRuns_ := r }, r0, r1,
    esel, hm, e3, ?_, rfl, rfl, hlog, ?_⟩
  · unfold EM.performEM
    rw [if_pos h]
    simp only [esel, Option.bind_eq_bind, Option.some_bind, e3]
    rfl
  · show (em3.network_.2.drop em.network_.2.length).countP EMCall.isInitalise = 3
    rw [hlog]
    simp only [List.append_assoc, List.drop_left, List.countP_append,
      EM.countP_runCalls (Or.inl rfl), EM.countP_runCalls (Or.inr rfl), EM.countP_runCalls hm]
    rfl

/-- Instance of the amended C28 on the counting phases, threshold 0, at most 10
runs and a table holding a -1. -/
theorem performEM_missing_data_three_runs_witness :
    (learnerStart obsMissing).observations_.contains (-1) = true ∧
    (learnerStart obsMissing).maxRuns_ ≤ 10 ∧
    ∃ sel ran em2 r0 r1,
      EM.getMaxMethod_ countingPhases.logged 10 (learnerStart obsMissing) = some sel ∧
      (sel.2 = 0 ∨ sel.2 = 1) ∧
      EM.runEMIterations_ countingPhases.logged 10 { sel.1 with method_ := sel.2 } = some ran ∧
      EM.performEM countingPhases.logged 10 (learnerStart obsMissing) = some em2 ∧
      em2.getDifference = ran.2.1 ∧ em2.getNumberOfRuns = ran.2.2 ∧
      em2.network_.2 = (learnerStart obsMissing).network_.2 ++
        (EM.runCalls 0 r0 ++ [EMCall.calculateLikelihoodOfTheData]) ++
        (EM.runCalls 1 r1 ++ [EMCall.calculateLikelihoodOfTheData]) ++
        EM.runCalls sel.2 ran.2.2 ∧
      (em2.network_.2.drop (learnerStart obsMissing).network_.2.length).countP
        EMCall.isInitalise = 3 :=
  ⟨by decide, by decide,
    performEM_missing_data_three_runs countingPhases 10 (learnerStart obsMissing) (by decide)
      (by decide)⟩

theorem Matrix.count_eq (m : Matrix Int) {col row : Nat} (hs : m.Sized)
    (hc : col < m.colCount_) (hr : row < m.rowCount_) :
    m.data_[col + row * m.colCount_]? = some (m.count col row) := by
  have hlt : col + row * m.colCount_ < m.data_.length := by
    rw [hs]; exact flat_lt hc hr
  unfold Matrix.count
  rw [List.getElem?_eq_getElem hlt]
  rfl

theorem Matrix.operatorCallConst_count (m : Matrix Int) {col row : Nat} (hs : m.Sized)
    (hc : col < m.colCount_) (hr : row < m.rowCount_) :
    m.operatorCallConst col row = .ok (m.count col row) := by
  unfold Matrix.operatorCallConst
  rw [if_neg (by omega)]
  exact vecRead_eq_ok (m.count_eq hs hc hr)

theorem Matrix.rowSum_loop (m : Matrix Int) (row : Nat) (hs : m.Sized)
    (hr : row < m.rowCount_) :
    ∀ (count lo : Nat) (acc : Int), lo + count ≤ m.colCount_ →
      forUpFrom (fun col sum => do
          let cell ← vecRead m.data_ (col + row * m.colCount_)
          pure (sum + cell)) lo count acc
        = .ok (acc + ((List.range' lo count).map (fun col => m.count col row)).sum) := by
  intro count
  induction count with
  | zero =>
    intro lo acc _
    simp [forUpFrom]
  | succ k ih =>
    intro lo acc hle
    have hstep : (fun col sum => do
          let cell ← vecRead m.data_ (col + row * m.colCount_)
          pure (sum + cell) : Nat → Int → Except Error Int) lo acc
        = .ok (acc + m.count lo row) := by
      show (vecRead m.data_ (lo + row * m.colCount_) >>= fun cell => pure (acc + cell)) = _
      rw [vecRead_eq_ok (m.count_eq hs (show lo < m.colCount_ by omega) hr)]
      rfl
    rw [forUpFrom_succ_ok hstep, ih (lo + 1) _ (by omega)]
    simp only [List.range'_succ, List.map_cons, List.sum_cons]
    rw [Int.add_assoc]

theorem Matrix.calculateRowSum_eq (m : Matrix Int) {row : Nat} (hs : m.Sized)
    (hr : row < m.rowCount_) : m.calculateRowSum row = .ok (m.rowTotal row) := by
  unfold Matrix.calculateRowSum forUp
  rw [Matrix.rowSum_loop m row hs hr _ 0 0 (by omega)]
  unfold Matrix.rowTotal
  rw [List.range_eq_range', Nat.sub_zero, Int.zero_add]

theorem NodeTables.getProbability_inRange (n : NodeTables) {col row cc rc : Nat}
    (h1 : n.probabilityMatrix.colCount_ = cc) (h2 : n.probabilityMatrix.rowCount_ = rc)
    (hc : col < cc) (hr : row < rc) :
    n.getProbability col row = vecRead n.probabilityMatrix.data_ (col + row * cc) := by
  unfold NodeTables.getProbability
  rw [Matrix.operatorCall_inRange _ (by omega) (by omega), h1]

theorem EM.Likelihood.setProbability_ok (st : EM.Likelihood) (value : ℚ) {col row cc rc : Nat}
    (hsh : st.Shaped cc rc) (hc : col < cc) (hr : row < rc) :
    ∃ st1, st.withNode (st.n.setProbability value col row) = .ok st1 ∧ st1.Shaped cc rc ∧
      st1.counter = st.counter ∧ st1.difference = st.difference ∧
      st1.n.probabilityMatrix.data_ = st.n.probabilityMatrix.data_.set (col + row * cc) value := by
  obtain ⟨h1, h2, h3⟩ := hsh
  subst h1 h2
  have hs : st.n.probabilityMatrix.Sized := h3
  refine ⟨{ st with n := { st.n with probabilityMatrix :=
      { st.n.probabilityMatrix with
        data_ := st.n.probabilityMatrix.data_.set
          (col + row * st.n.probabilityMatrix.colCount_) value } } },
    ?_, ⟨rfl, rfl, ?_⟩, rfl, rfl, rfl⟩
  · unfold NodeTables.setProbability
    rw [Matrix.setData_inRange _ value hs hc hr]
    rfl
  · show (st.n.probabilityMatrix.data_.set _ value).length = _
    rw [List.length_set]
    exact h3

theorem setInsert_mem {T : Type} [LinearOrder T] (x v : T) :
    ∀ l : List T, v ∈ setInsert x l ↔ v = x ∨ v ∈ l := by
  intro l
  induction l with
  | nil => simp [setInsert]
  | cons y ys ih =>
    unfold setInsert
    split
    · simp
    · split
      · rw [List.mem_cons, ih, List.mem_cons]
        tauto
      · next h1 h2 =>
        have hxy : x = y := le_antisymm (not_lt.mp h2) (not_lt.mp h1)
        subst hxy
        simp

theorem setInsert_sorted {T : Type} [LinearOrder T] (x : T) :
    ∀ l : List T, l.Sorted (· < ·) → (setInsert x l).Sorted (· < ·) := by
  intro l
  induction l with
  | nil => intro _; simp [setInsert]
  | cons y ys ih =>
    intro hs
    have hy := List.sorted_cons.mp hs
    unfold setInsert
    split
    · next h =>
      refine List.sorted_cons.mpr ⟨?_, hs⟩
      intro b hb
      rcases List.mem_cons.mp hb with hb | hb
      · rw [hb]; exact h
      · exact lt_trans h (hy.1 b hb)
    · split
      · next h1 h2 =>
        refine List.sorted_cons.mpr ⟨?_, ih hy.2⟩
        intro b hb
        rcases (setInsert_mem x b ys).mp hb with hb | hb
        · rw [hb]; exact h2
        · exact hy.1 b hb
      · exact hs

theorem uniqueLoop {T : Type} [LinearOrder T] (d : List T) (f : Nat → Nat) (keep : T → Prop)
    [DecidablePred keep] :
    ∀ (count lo : Nat) (acc : List T),
      (∀ i, lo ≤ i → i < lo + count → f i < d.length) → acc.Sorted (· < ·) →
      ∃ l, forUpFrom (fun i tempSet => do
            let value ← vecRead d (f i)
            if keep value then pure (setInsert value tempSet) else pure tempSet) lo count acc
          = .ok l ∧ l.Sorted (· < ·) ∧
        ∀ v, v ∈ l ↔ v ∈ acc ∨ (keep v ∧ ∃ i, lo ≤ i ∧ i < lo + count ∧ d[f i]? = some v) := by
  intro count
  induction count with
  | zero =>
    intro lo acc _ hs
    refine ⟨acc, rfl, hs, ?_⟩
    intro v
    constructor
    · exact Or.inl
    · rintro (h | ⟨_, i, h1, h2, _⟩)
      · exact h
      · omega
  | succ k ih =>
    intro lo acc hin hs
    have hlt := hin lo (Nat.le_refl _) (by omega)
    have hread : vecRead d (f lo) = .ok (d.get ⟨f lo, hlt⟩) := vecRead_of_lt d hlt
    have hget : d[f lo]? = some (d.get ⟨f lo, hlt⟩) := List.getElem?_eq_getElem hlt
    by_cases hk : keep (d.get ⟨f lo, hlt⟩)
    · have hstep : (fun i tempSet => do
            let value ← vecRead d (f i)
            if keep value then pure (setInsert value tempSet) else pure tempSet :
            Nat → List T → Except Error (List T)) lo acc
          = .ok (setInsert (d.get ⟨f lo, hlt⟩) acc) := by
        show (vecRead d (f lo) >>= fun value =>
          if keep value then pure (setInsert value acc) else pure acc) = _
        rw [hread]
        show (if keep (d.get ⟨f lo, hlt⟩) then _ else _) = _
        rw [if_pos hk]
        rfl
      obtain ⟨l, e, hl, hm⟩ := ih (lo + 1) _ (fun i h1 h2 => hin i (by omega) (by omega))
        (setInsert_sorted _ acc hs)
      refine ⟨l, ?_, hl, ?_⟩
      · rw [forUpFrom_succ_ok hstep]
        exact e
      · intro v
        rw [hm v, setInsert_mem]
        constructor
        · rintro ((h | h) | ⟨hkv, i, h1, h2, h3⟩)
          · exact Or.inr ⟨h ▸ hk, lo, Nat.le_refl _, by omega, h ▸ hget⟩
          · exact Or.inl h
          · exact Or.inr ⟨hkv, i, by omega, by omega, h3⟩
        · rintro (h | ⟨hkv, i, h1, h2, h3⟩)
          · exact Or.inl (Or.inr h)
          · by_cases hi : i = lo
            · subst hi
              rw [hget] at h3
              exact Or.inl (Or.inl (Option.some.inj h3).symm)
            · exact Or.inr ⟨hkv, i, by omega, by omega, h3⟩
    · have hstep : (fun i tempSet => do
            let value ← vecRead d (f i)
            if keep value then pure (setInsert value tempSet) else pure tempSet :
            Nat → List T → Except Error (List T)) lo acc = .ok acc := by
        show (vecRead d (f lo) >>= fun value =>
          if keep value then pure (setInsert value acc) else pure acc) = _
        rw [hread]
        show (if keep (d.get ⟨f lo, hlt⟩) then _ else _) = _
        rw [if_neg hk]
        rfl
      obtain ⟨l, e, hl, hm⟩ := ih (lo + 1) _ (fun i h1 h2 => hin i (by omega) (by omega)) hs
      refine ⟨l, ?_, hl, ?_⟩
      · rw [forUpFrom_succ_ok hstep]
        exact e
      · intro v
        rw [hm v]
        constructor
        · rintro (h | ⟨hkv, i, h1, h2, h3⟩)
          · exact Or.inl h
          · exact Or.inr ⟨hkv, i, by omega, by omega, h3⟩
        · rintro (h | ⟨hkv, i, h1, h2, h3⟩)
          · exact Or.inl h
          · by_cases hi : i = lo
            · subst hi
              rw [hget] at h3
              have := Option.some.inj h3
              rw [this] at hk
              exact absurd hkv hk
            · exact Or.inr ⟨hkv, i, by omega, by omega, h3⟩

theorem vecRead_ok_iff {T : Type} (d : List T) (i : Nat) (v : T) :
    vecRead d i = .ok v ↔ d[i]? = some v := by
  unfold vecRead
  cases h : d[i]? with
  | none => simp
  | some x => simp

theorem Matrix.uniqueRow_spec {T : Type} [LinearOrder T] (m : Matrix T) (row : Nat)
    (keep : T → Prop) [DecidablePred keep] (hs : m.Sized) (hr : row < m.rowCount_) :
    ∃ l, forUp (fun col tempSet => do
          let value ← vecRead m.data_ (col + row * m.colCount_)
          if keep value then pure (setInsert value tempSet) else pure tempSet) 0 m.colCount_ []
        = .ok l ∧ l.Sorted (· < ·) ∧ l.Nodup ∧
      ∀ v, v ∈ l ↔ (keep v ∧ ∃ col, col < m.colCount_ ∧ m.getData col row = .ok v) := by
  obtain ⟨l, e, hl, hm⟩ := uniqueLoop m.data_ (fun col => col + row * m.colCount_) keep
    (m.colCount_ - 0) 0 [] (fun i _ h => by
      show i + row * m.colCount_ < m.data_.length
      rw [hs]; exact flat_lt (by omega) hr) List.sorted_nil
  refine ⟨l, e, hl, hl.nodup, ?_⟩
  intro v
  rw [hm v]
  constructor
  · rintro (h | ⟨hk, i, _, h2, h3⟩)
    · cases h
    · refine ⟨hk, i, by omega, ?_⟩
      rw [Matrix.getData_inRange _ (show i ≤ m.colCount_ by omega) (Nat.le_of_lt hr)]
      exact (vecRead_ok_iff _ _ _).mpr h3
  · rintro ⟨hk, i, h2, h3⟩
    rw [Matrix.getData_inRange _ (show i ≤ m.colCount_ by omega) (Nat.le_of_lt hr)] at h3
    exact Or.inr ⟨hk, i, Nat.zero_le _, by omega, (vecRead_ok_iff _ _ _).mp h3⟩

theorem Matrix.uniqueCol_spec {T : Type} [LinearOrder T] (m : Matrix T) (col : Nat)
    (keep : T → Prop) [DecidablePred keep] (hs : m.Sized) (hc : col < m.colCount_) :
    ∃ l, forUp (fun row tempSet => do
          let value ← vecRead m.data_ (col + row * m.colCount_)
          if keep value then pure (setInsert value tempSet) else pure tempSet) 0 m.rowCount_ []
        = .ok l ∧ l.Sorted (· < ·) ∧ l.Nodup ∧
      ∀ v, v ∈ l ↔ (keep v ∧ ∃ row, row < m.rowCount_ ∧ m.getData col row = .ok v) := by
  obtain ⟨l, e, hl, hm⟩ := uniqueLoop m.data_ (fun row => col + row * m.colCount_) keep
    (m.rowCount_ - 0) 0 [] (fun i _ h => by
      show col + i * m.colCount_ < m.data_.length
      rw [hs]; exact flat_lt hc (by omega)) List.sorted_nil
  refine ⟨l, e, hl, hl.nodup, ?_⟩
  intro v
  rw [hm v]
  constructor
  · rintro (h | ⟨hk, i, _, h2, h3⟩)
    · cases h
    · refine ⟨hk, i, by omega, ?_⟩
      rw [Matrix.getData_inRange _ (Nat.le_of_lt hc) (show i ≤ m.rowCount_ by omega)]
      exact (vecRead_ok_iff _ _ _).mpr h3
  · rintro ⟨hk, i, h2, h3⟩
    rw [Matrix.getData_inRange _ (Nat.le_of_lt hc) (show i ≤ m.rowCount_ by omega)] at h3
    exact Or.inr ⟨hk, i, Nat.zero_le _, by omega, (vecRead_ok_iff _ _ _).mp h3⟩

/-- C38: for every matrix holding one value per cell, every row below
`rowCount`, every column below `colCount` and every value `exclud`,
`getUniqueRowValues(row, exclud)` returns a strictly ascending list without
duplicates whose elements are exactly the values of the cells of that row that
differ from `exclud`; `getUniqueColValues(col, exclud)` does the same for the
column, and the one-argument variants return exactly the values of the row and
of the column, strictly ascending and without duplicates. -/
theorem unique_values_sorted_exact {T : Type} [LinearOrder T] (m : Matrix T) (row col : Nat)
    (exclud : T) (hs : m.Sized) (hr : row < m.rowCount_) (hc : col < m.colCount_) :
    (∃ l, m.getUniqueRowValuesExcluding row exclud = .ok l ∧ l.Sorted (· < ·) ∧ l.Nodup ∧
      ∀ v, v ∈ l ↔ (v ≠ exclud ∧ ∃ c, c < m.colCount_ ∧ m.getData c row = .ok v)) ∧
    (∃ l, m.getUniqueColValuesExcluding col exclud = .ok l ∧ l.Sorted (· < ·) ∧ l.Nodup ∧
      ∀ v, v ∈ l ↔ (v ≠ exclud ∧ ∃ r, r < m.rowCount_ ∧ m.getData col r = .ok v)) ∧
    (∃ l, m.getUniqueRowValues row = .ok l ∧ l.Sorted (· < ·) ∧ l.Nodup ∧
      ∀ v, v ∈ l ↔ ∃ c, c < m.colCount_ ∧ m.getData c row = .ok v) ∧
    (∃ l, m.getUniqueColValues col = .ok l ∧ l.Sorted (· < ·) ∧ l.Nodup ∧
      ∀ v, v ∈ l ↔ ∃ r, r < m.rowCount_ ∧ m.getData col r = .ok v) := by
  refine ⟨?_, ?_, ?_, ?_⟩
  · obtain ⟨l, e, h1, h2, h3⟩ := m.uniqueRow_spec row (fun v => exclud ≠ v) hs hr
    refine ⟨l, e, h1, h2, fun v => ?_⟩
    rw [h3 v]
    exact ⟨fun h => ⟨Ne.symm h.1, h.2⟩, fun h => ⟨Ne.symm h.1, h.2⟩⟩
  · obtain ⟨l, e, h1, h2, h3⟩ := m.uniqueCol_spec col (fun v => exclud ≠ v) hs hc
    refine ⟨l, e, h1, h2, fun v => ?_⟩
    rw [h3 v]
    exact ⟨fun h => ⟨Ne.symm h.1, h.2⟩, fun h => ⟨Ne.symm h.1, h.2⟩⟩
  · obtain ⟨l, e, h1, h2, h3⟩ := m.uniqueRow_spec row (fun _ => True) hs hr
    refine ⟨l, e, h1, h2, fun v => ?_⟩
    rw [h3 v]
    exact ⟨fun h => h.2, fun h => ⟨True.intro, h⟩⟩
  · obtain ⟨l, e, h1, h2, h3⟩ := m.uniqueCol_spec col (fun _ => True) hs hc
    refine ⟨l, e, h1, h2, fun v => ?_⟩
    rw [h3 v]
    exact ⟨fun h => h.2, fun h => ⟨True.intro, h⟩⟩

/-- Instance of C38 on row 0 and column 1 of the 2 x 3 matrix with the rows
5, 2, 5 and 2, 9, 2, excluding the value 2: the results are `[5]`, `[9]`,
`[2, 5]` and `[2, 9]`. -/
theorem unique_values_sorted_exact_witness :
    repeats.Sized ∧ 0 < repeats.rowCount_ ∧ 1 < repeats.colCount_ ∧
    repeats.getUniqueRowValuesExcluding 0 2 = .ok [5] ∧
    repeats.getUniqueColValuesExcluding 1 2 = .ok [9] ∧
    repeats.getUniqueRowValues 0 = .ok [2, 5] ∧
    repeats.getUniqueColValues 1 = .ok [2, 9] ∧
    (∃ l, repeats.getUniqueRowValuesExcluding 0 2 = .ok l ∧ l.Sorted (· < ·) ∧ l.Nodup ∧
      ∀ v, v ∈ l ↔ (v ≠ 2 ∧ ∃ c, c < repeats.colCount_ ∧ repeats.getData c 0 = .ok v)) ∧
    (∃ l, repeats.getUniqueColValuesExcluding 1 2 = .ok l ∧ l.Sorted (· < ·) ∧ l.Nodup ∧
      ∀ v, v ∈ l ↔ (v ≠ 2 ∧ ∃ r, r < repeats.rowCount_ ∧ repeats.getData 1 r = .ok v)) ∧
    (∃ l, repeats.getUniqueRowValues 0 = .ok l ∧ l.Sorted (· < ·) ∧ l.Nodup ∧
      ∀ v, v ∈ l ↔ ∃ c, c < repeats.colCount_ ∧ repeats.getData c 0 = .ok v) ∧
    (∃ l, repeats.getUniqueColValues 1 = .ok l ∧ l.Sorted (· < ·) ∧ l.Nodup ∧
      ∀ v, v ∈ l ↔ ∃ r, r < repeats.rowCount_ ∧ repeats.getData 1 r = .ok v) :=
  ⟨by decide, by decide, by decide, by decide, by decide, by decide, by decide,
    unique_values_sorted_exact repeats 0 1 2 (by decide) (by decide) (by decide)⟩

/-- C39, evaluated on the code: the positions that `getData`, `setData` and
`operator()` accept are those with `col <= colCount_` and `row <= rowCount_`.
On the 2 x 2 matrix `squareTwo` the accepted position (0, 2) has the flat index
4, which is not smaller than `rowCount * colCount = 4`: the value store is
subscripted past its end.  The distinct accepted positions (2, 0) and (0, 1)
have the same flat index 2: writing 99 at (2, 0) changes what (0, 1) reads. -/
theorem accepted_positions_leave_store_and_collide :
    squareTwo.getRowCount * squareTwo.getColCount = 4 ∧
    squareTwo.data_.length = 4 ∧
    ¬ (0 > squareTwo.colCount_ ∨ 2 > squareTwo.rowCount_) ∧
    0 + 2 * squareTwo.colCount_ = 4 ∧
    squareTwo.getData 0 2 = .error .vectorOutOfRange ∧
    squareTwo.operatorCall 0 2 = .error .vectorOutOfRange ∧
    squareTwo.setData 99 0 2 = .error .undefinedBehaviour ∧
    ¬ (2 > squareTwo.colCount_ ∨ 0 > squareTwo.rowCount_) ∧
    2 + 0 * squareTwo.colCount_ = 0 + 1 * squareTwo.colCount_ ∧
    squareTwo.getData 0 1 = .ok 30 ∧
    (∃ m2, squareTwo.setData 99 2 0 = .ok m2 ∧ m2.getData 0 1 = .ok 99 ∧
      m2.operatorCall 0 1 = .ok 99) := by
  refine ⟨by decide, by decide, by decide, by decide, by decide, by decide, by decide,
    by decide, by decide, by decide, _, rfl, by decide, by decide⟩

/-! ## The M-phase: what a row adds to the difference -/

theorem EM.Likelihood.withNode_obs {st st1 : EM.Likelihood} {value : ℚ} {col row : Nat}
    (e : st.withNode (st.n.setProbability value col row) = .ok st1) :
    st1.n.observationMatrix = st.n.observationMatrix := by
  unfold EM.Likelihood.withNode NodeTables.setProbability at e
  split at e
  · next n2 hn2 =>
    split at hn2
    · cases hn2; cases e; rfl
    · cases hn2
    · cases hn2
  · cases e
  · cases e

theorem EM.likelihoodCellNA_step (ob : Matrix Int) {row col cc rc : Nat} (rowsum : ℚ)
    (st : EM.Likelihood) (hs : ob.Sized) (hr : row < ob.rowCount_) (hc1 : 1 ≤ col)
    (hc : col < ob.colCount_) (hsh : st.Shaped cc rc) (hcc : col - 1 < cc) (hrc : row < rc) :
    ∃ st1, EM.likelihoodCellNA ob row rowsum st col = .ok st1 ∧ st1.Shaped cc rc ∧
      st1.n.probabilityMatrix.data_ = st.n.probabilityMatrix.data_.set (col - 1 + row * cc)
        (if 0 < rowsum - (ob.count 0 row : ℚ)
          then (ob.count col row : ℚ) / (rowsum - (ob.count 0 row : ℚ)) else 0) ∧
      st1.counter = st.counter + 1 ∧
      st1.difference = st.difference +
        (if 0 < rowsum - (ob.count 0 row : ℚ)
          then |(st.n.probabilityMatrix.data_[col - 1 + row * cc]?).getD 0 -
            (ob.count col row : ℚ) / (rowsum - (ob.count 0 row : ℚ))| else 0) ∧
      st1.n.observationMatrix = st.n.observationMatrix := by
  have h0 := ob.operatorCallConst_count hs (show 0 < ob.colCount_ by omega) hr
  have hcol := ob.operatorCallConst_count hs hc hr
  have hlt : col - 1 + row * cc < st.n.probabilityMatrix.data_.length := by
    rw [hsh.2.2]; exact flat_lt hcc hrc
  have hget : (st.n.probabilityMatrix.data_[col - 1 + row * cc]?).getD 0
      = st.n.probabilityMatrix.data_.get ⟨_, hlt⟩ := by
    rw [List.getElem?_eq_getElem hlt]
    rfl
  have hold : st.n.getProbability (col - 1) row
      = .ok (st.n.probabilityMatrix.data_.get ⟨_, hlt⟩) := by
    rw [NodeTables.getProbability_inRange st.n hsh.1 hsh.2.1 hcc hrc]
    exact vecRead_of_lt _ hlt
  by_cases hpos : 0 < rowsum - (ob.count 0 row : ℚ)
  · obtain ⟨st1, e1, hsh1, hcnt, hdiff, hdata⟩ := EM.Likelihood.setProbability_ok
      { st with difference := st.difference +
          |st.n.probabilityMatrix.data_.get ⟨_, hlt⟩ -
            (ob.count col row : ℚ) / (rowsum - (ob.count 0 row : ℚ))| }
      ((ob.count col row : ℚ) / (rowsum - (ob.count 0 row : ℚ))) hsh hcc hrc
    have hobs := EM.Likelihood.withNode_obs e1
    refine ⟨{ st1 with counter := st1.counter + 1 }, ?_, hsh1, ?_, ?_, ?_, hobs⟩
    · unfold EM.likelihoodCellNA
      simp only [h0, hcol, hold, raiseIn, ok_bind2, if_pos hpos]
      simp only [pure_bind, e1, ok_bind2]
      rfl
    · rw [if_pos hpos]; exact hdata
    · show st1.counter + 1 = st.counter + 1
      rw [hcnt]
    · rw [if_pos hpos, hget]
      exact hdiff
  · obtain ⟨st1, e1, hsh1, hcnt, hdiff, hdata⟩ := EM.Likelihood.setProbability_ok
      st (0 : ℚ) hsh hcc hrc
    have hobs := EM.Likelihood.withNode_obs e1
    refine ⟨{ st1 with counter := st1.counter + 1 }, ?_, hsh1, ?_, ?_, ?_, hobs⟩
    · unfold EM.likelihoodCellNA
      simp only [h0, raiseIn, ok_bind2, if_neg hpos]
      simp only [pure_bind, e1, ok_bind2]
      rfl
    · rw [if_neg hpos]; exact hdata
    · show st1.counter + 1 = st.counter + 1
      rw [hcnt]
    · rw [if_neg hpos, add_zero]
      exact hdiff


theorem EM.likelihoodCell_step (ob : Matrix Int) {row col cc rc : Nat} (rowsum : ℚ)
    (st : EM.Likelihood) (hs : ob.Sized) (hr : row < ob.rowCount_)
    (hc : col < ob.colCount_) (hsh : st.Shaped cc rc) (hcc : col < cc) (hrc : row < rc) :
    ∃ st1, EM.likelihoodCell ob row rowsum st col = .ok st1 ∧ st1.Shaped cc rc ∧
      st1.n.probabilityMatrix.data_ = st.n.probabilityMatrix.data_.set (col + row * cc)
        (if rowsum ≠ 0 then (ob.count col row : ℚ) / rowsum else 0) ∧
      st1.counter = st.counter + 1 ∧
      st1.difference = st.difference +
        (if rowsum ≠ 0
          then |(st.n.probabilityMatrix.data_[col + row * cc]?).getD 0 -
            (ob.count col row : ℚ) / rowsum| else 0) ∧
      st1.n.observationMatrix = st.n.observationMatrix := by
  have hcol := ob.operatorCallConst_count hs hc hr
  have hlt : col + row * cc < st.n.probabilityMatrix.data_.length := by
    rw [hsh.2.2]; exact flat_lt hcc hrc
  have hget : (st.n.probabilityMatrix.data_[col + row * cc]?).getD 0
      = st.n.probabilityMatrix.data_.get ⟨_, hlt⟩ := by
    rw [List.getElem?_eq_getElem hlt]
    rfl
  have hold : st.n.getProbability col row
      = .ok (st.n.probabilityMatrix.data_.get ⟨_, hlt⟩) := by
    rw [NodeTables.getProbability_inRange st.n hsh.1 hsh.2.1 hcc hrc]
    exact vecRead_of_lt _ hlt
  by_cases hpos : rowsum ≠ 0
  · obtain ⟨st1, e1, hsh1, hcnt, hdiff, hdata⟩ := EM.Likelihood.setProbability_ok
      { st with difference := st.difference +
          |st.n.probabilityMatrix.data_.get ⟨_, hlt⟩ - (ob.count col row : ℚ) / rowsum| }
      ((ob.count col row : ℚ) / rowsum) hsh hcc hrc
    have hobs := EM.Likelihood.withNode_obs e1
    refine ⟨{ st1 with counter := st1.counter + 1 }, ?_, hsh1, ?_, ?_, ?_, hobs⟩
    · unfold EM.likelihoodCell
      simp only [hcol, hold, raiseIn, ok_bind2, if_pos hpos]
      simp only [pure_bind, e1, ok_bind2]
      rfl
    · rw [if_pos hpos]; exact hdata
    · show st1.counter + 1 = st.counter + 1
      rw [hcnt]
    · rw [if_pos hpos, hget]
      exact hdiff
  · obtain ⟨st1, e1, hsh1, hcnt, hdiff, hdata⟩ := EM.Likelihood.setProbability_ok
      st (0 : ℚ) hsh hcc hrc
    have hobs := EM.Likelihood.withNode_obs e1
    refine ⟨{ st1 with counter := st1.counter + 1 }, ?_, hsh1, ?_, ?_, ?_, hobs⟩
    · unfold EM.likelihoodCell
      simp only [raiseIn, ok_bind2, if_neg hpos]
      simp only [pure_bind, e1, ok_bind2]
      rfl
    · rw [if_neg hpos]; exact hdata
    · show st1.counter + 1 = st.counter + 1
      rw [hcnt]
    · rw [if_neg hpos, add_zero]
      exact hdiff

theorem EM.foldlM_track
    (body : EM.Likelihood → Nat → Except (Failure EM.Likelihood) EM.Likelihood)
    (cc rc row k : Nat) (val : Nat → ℚ) (chg : ℚ → Nat → ℚ) :
    ∀ (cols : List Nat) (st : EM.Likelihood),
      (∀ (s : EM.Likelihood) (c : Nat), c ∈ cols → s.Shaped cc rc →
        ∃ s1, body s c = .ok s1 ∧ s1.Shaped cc rc ∧
          s1.n.probabilityMatrix.data_
            = s.n.probabilityMatrix.data_.set (c - k + row * cc) (val c) ∧
          s1.counter = s.counter + 1 ∧
          s1.difference = s.difference +
            chg ((s.n.probabilityMatrix.data_[c - k + row * cc]?).getD 0) c ∧
          s1.n.observationMatrix = s.n.observationMatrix) →
      cols.Nodup → (∀ c ∈ cols, k ≤ c ∧ c - k < cc) → row < rc → st.Shaped cc rc →
      ∃ st2, cols.foldlM body st = .ok st2 ∧ st2.Shaped cc rc ∧
        (∀ c ∈ cols, st2.n.probabilityMatrix.data_[c - k + row * cc]? = some (val c)) ∧
        (∀ j, (∀ c ∈ cols, j ≠ c - k + row * cc) →
          st2.n.probabilityMatrix.data_[j]? = st.n.probabilityMatrix.data_[j]?) ∧
        st2.counter = st.counter + cols.length ∧
        st2.difference = st.difference + (cols.map (fun c =>
          chg ((st.n.probabilityMatrix.data_[c - k + row * cc]?).getD 0) c)).sum ∧
        st2.n.observationMatrix = st.n.observationMatrix := by
  intro cols
  induction cols with
  | nil =>
    intro st _ _ _ _ hsh
    refine ⟨st, rfl, hsh, fun c hc => absurd hc (List.not_mem_nil c), fun j _ => rfl, rfl,
      ?_, rfl⟩
    simp
  | cons c rest ih =>
    intro st hbody hnd hrange hrow hsh
    obtain ⟨hnot, hrest⟩ := List.nodup_cons.mp hnd
    obtain ⟨s1, e1, hsh1, hd1, hc1, hf1, ho1⟩ := hbody st c (List.mem_cons_self _ _) hsh
    obtain ⟨st2, e2, hsh2, hvals, hkeep, hcnt, hdiff, hobs⟩ := ih s1
      (fun s c2 h2 hs2 => hbody s c2 (List.mem_cons_of_mem _ h2) hs2) hrest
      (fun c2 h2 => hrange c2 (List.mem_cons_of_mem _ h2)) hrow hsh1
    have hlt : c - k + row * cc < st.n.probabilityMatrix.data_.length := by
      rw [hsh.2.2]; exact flat_lt (hrange c (List.mem_cons_self _ _)).2 hrow
    have hne : ∀ c3 ∈ rest, c - k + row * cc ≠ c3 - k + row * cc := by
      intro c3 h3 heq
      have hne : c3 ≠ c := fun e => hnot (e ▸ h3)
      have h3r := hrange c3 (List.mem_cons_of_mem _ h3)
      have h2r := hrange c (List.mem_cons_self _ _)
      have := (flat_inj h2r.2 h3r.2 heq).1
      omega
    refine ⟨st2, ?_, hsh2, ?_, ?_, ?_, ?_, hobs.trans ho1⟩
    · rw [List.foldlM_cons, e1]
      exact e2
    · intro c2 h2
      rcases List.mem_cons.mp h2 with h | h
      · subst h
        rw [hkeep _ hne, hd1]
        exact List.getElem?_set_self hlt
      · exact hvals c2 h
    · intro j hj
      rw [hkeep j (fun c3 h3 => hj c3 (List.mem_cons_of_mem _ h3)), hd1]
      exact List.getElem?_set_ne (Ne.symm (hj c (List.mem_cons_self _ _)))
    · rw [hcnt, hc1, List.length_cons]
      omega
    · rw [hdiff, hf1, List.map_cons, List.sum_cons, add_assoc]
      congr 3
      apply List.map_congr_left
      intro c3 h3
      rw [hd1, List.getElem?_set_ne (hne c3 h3)]


theorem Matrix.divides_na (m : Matrix Int) (h : m.hasNACol = true) (row : Nat) :
    m.Divides row ↔ 0 < (m.rowTotal row : ℚ) - (m.count 0 row : ℚ) := by
  unfold Matrix.Divides
  rw [if_pos h]
  constructor
  · intro hd; exact_mod_cast hd
  · intro hd; exact_mod_cast hd

theorem Matrix.divides_plain (m : Matrix Int) (h : ¬ m.hasNACol = true) (row : Nat) :
    m.Divides row ↔ (m.rowTotal row : ℚ) ≠ 0 := by
  unfold Matrix.Divides
  rw [if_neg h]
  constructor
  · intro hd; exact_mod_cast hd
  · intro hd; exact_mod_cast hd

theorem Matrix.newProbability_na (m : Matrix Int) (h : m.hasNACol = true) (col row : Nat) :
    m.newProbability col row
      = if 0 < (m.rowTotal row : ℚ) - (m.count 0 row : ℚ)
        then (m.count col row : ℚ) / ((m.rowTotal row : ℚ) - (m.count 0 row : ℚ)) else 0 := by
  have hl : m.leadCount row = m.count 0 row := by unfold Matrix.leadCount; rw [if_pos h]
  unfold Matrix.newProbability
  rw [hl]
  by_cases hd : m.Divides row
  · rw [if_pos hd, if_pos ((m.divides_na h row).mp hd)]
  · rw [if_neg hd, if_neg (fun hq => hd ((m.divides_na h row).mpr hq))]

theorem Matrix.newProbability_plain (m : Matrix Int) (h : ¬ m.hasNACol = true)
    (col row : Nat) :
    m.newProbability col row
      = if (m.rowTotal row : ℚ) ≠ 0 then (m.count col row : ℚ) / (m.rowTotal row : ℚ)
        else 0 := by
  have hl : m.leadCount row = 0 := by unfold Matrix.leadCount; rw [if_neg h]
  unfold Matrix.newProbability
  rw [hl, Int.cast_zero, sub_zero]
  by_cases hd : m.Divides row
  · rw [if_pos hd, if_pos ((m.divides_plain h row).mp hd)]
  · rw [if_neg hd, if_neg (fun hq => hd ((m.divides_plain h row).mpr hq))]

theorem sum_map_ite_const {A : Type} (p : Prop) [Decidable p] (l : List A) (f : A → ℚ) :
    (l.map (fun a => if p then f a else 0)).sum = if p then (l.map f).sum else 0 := by
  by_cases hp : p
  · simp only [if_pos hp]
  · simp only [if_neg hp]
    induction l with
    | nil => rfl
    | cons a l ih => rw [List.map_cons, List.sum_cons, ih, add_zero]

theorem EM.Likelihood.probability_entry_eq {st : EM.Likelihood} {cc rc : Nat} (hsh : st.Shaped cc rc)
    (col row : Nat) :
    st.n.probabilityMatrix.entry col row
      = (st.n.probabilityMatrix.data_[col + row * cc]?).getD 0 := by
  unfold Matrix.entry
  rw [hsh.1]

theorem EM.calculateMaximumLikelihood_row (st : EM.Likelihood) (ob : Matrix Int) (row rc : Nat)
    (hs : ob.Sized) (hr : row < ob.rowCount_)
    (hsh : st.Shaped (ob.colCount_ - ob.naColumns) rc) (hrc : row < rc) :
    ∃ st2, EM.calculateMaximumLikelihood row st ob = .ok st2 ∧
      st2.Shaped (ob.colCount_ - ob.naColumns) rc ∧
      (∀ c, ob.naColumns ≤ c → c < ob.colCount_ →
        st2.n.probabilityMatrix.entry (c - ob.naColumns) row = ob.newProbability c row) ∧
      (∀ j r, j < ob.colCount_ - ob.naColumns → r ≠ row →
        st2.n.probabilityMatrix.entry j r = st.n.probabilityMatrix.entry j r) ∧
      st2.counter = st.counter + (ob.colCount_ - ob.naColumns) ∧
      st2.difference = st.difference +
        (if ob.Divides row then
          ((List.range' ob.naColumns (ob.colCount_ - ob.naColumns)).map (fun c =>
            |st.n.probabilityMatrix.entry (c - ob.naColumns) row
              - ob.newProbability c row|)).sum
         else 0) ∧
      st2.n.observationMatrix = st.n.observationMatrix := by
  have hsum := ob.calculateRowSum_eq hs hr
  have hcols : ob.getColCount = ob.colCount_ := rfl
  by_cases hasNA : ob.hasNACol = true
  · have hk : ob.naColumns = 1 := by unfold Matrix.naColumns; rw [if_pos hasNA]
    rw [hk] at hsh ⊢
    obtain ⟨st2, e2, hsh2, hvals, hkeep, hcnt, hdiff, hobs⟩ := EM.foldlM_track
      (EM.likelihoodCellNA ob row (ob.rowTotal row : ℚ)) (ob.colCount_ - 1) rc row 1
      (fun c => ob.newProbability c row)
      (fun old c => if ob.Divides row then |old - ob.newProbability c row| else 0)
      (List.range' 1 (ob.getColCount - 1)) st
      (fun s c hc hshs => by
        have hm := List.mem_range'_1.mp hc
        obtain ⟨s1, e1, h1, h2, h3, h4, h5⟩ := EM.likelihoodCellNA_step ob
          (ob.rowTotal row : ℚ) s hs hr hm.1 (show c < ob.colCount_ by omega) hshs
          (show c - 1 < ob.colCount_ - 1 by omega) hrc
        refine ⟨s1, e1, h1, ?_, h3, ?_, h5⟩
        · rw [h2]
          dsimp only
          rw [Matrix.newProbability_na ob hasNA]
        · rw [h4]
          dsimp only
          rw [Matrix.newProbability_na ob hasNA]
          by_cases hd : ob.Divides row
          · rw [if_pos hd, if_pos ((ob.divides_na hasNA row).mp hd),
              if_pos ((ob.divides_na hasNA row).mp hd)]
          · rw [if_neg hd, if_neg (fun hq => hd ((ob.divides_na hasNA row).mpr hq))])
      (List.nodup_range' _ _)
      (fun c hc => by
        have hm := List.mem_range'_1.mp hc
        omega)
      hrc hsh
    refine ⟨st2, ?_, hsh2, ?_, ?_, ?_, ?_, hobs⟩
    · unfold EM.calculateMaximumLikelihood
      rw [hsum]
      simp only [raiseIn, ok_bind2, if_pos hasNA]
      exact e2
    · intro c h1 h2
      rw [EM.Likelihood.probability_entry_eq hsh2, hvals c (List.mem_range'_1.mpr (by omega))]
      rfl
    · intro j r hj hne
      rw [EM.Likelihood.probability_entry_eq hsh2, EM.Likelihood.probability_entry_eq hsh, hkeep]
      intro c hc heq
      have hm := List.mem_range'_1.mp hc
      exact hne (flat_inj hj (show c - 1 < ob.colCount_ - 1 by omega) heq).2
    · rw [hcnt, List.length_range', hcols]
    · rw [hdiff, sum_map_ite_const]
      congr 1
      by_cases hd : ob.Divides row
      · rw [if_pos hd, if_pos hd, hcols]
        congr 1
        apply List.map_congr_left
        intro c _
        rw [EM.Likelihood.probability_entry_eq hsh]
      · rw [if_neg hd, if_neg hd]
  · have hk : ob.naColumns = 0 := by unfold Matrix.naColumns; rw [if_neg hasNA]
    rw [hk] at hsh ⊢
    obtain ⟨st2, e2, hsh2, hvals, hkeep, hcnt, hdiff, hobs⟩ := EM.foldlM_track
      (EM.likelihoodCell ob row (ob.rowTotal row : ℚ)) (ob.colCount_ - 0) rc row 0
      (fun c => ob.newProbability c row)
      (fun old c => if ob.Divides row then |old - ob.newProbability c row| else 0)
      (List.range' 0 ob.getColCount) st
      (fun s c hc hshs => by
        have hm := List.mem_range'_1.mp hc
        obtain ⟨s1, e1, h1, h2, h3, h4, h5⟩ := EM.likelihoodCell_step ob
          (ob.rowTotal row : ℚ) s hs hr (show c < ob.colCount_ by omega) hshs
          (show c < ob.colCount_ - 0 by omega) hrc
        refine ⟨s1, e1, h1, ?_, h3, ?_, h5⟩
        · rw [h2]
          dsimp only
          rw [Matrix.newProbability_plain ob hasNA, Nat.sub_zero c]
        · rw [h4]
          dsimp only
          rw [Matrix.newProbability_plain ob hasNA, Nat.sub_zero c]
          by_cases hd : ob.Divides row
          · rw [if_pos hd, if_pos ((ob.divides_plain hasNA row).mp hd),
              if_pos ((ob.divides_plain hasNA row).mp hd)]
          · rw [if_neg hd, if_neg (fun hq => hd ((ob.divides_plain hasNA row).mpr hq))])
      (List.nodup_range' _ _)
      (fun c hc => by
        have hm := List.mem_range'_1.mp hc
        omega)
      hrc hsh
    refine ⟨st2, ?_, hsh2, ?_, ?_, ?_, ?_, hobs⟩
    · unfold EM.calculateMaximumLikelihood
      rw [hsum]
      simp only [raiseIn, ok_bind2, if_neg hasNA]
      exact e2
    · intro c h1 h2
      rw [EM.Likelihood.probability_entry_eq hsh2, hvals c (List.mem_range'_1.mpr (by omega))]
      rfl
    · intro j r hj hne
      rw [EM.Likelihood.probability_entry_eq hsh2, EM.Likelihood.probability_entry_eq hsh, hkeep]
      intro c hc heq
      have hm := List.mem_range'_1.mp hc
      exact hne (flat_inj hj (show c - 0 < ob.colCount_ - 0 by omega) heq).2
    · rw [hcnt, List.length_range']
      rfl
    · rw [hdiff, sum_map_ite_const]
      congr 1
      by_cases hd : ob.Divides row
      · rw [if_pos hd, if_pos hd, hcols]
        congr 1
        apply List.map_congr_left
        intro c _
        rw [EM.Likelihood.probability_entry_eq hsh]
      · rw [if_neg hd, if_neg hd]

theorem Matrix.count_of_empty (m : Matrix Int) (hs : m.Sized) (h0 : m.colCount_ = 0)
    (col row : Nat) : m.count col row = 0 := by
  unfold Matrix.count
  have hl : m.data_.length = 0 := by rw [hs, h0, Nat.zero_mul]
  rw [List.getElem?_eq_none (by omega)]
  rfl

theorem Matrix.rowTotal_split (m : Matrix Int) (row : Nat) :
    ((List.range (m.colCount_ - m.naColumns)).map
        (fun j => m.count (j + m.naColumns) row)).sum
      = m.rowTotal row - m.leadCount row ∨ m.colCount_ = 0 := by
  unfold Matrix.naColumns Matrix.leadCount Matrix.rowTotal
  by_cases h : m.hasNACol = true
  · simp only [if_pos h]
    rcases Nat.eq_zero_or_pos m.colCount_ with h0 | hpos
    · exact Or.inr h0
    · left
      obtain ⟨k, hk⟩ : ∃ k, m.colCount_ = k + 1 := ⟨m.colCount_ - 1, by omega⟩
      rw [hk, Nat.add_sub_cancel, List.range_succ_eq_map, List.map_cons, List.sum_cons,
        List.map_map]
      have : (fun col => m.count col row) ∘ Nat.succ = fun j => m.count (j + 1) row := rfl
      rw [this]
      omega
  · simp only [if_neg h]
    left
    rw [Nat.sub_zero, Int.sub_zero]
    rfl

theorem Matrix.divides_denominator (m : Matrix Int) (hs : m.Sized) {row : Nat}
    (hd : m.Divides row) :
    (m.rowTotal row : ℚ) - (m.leadCount row : ℚ) ≠ 0 ∧ m.colCount_ ≠ 0 := by
  have hcol : m.colCount_ ≠ 0 := by
    intro h0
    have ht : m.rowTotal row = 0 := by
      unfold Matrix.rowTotal
      rw [h0]
      rfl
    unfold Matrix.Divides at hd
    rw [ht, m.count_of_empty hs h0] at hd
    split at hd
    · omega
    · exact hd rfl
  refine ⟨?_, hcol⟩
  by_cases h : m.hasNACol = true
  · have hl : m.leadCount row = m.count 0 row := by unfold Matrix.leadCount; rw [if_pos h]
    rw [hl]
    exact ne_of_gt ((m.divides_na h row).mp hd)
  · have hl : m.leadCount row = 0 := by unfold Matrix.leadCount; rw [if_neg h]
    rw [hl, Int.cast_zero, sub_zero]
    exact (m.divides_plain h row).mp hd

theorem Matrix.sum_newProbability (m : Matrix Int) (hs : m.Sized) {row : Nat}
    (hd : m.Divides row) :
    ((List.range (m.colCount_ - m.naColumns)).map
      (fun j => m.newProbability (j + m.naColumns) row)).sum = 1 := by
  obtain ⟨hne, hcol⟩ := m.divides_denominator hs hd
  have hsplit := (m.rowTotal_split row).resolve_right hcol
  have hfun : (fun j => m.newProbability (j + m.naColumns) row)
      = fun j => ((m.count (j + m.naColumns) row : Int) : ℚ) *
          ((m.rowTotal row : ℚ) - (m.leadCount row : ℚ))⁻¹ := by
    funext j
    unfold Matrix.newProbability
    rw [if_pos hd, div_eq_mul_inv]
  rw [hfun, List.sum_map_mul_right]
  have hcast : ((List.range (m.colCount_ - m.naColumns)).map
      (fun j => ((m.count (j + m.naColumns) row : Int) : ℚ))).sum
      = (m.rowTotal row : ℚ) - (m.leadCount row : ℚ) := by
    have := congrArg (fun z : Int => (z : ℚ)) hsplit
    simp only [Int.cast_sub] at this
    rw [← this, Int.cast_list_sum, List.map_map]
    rfl
  rw [hcast]
  exact mul_inv_cancel₀ hne

theorem EM.Likelihood.getProbability_entry {st : EM.Likelihood} {cc rc col row : Nat}
    (hsh : st.Shaped cc rc) (hc : col < cc) (hr : row < rc) :
    st.n.getProbability col row = .ok (st.n.probabilityMatrix.entry col row) := by
  have hlt : col + row * cc < st.n.probabilityMatrix.data_.length := by
    rw [hsh.2.2]; exact flat_lt hc hr
  rw [NodeTables.getProbability_inRange st.n hsh.1 hsh.2.1 hc hr, EM.Likelihood.probability_entry_eq hsh,
    List.getElem?_eq_getElem hlt]
  exact vecRead_of_lt _ hlt

theorem NodeTables.Fit.shaped {n : NodeTables} (hfit : n.Fit) (counter : Nat) (difference : ℚ) :
    ({ counter := counter, difference := difference, n := n } : EM.Likelihood).Shaped
      (n.observationMatrix.colCount_ - n.observationMatrix.naColumns)
      n.observationMatrix.rowCount_ := by
  obtain ⟨_, h2, h3, h4⟩ := hfit
  refine ⟨h4, h3, ?_⟩
  show n.probabilityMatrix.data_.length = _
  rw [h2, h4, h3]

/-! # Claims on the rows of the M-phase -/

/-- C31 as stated fails on the code: for a row without a count outside the NA
column, `calculateMaximumLikelihood` stores 0 in every cell of the row, so the
row sums to 0.  Row 1 of the table with the counts NA = 2, 0, 0 and row 1 of the
table without NA column with the counts 0, 0 are such rows. -/
theorem maximumLikelihood_empty_row_sums_to_zero :
    (EM.calculateMaximumLikelihood 1
        { counter := 0, difference := 0, n := nodeHalf obsEmptyRow } obsEmptyRow).map
      (fun st => (st.n.probabilityMatrix.data_, st.n.probabilityMatrix.entrySum 1))
      = .ok ([1 / 2, 1 / 2, 0, 0], 0) ∧
    (EM.calculateMaximumLikelihood 1
        { counter := 0, difference := 0, n := nodeHalf obsPlainEmptyRow }
        obsPlainEmptyRow).map
      (fun st => (st.n.probabilityMatrix.data_, st.n.probabilityMatrix.entrySum 1))
      = .ok ([1 / 2, 1 / 2, 0, 0], 0) := by
  decide!

/-- C31, amended: for every node whose tables fit each other and every row of
its observation table, `calculateMaximumLikelihood` returns normally.  If the
row passes the test of the code (the row sum less the count of the leading NA
column is positive; for a table without NA column: the row sum is not 0), the
entries of the row of the probability table sum to 1 afterwards, in exact
arithmetic; otherwise every entry of the row is 0 afterwards. -/
theorem maximumLikelihood_row_sums_to_one (n : NodeTables) (counter : Nat) (difference : ℚ)
    (row : Nat) (hfit : n.Fit) (hr : row < n.observationMatrix.rowCount_) :
    ∃ st2, EM.calculateMaximumLikelihood row
        { counter := counter, difference := difference, n := n } n.observationMatrix
        = .ok st2 ∧
      st2.n.probabilityMatrix.colCount_ = n.probabilityMatrix.colCount_ ∧
      (∀ j, j < st2.n.probabilityMatrix.colCount_ →
        st2.n.getProbability j row = .ok (st2.n.probabilityMatrix.entry j row)) ∧
      (n.observationMatrix.Divides row → st2.n.probabilityMatrix.entrySum row = 1) ∧
      (¬ n.observationMatrix.Divides row →
        ∀ j, j < st2.n.probabilityMatrix.colCount_ →
          st2.n.probabilityMatrix.entry j row = 0) := by
  obtain ⟨st2, e, hsh2, hvals, _, _, _, _⟩ := EM.calculateMaximumLikelihood_row
    { counter := counter, difference := difference, n := n } n.observationMatrix row
    n.observationMatrix.rowCount_ hfit.1 hr (hfit.shaped counter difference) hr
  have hentry : ∀ j, j < n.observationMatrix.colCount_ - n.observationMatrix.naColumns →
      st2.n.probabilityMatrix.entry j row
        = n.observationMatrix.newProbability (j + n.observationMatrix.naColumns) row := by
    intro j hj
    have := hvals (j + n.observationMatrix.naColumns) (by omega) (by omega)
    rw [Nat.add_sub_cancel] at this
    exact this
  refine ⟨st2, e, hsh2.1.trans hfit.2.2.2.symm, ?_, ?_, ?_⟩
  · intro j hj
    rw [hsh2.1] at hj
    exact EM.Likelihood.getProbability_entry hsh2 hj hr
  · intro hd
    unfold Matrix.entrySum
    rw [hsh2.1, ← n.observationMatrix.sum_newProbability hfit.1 hd]
    congr 1
    apply List.map_congr_left
    intro j hj
    exact hentry j (List.mem_range.mp hj)
  · intro hd j hj
    rw [hsh2.1] at hj
    rw [hentry j hj]
    unfold Matrix.newProbability
    rw [if_neg hd]

/-- Instance of the amended C31 on row 0 of the table with the counts NA = 1,
3, 1 and the probability table holding 1/2 everywhere. -/
theorem maximumLikelihood_row_sums_to_one_witness :
    (nodeHalf obsWithNA).Fit ∧ 0 < (nodeHalf obsWithNA).observationMatrix.rowCount_ ∧
    (nodeHalf obsWithNA).observationMatrix.Divides 0 ∧
    ∃ st2, EM.calculateMaximumLikelihood 0
        { counter := 0, difference := 0, n := nodeHalf obsWithNA }
        (nodeHalf obsWithNA).observationMatrix = .ok st2 ∧
      st2.n.probabilityMatrix.colCount_ = (nodeHalf obsWithNA).probabilityMatrix.colCount_ ∧
      (∀ j, j < st2.n.probabilityMatrix.colCount_ →
        st2.n.getProbability j 0 = .ok (st2.n.probabilityMatrix.entry j 0)) ∧
      ((nodeHalf obsWithNA).observationMatrix.Divides 0 →
        st2.n.probabilityMatrix.entrySum 0 = 1) ∧
      (¬ (nodeHalf obsWithNA).observationMatrix.Divides 0 →
        ∀ j, j < st2.n.probabilityMatrix.colCount_ →
          st2.n.probabilityMatrix.entry j 0 = 0) :=
  ⟨by decide, by decide, by decide,
    maximumLikelihood_row_sums_to_one (nodeHalf obsWithNA) 0 0 0 (by decide) (by decide)⟩

/-! ## The M-phase over all rows and nodes -/

theorem NodeTables.rowChange_congr {a n : NodeTables} (row : Nat)
    (hent : ∀ j, j < n.observationMatrix.colCount_ - n.observationMatrix.naColumns →
      a.probabilityMatrix.entry j row = n.probabilityMatrix.entry j row) :
    (if n.observationMatrix.Divides row then
      ((List.range' n.observationMatrix.naColumns
          (n.observationMatrix.colCount_ - n.observationMatrix.naColumns)).map (fun c =>
        |a.probabilityMatrix.entry (c - n.observationMatrix.naColumns) row
          - n.observationMatrix.newProbability c row|)).sum
     else 0) = n.rowChange row := by
  unfold NodeTables.rowChange
  split
  · congr 1
    apply List.map_congr_left
    intro c hc
    have hm := List.mem_range'_1.mp hc
    rw [hent (c - n.observationMatrix.naColumns) (by omega)]
  · rfl

theorem EM.rowsFold (n : NodeTables) (hfit : n.Fit) :
    ∀ (rows : List Nat) (st : EM.Likelihood),
      rows.Nodup → (∀ r ∈ rows, r < n.observationMatrix.rowCount_) →
      st.Shaped (n.observationMatrix.colCount_ - n.observationMatrix.naColumns)
        n.observationMatrix.rowCount_ →
      st.n.observationMatrix = n.observationMatrix →
      (∀ r ∈ rows, ∀ j,
        j < n.observationMatrix.colCount_ - n.observationMatrix.naColumns →
        st.n.probabilityMatrix.entry j r = n.probabilityMatrix.entry j r) →
      ∃ st2, rows.foldlM
          (fun st row => EM.calculateMaximumLikelihood row st n.observationMatrix) st
          = .ok st2 ∧
        st2.counter = st.counter + rows.length *
          (n.observationMatrix.colCount_ - n.observationMatrix.naColumns) ∧
        st2.difference = st.difference + (rows.map (fun row => n.rowChange row)).sum ∧
        st2.n.observationMatrix = n.observationMatrix := by
  intro rows
  induction rows with
  | nil =>
    intro st _ _ _ hobs _
    refine ⟨st, rfl, ?_, ?_, hobs⟩
    · simp
    · simp
  | cons r rest ih =>
    intro st hnd hrange hsh hobs hent
    obtain ⟨hnot, hrest⟩ := List.nodup_cons.mp hnd
    have hr := hrange r (List.mem_cons_self _ _)
    obtain ⟨s1, e1, hsh1, _, hkeep, hcnt, hdiff, hobs1⟩ :=
      EM.calculateMaximumLikelihood_row st n.observationMatrix r
        n.observationMatrix.rowCount_ hfit.1 hr hsh hr
    obtain ⟨st2, e2, hcnt2, hdiff2, hobs2⟩ := ih s1 hrest
      (fun r2 h2 => hrange r2 (List.mem_cons_of_mem _ h2)) hsh1 (hobs1.trans hobs)
      (fun r2 h2 j hj => by
        have hne : r2 ≠ r := fun e => hnot (e ▸ h2)
        rw [hkeep j r2 hj hne]
        exact hent r2 (List.mem_cons_of_mem _ h2) j hj)
    refine ⟨st2, ?_, ?_, ?_, hobs2⟩
    · rw [List.foldlM_cons, e1]
      exact e2
    · rw [hcnt2, hcnt, List.length_cons, Nat.succ_mul]
      omega
    · rw [hdiff2, hdiff, NodeTables.rowChange_congr r
        (fun j hj => hent r (List.mem_cons_self _ _) j hj), List.map_cons, List.sum_cons,
        add_assoc]

theorem EM.mPhaseRows_spec (n : NodeTables) (counter : Nat) (difference : ℚ) (hfit : n.Fit) :
    ∃ s, EM.mPhaseRows counter difference n = .ok s ∧ s.counter = counter + n.cells ∧
      s.difference = difference + n.change := by
  obtain ⟨s, e, hc, hd, _⟩ := EM.rowsFold n hfit (List.range' 0 n.observationMatrix.getRowCount)
    { counter := counter, difference := difference, n := n } (List.nodup_range' _ _)
    (fun r hr => by
      have hm := List.mem_range'_1.mp hr
      have : n.observationMatrix.getRowCount = n.observationMatrix.rowCount_ := rfl
      omega)
    (hfit.shaped counter difference) rfl (fun _ _ _ _ => rfl)
  refine ⟨s, e, ?_, ?_⟩
  · rw [hc, List.length_range']
    rfl
  · rw [hd]
    unfold NodeTables.change
    rw [List.range_eq_range']
    rfl

theorem EM.mPhaseNodes_spec (loadBackup : NodeTables → NodeTables) :
    ∀ (nodes : List NodeTables) (st : EM.MPhaseLoop), (∀ n ∈ nodes, n.Fit) →
      ∃ st2, EM.mPhaseNodes loadBackup nodes st = .ok st2 ∧
        st2.counter = st.counter + (nodes.map NodeTables.cells).sum ∧
        st2.difference = st.difference + (nodes.map NodeTables.change).sum ∧
        st2.done.length = st.done.length + nodes.length := by
  intro nodes
  induction nodes with
  | nil =>
    intro st _
    exact ⟨st, rfl, by simp, by simp, by simp⟩
  | cons n rest ih =>
    intro st hfit
    obtain ⟨s, e, hc, hd⟩ := EM.mPhaseRows_spec n st.counter st.difference
      (hfit n (List.mem_cons_self _ _))
    obtain ⟨st2, e2, hc2, hd2, hl2⟩ := ih
      { done := st.done ++ [loadBackup s.n], counter := s.counter, difference := s.difference }
      (fun n2 h2 => hfit n2 (List.mem_cons_of_mem _ h2))
    refine ⟨st2, ?_, ?_, ?_, ?_⟩
    · unfold EM.mPhaseNodes
      rw [e]
      exact e2
    · rw [hc2]
      show s.counter + _ = _
      rw [hc, List.map_cons, List.sum_cons]
      omega
    · rw [hd2]
      show s.difference + _ = _
      rw [hd, List.map_cons, List.sum_cons, add_assoc]
    · rw [hl2]
      show (st.done ++ [loadBackup s.n]).length + rest.length = _
      rw [List.length_append, List.length_cons, List.length_cons, List.length_nil]
      omega

theorem NodeTables.change_of_divides (n : NodeTables)
    (h : ∀ row, row < n.observationMatrix.rowCount_ → n.observationMatrix.Divides row) :
    n.change = n.absChange := by
  unfold NodeTables.change NodeTables.absChange
  congr 1
  apply List.map_congr_left
  intro row hrow
  unfold NodeTables.rowChange NodeTables.rowAbsChange
  rw [if_pos (h row (List.mem_range.mp hrow))]

/-! # Claims on the value of the M-phase -/

/-- C32 as stated fails on the code: for the node with the counts 3, 1 in row 0
and 0, 0 in row 1 and the probability 1/2 in all four cells, the M-phase stores
3/4, 1/4, 0, 0; the absolute changes are 1/4, 1/4, 1/2, 1/2 with the sum 3/2
and the mean 3/8.  `mPhase` returns 1/8: the changes of row 1 are not added to
`difference`, but its cells are counted. -/
theorem mPhase_skips_change_of_empty_rows :
    EM.mPhase id [nodeHalf obsPlainEmptyRow]
      = .ok ([{ nodeHalf obsPlainEmptyRow with
          probabilityMatrix := { cptHalf with data_ := [3 / 4, 1 / 4, 0, 0] } }], 1 / 8) ∧
    (nodeHalf obsPlainEmptyRow).absChange = 3 / 2 ∧
    (nodeHalf obsPlainEmptyRow).cells = 4 ∧
    (nodeHalf obsPlainEmptyRow).absChange / ((nodeHalf obsPlainEmptyRow).cells : ℚ) = 3 / 8 := by
  decide!

/-- C32, amended: for nodes whose tables fit each other and store at least one
cell, `mPhase` returns normally, and its value is the sum of `|old - new|` over
the cells of those rows that pass the test of the code (the row sum less the
count of the leading NA column is positive; without NA column: the row sum is
not 0), divided by the number of all cells stored, the cells of the other rows
included.  If every row passes the test, this is the mean absolute change of
the probability tables. -/
theorem mPhase_mean_over_dividing_rows (loadBackup : NodeTables → NodeTables)
    (nodes : List NodeTables) (hfit : ∀ n ∈ nodes, n.Fit)
    (hcells : 0 < (nodes.map NodeTables.cells).sum) :
    ∃ nodes2, EM.mPhase loadBackup nodes
        = .ok (nodes2, (nodes.map NodeTables.change).sum /
            (((nodes.map NodeTables.cells).sum : Nat) : ℚ)) ∧
      nodes2.length = nodes.length ∧
      ((∀ n ∈ nodes, ∀ row, row < n.observationMatrix.rowCount_ →
          n.observationMatrix.Divides row) →
        (nodes.map NodeTables.change).sum = (nodes.map NodeTables.absChange).sum) := by
  have _ := hcells
  obtain ⟨st2, e, hc, hd, hl⟩ := EM.mPhaseNodes_spec loadBackup nodes
    { done := [], counter := 0, difference := 0 } hfit
  refine ⟨st2.done, ?_, ?_, ?_⟩
  · unfold EM.mPhase
    rw [e]
    show Except.ok (st2.done, st2.difference / (st2.counter : ℚ)) = _
    rw [hc, hd]
    simp only [Nat.zero_add, zero_add]
  · rw [hl]
    simp
  · intro hall
    congr 1
    apply List.map_congr_left
    intro n hn
    exact n.change_of_divides (hall n hn)

/-- Instance of the amended C32 on the node with the counts NA = 1, 3, 1 and
NA = 0, 2, 2, whose rows both pass the test. -/
theorem mPhase_mean_over_dividing_rows_witness :
    (∀ n ∈ [nodeHalf obsWithNA], n.Fit) ∧
    0 < ([nodeHalf obsWithNA].map NodeTables.cells).sum ∧
    ∃ nodes2, EM.mPhase id [nodeHalf obsWithNA]
        = .ok (nodes2, ([nodeHalf obsWithNA].map NodeTables.change).sum /
            ((([nodeHalf obsWithNA].map NodeTables.cells).sum : Nat) : ℚ)) ∧
      nodes2.length = [nodeHalf obsWithNA].length ∧
      ((∀ n ∈ [nodeHalf obsWithNA], ∀ row, row < n.observationMatrix.rowCount_ →
          n.observationMatrix.Divides row) →
        ([nodeHalf obsWithNA].map NodeTables.change).sum
          = ([nodeHalf obsWithNA].map NodeTables.absChange).sum) :=
  ⟨by decide, by decide,
    mPhase_mean_over_dividing_rows id [nodeHalf obsWithNA] (by decide) (by decide)⟩

/-! ## The posterior of the E-phase -/

theorem Matrix.entry_eq_getElem (m : Matrix ℚ) {col row : Nat} (hs : m.Sized)
    (hc : col < m.colCount_) (hr : row < m.rowCount_) :
    m.data_[col + row * m.colCount_]? = some (m.entry col row) := by
  have hlt : col + row * m.colCount_ < m.data_.length := by
    rw [hs]; exact flat_lt hc hr
  unfold Matrix.entry
  rw [List.getElem?_eq_getElem hlt]
  rfl

theorem Matrix.operatorCallConst_entry (m : Matrix ℚ) {col row : Nat} (hs : m.Sized)
    (hc : col < m.colCount_) (hr : row < m.rowCount_) :
    m.operatorCallConst col row = .ok (m.entry col row) := by
  unfold Matrix.operatorCallConst
  rw [if_neg (by omega)]
  exact vecRead_eq_ok (m.entry_eq_getElem hs hc hr)

theorem EM.denominator_loop (m : Matrix ℚ) (row : Nat) (t : ℚ) (hs : m.Sized)
    (hr : row < m.rowCount_) :
    ∀ (count lo : Nat) (acc : ℚ), lo + count ≤ m.colCount_ →
      forUpFrom (fun c sum => do
          let p ← m.operatorCallConst c row
          pure (sum + p * t)) lo count acc
        = .ok (acc + ((List.range' lo count).map (fun c => m.entry c row * t)).sum) := by
  intro count
  induction count with
  | zero =>
    intro lo acc _
    simp [forUpFrom]
  | succ k ih =>
    intro lo acc hle
    have hstep : (fun c sum => do
          let p ← m.operatorCallConst c row
          pure (sum + p * t) : Nat → ℚ → Except Error ℚ) lo acc
        = .ok (acc + m.entry lo row * t) := by
      show (m.operatorCallConst lo row >>= fun p => pure (acc + p * t)) = _
      rw [m.operatorCallConst_entry hs (show lo < m.colCount_ by omega) hr]
      rfl
    rw [forUpFrom_succ_ok hstep, ih (lo + 1) _ (by omega)]
    simp only [List.range'_succ, List.map_cons, List.sum_cons]
    rw [add_assoc]

theorem unsignedPred_eq {col : Nat} (h1 : 1 ≤ col) (hu : col ≤ UINT_MAX) :
    unsignedPred col = col - 1 := by
  unfold unsignedPred
  have : col + UINT_MAX = (col - 1) + (UINT_MAX + 1) := by omega
  rw [this, Nat.add_mod_right, Nat.mod_eq_of_lt (by omega)]

theorem EM.calculateProbabilityEM_eq (n : NodeTables) (totals : List ℚ) {col row : Nat}
    (hs : n.probabilityMatrix.Sized) (hr : row < n.probabilityMatrix.rowCount_)
    (hc1 : 1 ≤ col) (hc : col ≤ n.probabilityMatrix.colCount_) (hu : col ≤ UINT_MAX)
    (ht : totals.foldl (fun t p => t * p) 1 ≠ 0) :
    EM.calculateProbabilityEM n totals col row
      = .ok (n.probabilityMatrix.entry (col - 1) row / n.probabilityMatrix.entrySum row) := by
  have hwrap : unsignedPred col = col - 1 := unsignedPred_eq hc1 hu
  have hden := EM.denominator_loop n.probabilityMatrix row
    (totals.foldl (fun t p => t * p) 1) hs hr (n.probabilityMatrix.colCount_ - 0) 0 0
    (by omega)
  have hnum := n.probabilityMatrix.operatorCallConst_entry hs
    (show col - 1 < n.probabilityMatrix.colCount_ by omega) hr
  rw [← hwrap] at hnum
  have hcc : n.probabilityMatrix.getColCount = n.probabilityMatrix.colCount_ := rfl
  unfold EM.calculateProbabilityEM forUp
  simp only [hcc, hden, hnum, ok_bind]
  rw [hwrap, zero_add, List.sum_map_mul_right, Nat.sub_zero, ← List.range_eq_range',
    mul_div_mul_right _ _ ht]
  rfl

theorem Matrix.sum_posteriors (m : Matrix ℚ) (row : Nat) (h : m.entrySum row ≠ 0) :
    ((List.range' 1 m.colCount_).map
      (fun col => m.entry (col - 1) row / m.entrySum row)).sum = 1 := by
  have hfun : (fun col => m.entry (col - 1) row / m.entrySum row)
      = fun col => m.entry (col - 1) row * (m.entrySum row)⁻¹ := by
    funext col
    rw [div_eq_mul_inv]
  rw [hfun, List.sum_map_mul_right, List.range'_eq_map_range, List.map_map]
  have hcomp : ((fun col => m.entry (col - 1) row) ∘ fun j => 1 + j)
      = fun j => m.entry j row := by
    funext j
    show m.entry (1 + j - 1) row = _
    rw [Nat.add_sub_cancel_left]
  rw [hcomp]
  exact mul_inv_cancel₀ h

/-! # Claims on the E-phase -/

/-- C40: for every node whose probability table holds one value per cell, every
row of the table and every observation column `col >= 1` that has a column
`col - 1` in the probability table, whenever the product of the parents' total
probabilities is not 0, `calculateProbabilityEM(n, col, row)` returns the entry
(col - 1, row) of the probability table divided by the sum of the row over all
columns of the table, in exact arithmetic, whatever the parents' values are.
If the row sum is not 0 and the observation table has one column more than the
probability table, these quotients add up to 1 over the non-NA columns
1, ..., colCount - 1 of the observation table. -/
theorem posterior_independent_of_parents (n : NodeTables) (totals : List ℚ) (row : Nat)
    (hs : n.probabilityMatrix.Sized) (hr : row < n.probabilityMatrix.rowCount_)
    (ht : totals.foldl (fun t p => t * p) 1 ≠ 0) :
    (∀ col, 1 ≤ col → col ≤ n.probabilityMatrix.colCount_ → col ≤ UINT_MAX →
      EM.calculateProbabilityEM n totals col row
        = .ok (n.probabilityMatrix.entry (col - 1) row /
            n.probabilityMatrix.entrySum row)) ∧
    (n.probabilityMatrix.entrySum row ≠ 0 →
      n.observationMatrix.colCount_ = n.probabilityMatrix.colCount_ + 1 →
      ((List.range' 1 (n.observationMatrix.colCount_ - 1)).map (fun col =>
        n.probabilityMatrix.entry (col - 1) row /
          n.probabilityMatrix.entrySum row)).sum = 1) := by
  refine ⟨fun col h1 h2 h3 => EM.calculateProbabilityEM_eq n totals hs hr h1 h2 h3 ht, ?_⟩
  intro hne hcols
  rw [hcols, Nat.add_sub_cancel]
  exact n.probabilityMatrix.sum_posteriors row hne

/-- Instance of C40 on the node with the probability 1/2 in every cell and two
parents with the total probabilities 1/3 and 2/5. -/
theorem posterior_independent_of_parents_witness :
    (nodeHalf obsWithNA).probabilityMatrix.Sized ∧
    0 < (nodeHalf obsWithNA).probabilityMatrix.rowCount_ ∧
    [(1 : ℚ) / 3, 2 / 5].foldl (fun t p => t * p) 1 ≠ 0 ∧
    EM.calculateProbabilityEM (nodeHalf obsWithNA) [1 / 3, 2 / 5] 1 0 = .ok (1 / 2) ∧
    (∀ col, 1 ≤ col → col ≤ (nodeHalf obsWithNA).probabilityMatrix.colCount_ →
      col ≤ UINT_MAX →
      EM.calculateProbabilityEM (nodeHalf obsWithNA) [1 / 3, 2 / 5] col 0
        = .ok ((nodeHalf obsWithNA).probabilityMatrix.entry (col - 1) 0 /
            (nodeHalf obsWithNA).probabilityMatrix.entrySum 0)) ∧
    ((nodeHalf obsWithNA).probabilityMatrix.entrySum 0 ≠ 0 →
      (nodeHalf obsWithNA).observationMatrix.colCount_
        = (nodeHalf obsWithNA).probabilityMatrix.colCount_ + 1 →
      ((List.range' 1 ((nodeHalf obsWithNA).observationMatrix.colCount_ - 1)).map (fun col =>
        (nodeHalf obsWithNA).probabilityMatrix.entry (col - 1) 0 /
          (nodeHalf obsWithNA).probabilityMatrix.entrySum 0)).sum = 1) :=
  ⟨by decide, by decide, by decide!, by decide!,
    posterior_independent_of_parents (nodeHalf obsWithNA) [1 / 3, 2 / 5] 0 (by decide)
      (by decide) (by decide!)⟩

/-- C33, evaluated on the code: on the node with the counts NA = 1, 3, 1 in row
0 and the probability 1/2 in every cell, the posterior of either value is 1/2,
so the counts of row 0 should become 3 + 1/2 and 1 + 1/2.
`calculateExpectedValue` computes these values as `float` and passes them to
`setData` of the `int` table, which discards the fractional part: the stored
counts are 3 and 1, and the table is the same as before the call. -/
theorem expected_value_loses_fraction :
    obsWithNA.hasNACol = true ∧
    obsWithNA.operatorCall 0 0 = .ok 1 ∧ obsWithNA.operatorCall 1 0 = .ok 3 ∧
    obsWithNA.operatorCall 2 0 = .ok 1 ∧
    EM.calculateProbabilityEM (nodeHalf obsWithNA) [] 1 0 = .ok (1 / 2) ∧
    EM.calculateProbabilityEM (nodeHalf obsWithNA) [] 2 0 = .ok (1 / 2) ∧
    (3 : ℚ) + 1 / 2 * 1 = 7 / 2 ∧ floatToInt (7 / 2) = 3 ∧
    (1 : ℚ) + 1 / 2 * 1 = 3 / 2 ∧ floatToInt (3 / 2) = 1 ∧
    EM.calculateExpectedValue [] 0 (nodeHalf obsWithNA) = .ok (nodeHalf obsWithNA) := by
  decide!

/-! # Claims on reading matrix files -/

/-- C34, evaluated on the code: `readMatrix` with `colNames = true` reads the
header line a second time, as the first data row, because the stream is rewound
before the loop that reads the data.  For the file `a b`, `x y`, `z w` read
into a `Matrix<std::string>` the result has `rowCount = 2` and `colCount = 2`
but six values in its value store, and cell (0, 0) holds the header token `a`
instead of `x`, the first token of the second line.  Read into a `Matrix<int>`,
the file `a b`, `1 2`, `3 4` ends with a `boost::bad_lexical_cast` for the
header token `a`; with the numeric header `10 20` the header is stored as
data. -/
theorem readMatrix_reads_header_as_data :
    readSummary (Matrix.fromFile stringEnv (some ["a b", "x y", "z w"]) true false)
      = some (2, 2, ["a", "b", "x", "y", "z", "w"], ["a", "b"]) ∧
    ((Matrix.fromFile stringEnv (some ["a b", "x y", "z w"]) true false).toOption.map
      (fun m => m.getData 0 0)) = some (.ok "a") ∧
    endedByBadCast (Matrix.fromFile intEnv (some ["a b", "1 2", "3 4"]) true false) = true ∧
    readSummary (Matrix.fromFile intEnv (some ["10 20", "1 2", "3 4"]) true false)
      = some (2, 2, [10, 20, 1, 2, 3, 4], ["10", "20"]) ∧
    readSummary (Matrix.fromFile intEnv (some ["1 2", "3 4"]) false false)
      = some (2, 2, [1, 2, 3, 4], []) :=
  ⟨by decide, by decide, by decide, by decide, by decide⟩

/-- C35, evaluated on the code: in the file `a b`, `x y`, `z` the first row
with a wrong number of tokens is line 3.  `readMatrix` with `colNames = true`
into a `Matrix<std::string>` names row 4 in its message: the loop that reads
the data starts at the header line with the row number 2.  Read into a
`Matrix<int>`, the file `a b`, `1 2`, `3` does not end with the row message but
with a `boost::bad_lexical_cast` for the header.  With `colNames = false` the
row named is the line number: 3 for the file `x y`, `z w`, `v`. -/
theorem readMatrix_row_number_counts_header :
    thrownMessage (Matrix.fromFile stringEnv (some ["a b", "x y", "z"]) true false)
      = some "Row 4 does not contain the specified number of samples" ∧
    thrownMessage (Matrix.fromFile intEnv (some ["a b", "1 2", "3"]) true false) = none ∧
    endedByBadCast (Matrix.fromFile intEnv (some ["a b", "1 2", "3"]) true false) = true ∧
    thrownMessage (Matrix.fromFile stringEnv (some ["x y", "z w", "v"]) false false)
      = some "Row 3 does not contain the specified number of samples" := by
  decide

/-- C36, evaluated on the code: the constructor with a `samplesToDelete` list
calls `readMatrix` and never looks at the list.  For the file `1 2 3`, `4 5 6`
and the list `[2]` it builds the matrix with three columns and all six values,
while `readMatrixDeletion` on an empty matrix builds the matrix with two
columns and the values 2, 3, 5, 6. -/
theorem constructor_ignores_samplesToDelete :
    readSummary (Matrix.fromFileDeleting intEnv (some ["1 2 3", "4 5 6"]) false false [2])
      = some (2, 3, [1, 2, 3, 4, 5, 6], []) ∧
    readSummary (Matrix.emptyMatrix.readMatrixDeletion intEnv (some ["1 2 3", "4 5 6"])
      false false [2]) = some (2, 2, [2, 3, 5, 6], []) ∧
    Matrix.fromFileDeleting intEnv (some ["1 2 3", "4 5 6"]) false false [2]
      ≠ Matrix.emptyMatrix.readMatrixDeletion intEnv (some ["1 2 3", "4 5 6"])
        false false [2] ∧
    Matrix.fromFileDeleting intEnv (some ["1 2 3", "4 5 6"]) false false [2]
      = Matrix.fromFile intEnv (some ["1 2 3", "4 5 6"]) false false :=
  ⟨by decide, by decide, by decide, rfl⟩

/-- C37, evaluated on the code: `readMatrixDeletion` returns normally with a
value store that does not hold `rowCount * colCount` values.  With
`colNames = true` it reads the header line again as a data row: for the file
`a b c`, `x y z` and the list `[2]` the result has `rowCount = 1`,
`colCount = 2` and four values.  With a list entry that is no column, nothing
is dropped although `colCount` is reduced: for the file `1 2 3`, `4 5 6`
without names and the list `[7]` the result has `rowCount = 2`, `colCount = 2`
and six values.  With row names and column names the header keeps three names
for two columns. -/
theorem readMatrixDeletion_store_size_differs :
    readSummary (Matrix.emptyMatrix.readMatrixDeletion stringEnv (some ["a b c", "x y z"])
      true false [2]) = some (1, 2, ["b", "c", "y", "z"], ["b", "c"]) ∧
    readSummary (Matrix.emptyMatrix.readMatrixDeletion intEnv (some ["1 2 3", "4 5 6"])
      false false [7]) = some (2, 2, [1, 2, 3, 4, 5, 6], []) ∧
    readSummary (Matrix.emptyMatrix.readMatrixDeletion stringEnv
      (some ["g a b c", "r x y z"]) true true [2])
      = some (1, 2, ["b", "c", "y", "z"], ["a", "b", "c"]) :=
  ⟨by decide, by decide, by decide⟩

end CausalTrail
